import Mathlib

/-!
The accio name variation generator and result aggregator.

A shallow embedding of `internal/intersection/intersection.go` and
`internal/matcher/matcher.go`, followed by theorems about them.

Modelling conventions.

* A Go `string` is a Lean `String`, i.e. a Go string holding valid UTF-8.
  Byte indexing `s[0]` and the conversion `string(b)` of a byte are modelled
  through the UTF-8 encoding (`utf8FirstByte`, `byteToString`).
* A Go `map[string][]output.Result` handed to a `range` loop is the list of
  its entries in the order the loop visits them; the keys of a map are
  pairwise distinct, which is the hypothesis `keysDistinct`.
* A finite `float64` value is the rational number (`ℚ`) it denotes. Every
  `float64` operation of the source is the exact operation followed by
  `f64round`, the IEEE 754 rounding to the nearest value with a 53-bit
  significand, ties to the even significand; a decimal constant of the source
  is the rounding of its decimal value (`f64const`).
* Goroutines that share a `Checker` are a list of goroutine states, and a run
  is a schedule: the list of the goroutines that take the successive steps.
* A run-time panic (index or slice out of range) is `none`.
* Library code is either embedded from its documentation (`strings.Fields`,
  `unicode.ToLower` on ASCII) or taken as a parameter: the non-ASCII part of
  the Unicode lower-case table (`tbl`) and `sort.Slice` (`sortSlice`, with its
  documented contract `SortSliceContract`).
-/

namespace Accio

/-! ## package output -/

/-- The struct `output.Result`; the `error` interface value is its message, if any. -/
structure Result where
  Site : String
  URL : String
  Exists : Bool
  Error : Option String := none
  Response : String := ""
  deriving DecidableEq, Repr, Inhabited

/-! ## package intersection -/

/-- The struct `ProfileMatch`. `Confidence` is the rational number that the stored `float64`
denotes; `NameMatches` is the entry list of a Go map. -/
structure ProfileMatch where
  Username : String
  Results : List Result
  MatchCount : Int
  Confidence : ℚ
  NameMatches : List (String × Bool) := []
  deriving DecidableEq, Repr, Inhabited

/-- The struct `AnalysisResult`. -/
structure AnalysisResult where
  Matches : List ProfileMatch
  TotalChecked : Int
  TotalFound : Int
  UniqueProfiles : Int
  deriving DecidableEq, Repr, Inhabited

/-- The inner loop of `groupResultsByUsername`: the results with `Exists` set, in order. -/
def foundResults (results : List Result) : List Result :=
  results.foldl (fun found result => if result.Exists then found ++ [result] else found) []

/-- The function `groupResultsByUsername`; `allResults` lists the entries of the map in
iteration order. -/
def groupResultsByUsername (allResults : List (String × List Result)) : List ProfileMatch :=
  allResults.foldl
    (fun found entry =>
      let foundRs := foundResults entry.2
      if foundRs.length > 0 then
        found ++ [{ Username := entry.1, Results := foundRs, MatchCount := (foundRs.length : Int),
                      Confidence := 0.0, NameMatches := [] }]
      else found)
    []

/-! ### `float64` arithmetic

The exponent of a `float64` has the lower bound of the format, so that small numbers keep the
unit `2^-1074`; the upper bound is not modelled: the values of `calculateConfidenceScores`
stay below `2^64`. Operations are rounded one by one, as on amd64: no operation is fused. -/

/-- Rounding of a rational number to the nearest integer, a tie to the even one. -/
def roundHalfEven (y : ℚ) : ℤ :=
  if y - ⌊y⌋ < 1 / 2 then ⌊y⌋
  else if y - ⌊y⌋ > 1 / 2 then ⌊y⌋ + 1
  else if ⌊y⌋ % 2 = 0 then ⌊y⌋ else ⌊y⌋ + 1

/-- The exponent of the unit in the last place of the `float64` values next to `x`: for
`2^e ≤ |x| < 2^(e+1)` it is `e - 52`, and `-1074` below the normal range. -/
def f64ulpExp (x : ℚ) : ℤ := max (Int.log 2 |x|) (-1022) - 52

/-- The rounding of a rational number to `float64`: the nearest multiple of the unit in the
last place, a tie to the even significand. -/
def f64round (x : ℚ) : ℚ :=
  (roundHalfEven (x / 2 ^ f64ulpExp x) : ℚ) * 2 ^ f64ulpExp x

/-- A decimal constant of the source converted to `float64`. -/
def f64const (q : ℚ) : ℚ := f64round q

/-- The sum of two `float64` values. -/
def f64add (a b : ℚ) : ℚ := f64round (a + b)

/-- The product of two `float64` values. -/
def f64mul (a b : ℚ) : ℚ := f64round (a * b)

/-- The conversion `float64(i)` of an integer. -/
def f64ofInt (i : Int) : ℚ := f64round (i : ℚ)

/-- The map literal `highValuePlatforms` of `calculateConfidenceScores`. -/
def highValuePlatforms : List (String × ℚ) :=
  [("GitHub", f64const 0.1), ("Twitter", f64const 0.1), ("LinkedIn", f64const 0.15),
   ("Facebook", f64const 0.1), ("Instagram", f64const 0.1)]

/-- The `switch` on `MatchCount` in `calculateConfidenceScores`. -/
def baseConfidence (matchCount : Int) : ℚ :=
  if matchCount = 1 then f64const 0.1
  else if matchCount = 2 then f64const 0.3
  else if matchCount = 3 then f64const 0.5
  else
    let c : ℚ := f64add (f64const 0.7) (f64mul (f64ofInt (matchCount - 4)) (f64const 0.05))
    if c > f64const 0.9 then f64const 0.9 else c

/-- One iteration of the bonus loop of `calculateConfidenceScores`. -/
def addBonus (confidence : ℚ) (result : Result) : ℚ :=
  match highValuePlatforms.lookup result.Site with
  | some bonus =>
    let c := f64add confidence bonus
    if c > f64const 1.0 then f64const 1.0 else c
  | none => confidence

/-- The body of the outer loop of `calculateConfidenceScores` for one match. -/
def scoreMatch (m : ProfileMatch) : ProfileMatch :=
  { m with Confidence := m.Results.foldl addBonus (baseConfidence m.MatchCount) }

/-- The function `calculateConfidenceScores`, which updates the slice in place. -/
def calculateConfidenceScores (ms : List ProfileMatch) : List ProfileMatch :=
  ms.map scoreMatch

/-- The type of `sort.Slice` at `[]ProfileMatch`: a `less` function and the slice. -/
abbrev SortSlice := (ProfileMatch → ProfileMatch → Bool) → List ProfileMatch → List ProfileMatch

/-- The `less` closure handed to `sort.Slice` by `AnalyzeResults`. -/
def moreConfident (a b : ProfileMatch) : Bool := decide (a.Confidence > b.Confidence)

/-- The function `AnalyzeResults`. -/
def AnalyzeResults (sortSlice : SortSlice) (allResults : List (String × List Result)) :
    AnalysisResult :=
  let grouped := groupResultsByUsername allResults
  let scored := calculateConfidenceScores grouped
  let sorted := sortSlice moreConfident scored
  let totalChecked : Int := (allResults.length : Int)
  let totalFound : Int := sorted.foldl (fun total m => total + m.MatchCount) 0
  let uniqueProfiles : Int :=
    sorted.foldl (fun n m => if m.Confidence ≥ f64const 0.7 then n + 1 else n) 0
  { Matches := sorted, TotalChecked := totalChecked, TotalFound := totalFound,
    UniqueProfiles := uniqueProfiles }

/-- The keys of a Go map are pairwise distinct. -/
def keysDistinct (allResults : List (String × List Result)) : Prop :=
  (allResults.map (fun entry => entry.1)).Nodup

/-- A `less` function that `sort.Slice` accepts: a strict weak ordering. -/
structure StrictWeak (less : ProfileMatch → ProfileMatch → Bool) : Prop where
  asymm : ∀ a b, less a b = true → less b a = false
  negTrans : ∀ a b c, less a b = false → less b c = false → less a c = false

/-- The documented behaviour of `sort.Slice`: it rearranges the slice, and for a strict weak
ordering no element is `less` than one placed before it. Stability is not promised. -/
structure SortSliceContract (sortSlice : SortSlice) : Prop where
  perm : ∀ less xs, (sortSlice less xs).Perm xs
  sorted : ∀ less, StrictWeak less → ∀ xs,
    (sortSlice less xs).Pairwise (fun a b => less b a = false)

/-- Insertion of `x` at the right end of a sorted prefix held in reverse: `x` moves left
past every element it is `less` than, as in the library's `insertionSortLessFunc`. -/
def insertRev (less : ProfileMatch → ProfileMatch → Bool) (x : ProfileMatch) :
    List ProfileMatch → List ProfileMatch
  | [] => [x]
  | y :: ys => if less x y then y :: insertRev less x ys else x :: y :: ys

/-- The insertion sort that `sort.Slice` runs on short slices. -/
def insertionSort : SortSlice :=
  fun less xs => (xs.foldl (fun acc x => insertRev less x acc) []).reverse

/-! ## package matcher -/

/-- The struct `NameInfo`; an omitted field has the zero value of its type. -/
structure NameInfo where
  FirstName : String := ""
  MiddleName : String := ""
  LastName : String := ""
  BirthYear : Int := 0
  deriving DecidableEq, Repr, Inhabited

/-- The library function `unicode.ToLower`: on ASCII it shifts `A`..`Z` by 32 and leaves
every other rune alone; beyond ASCII it reads the Unicode case table `tbl`. -/
def unicodeToLower (tbl : Char → Char) (r : Char) : Char :=
  if r.toNat ≤ 0x7F then
    if 0x41 ≤ r.toNat ∧ r.toNat ≤ 0x5A then Char.ofNat (r.toNat + 32) else r
  else tbl r

/-- The library function `strings.ToLower`: every rune mapped by `unicode.ToLower`. -/
def ToLower (tbl : Char → Char) (s : String) : String :=
  String.mk (s.data.map (unicodeToLower tbl))

/-- The library function `unicode.IsSpace`: the Latin-1 space characters and the
code points with the `White_Space` property. -/
def IsSpace (r : Char) : Bool :=
  let v := r.toNat
  if v ≤ 0xFF then
    v = 0x09 ∨ v = 0x0A ∨ v = 0x0B ∨ v = 0x0C ∨ v = 0x0D ∨ v = 0x20 ∨ v = 0x85 ∨ v = 0xA0
  else
    v = 0x1680 ∨ (0x2000 ≤ v ∧ v ≤ 0x200A) ∨ v = 0x2028 ∨ v = 0x2029 ∨ v = 0x202F
      ∨ v = 0x205F ∨ v = 0x3000

/-- The scan of `strings.Fields`: `cur` is the field being read, empty between fields. -/
def fieldsAux : List Char → List Char → List String
  | [], cur => if cur.isEmpty then [] else [String.mk cur]
  | c :: cs, cur =>
    if IsSpace c then
      if cur.isEmpty then fieldsAux cs [] else String.mk cur :: fieldsAux cs []
    else fieldsAux cs (cur ++ [c])

/-- The library function `strings.Fields`: the maximal runs of non-space characters. -/
def Fields (s : String) : List String := fieldsAux s.data []

/-- The library function `strings.Join`. -/
def Join (elems : List String) (sep : String) : String := sep.intercalate elems

/-- The slice expression `parts[lo:hi]`, which panics unless `lo ≤ hi ≤ len(parts)`. -/
def sliceRange (parts : List String) (lo hi : Nat) : Option (List String) :=
  if lo ≤ hi ∧ hi ≤ parts.length then some ((parts.take hi).drop lo) else none

/-- The function `ParseFullName`. -/
def ParseFullName (fullName : String) : Option NameInfo :=
  let parts := Fields fullName
  match parts.length with
  | 0 => some {}
  | 1 => do
    let p0 ← parts.get? 0
    pure { FirstName := p0 }
  | 2 => do
    let p0 ← parts.get? 0
    let p1 ← parts.get? 1
    pure { FirstName := p0, LastName := p1 }
  | _ => do
    let p0 ← parts.get? 0
    let middle ← sliceRange parts 1 (parts.length - 1)
    let last ← parts.get? (parts.length - 1)
    pure { FirstName := p0, MiddleName := Join middle " ", LastName := last }

/-- The first byte of the UTF-8 encoding of a character. -/
def utf8FirstByte (c : Char) : Nat :=
  let v := c.toNat
  if v < 0x80 then v
  else if v < 0x800 then 0xC0 + v / 0x40
  else if v < 0x10000 then 0xE0 + v / 0x1000
  else 0xF0 + v / 0x40000

/-- The index expression `s[0]`: the first byte of `s`, a panic when `s` is empty. -/
def byteAt0 (s : String) : Option Nat :=
  match s.data with
  | [] => none
  | c :: _ => some (utf8FirstByte c)

/-- The conversion `string(b)` of a byte: the one-character string of code point `b`. -/
def byteToString (b : Nat) : String := String.singleton (Char.ofNat b)

/-- The call `fmt.Sprintf("%d", i)`. -/
def formatInt (i : Int) : String :=
  match i with
  | Int.ofNat m => Nat.repr m
  | Int.negSucc m => "-" ++ Nat.repr (m + 1)

/-- The slice expression `yearStr[2:]`, a panic when `yearStr` has fewer than two bytes.
`yearStr` is a decimal numeral, so its bytes are its characters. -/
def sliceFrom2 (yearStr : String) : Option String :=
  if 2 ≤ yearStr.data.length then some (String.mk (yearStr.data.drop 2)) else none

/-- The function `removeDuplicates`: the state is the key set of the map `keys` and `list`. -/
def removeDuplicates (slice : List String) : List String :=
  (slice.foldl
    (fun (st : List String × List String) entry =>
      if entry ∈ st.1 then st else (entry :: st.1, st.2 ++ [entry]))
    ([], [])).2

/-- The year loop of `GenerateUsernames`: four suffixed forms for every variation. -/
def yearVariations (variations : List String) (yearStr shortYearStr : String) : List String :=
  variations.foldl
    (fun acc username =>
      acc ++ [username ++ yearStr, username ++ shortYearStr,
              username ++ "_" ++ yearStr, username ++ "_" ++ shortYearStr])
    []

/-- The block `if n.LastName != ""` of `GenerateUsernames`. -/
def addLastNameForms (tbl : Char → Char) (n : NameInfo) (variations : List String) :
    Option (List String) :=
  if n.LastName ≠ "" then
    (byteAt0 n.FirstName).bind fun b =>
      some (variations ++
        [ToLower tbl n.LastName,
         ToLower tbl (n.FirstName ++ n.LastName),
         ToLower tbl (n.FirstName ++ "." ++ n.LastName),
         ToLower tbl (n.FirstName ++ "_" ++ n.LastName),
         ToLower tbl (byteToString b ++ n.LastName)])
  else some variations

/-- The block `if n.MiddleName != ""` of `GenerateUsernames`. -/
def addMiddleInitialForms (tbl : Char → Char) (n : NameInfo) (variations : List String) :
    Option (List String) :=
  if n.MiddleName ≠ "" then
    (byteAt0 n.MiddleName).bind fun b =>
      let middleInitial := byteToString b
      some (variations ++
        [ToLower tbl (n.FirstName ++ middleInitial ++ n.LastName),
         ToLower tbl (n.FirstName ++ "." ++ middleInitial ++ "." ++ n.LastName),
         ToLower tbl (n.FirstName ++ "_" ++ middleInitial ++ "_" ++ n.LastName)])
  else some variations

/-- The block `if n.BirthYear > 0` of `GenerateUsernames`. -/
def addYearForms (n : NameInfo) (variations : List String) : Option (List String) :=
  if n.BirthYear > 0 then
    let yearStr := formatInt n.BirthYear
    (sliceFrom2 yearStr).bind fun shortYearStr =>
      some (variations ++ yearVariations variations yearStr shortYearStr)
  else some variations

/-- The method `NameInfo.GenerateUsernames`. -/
def GenerateUsernames (tbl : Char → Char) (n : NameInfo) : Option (List String) :=
  if n.FirstName = "" then some []
  else
    (addLastNameForms tbl n [ToLower tbl n.FirstName]).bind fun variations =>
    (addMiddleInitialForms tbl n variations).bind fun variations =>
    (addYearForms n variations).bind fun variations =>
    some (removeDuplicates variations)

/-- The block `if n.LastName != ""` of `GenerateCommonUsernames`. -/
def addCommonLastNameForms (tbl : Char → Char) (n : NameInfo) (firstName : String)
    (variations : List String) : Option (List String) :=
  if n.LastName ≠ "" then
    let lastName := ToLower tbl n.LastName
    (byteAt0 firstName).bind fun b =>
      some (variations ++
        [lastName, firstName ++ lastName, firstName ++ "." ++ lastName,
         byteToString b ++ lastName])
  else some variations

/-- The block `if n.BirthYear > 0` of `GenerateCommonUsernames`. -/
def addCommonYearForms (n : NameInfo) (firstName : String) (variations : List String) :
    Option (List String) :=
  if n.BirthYear > 0 then
    let yearStr := formatInt n.BirthYear
    (sliceFrom2 yearStr).bind fun shortYearStr =>
      some (variations ++ [firstName ++ yearStr, firstName ++ shortYearStr])
  else some variations

/-- The method `NameInfo.GenerateCommonUsernames`. -/
def GenerateCommonUsernames (tbl : Char → Char) (n : NameInfo) : Option (List String) :=
  if n.FirstName = "" then some []
  else
    let firstName := ToLower tbl n.FirstName
    (addCommonLastNameForms tbl n firstName [firstName]).bind fun variations =>
    (addCommonYearForms n firstName variations).bind fun variations =>
    some (removeDuplicates variations)

/-- The map literal `leetMap` of `toLeetspeak`. -/
def leetMap : List (Char × String) :=
  [('a', "4"), ('e', "3"), ('i', "1"), ('o', "0"), ('s', "5"), ('t', "7")]

/-- The function `toLeetspeak`. -/
def toLeetspeak (tbl : Char → Char) (s : String) : String :=
  s.data.foldl
    (fun result char =>
      match leetMap.lookup (unicodeToLower tbl char) with
      | some leet => result ++ leet
      | none => result.push char)
    ""

/-- The slice literal `commonAffixes` of `GenerateAdvancedUsernames`. -/
def commonAffixes : List String := ["the", "real", "official", "its", "im", "mr", "ms", "dr"]

/-- The leetspeak loop of `GenerateAdvancedUsernames`. -/
def leetForms (tbl : Char → Char) (basic : List String) : List String :=
  basic.foldl (fun advanced username => advanced ++ [toLeetspeak tbl username]) []

/-- The block `if n.LastName != ""` of `GenerateAdvancedUsernames`: the reversed names. -/
def addReversedForms (tbl : Char → Char) (n : NameInfo) (advanced : List String) :
    List String :=
  if n.LastName ≠ "" then
    advanced ++
      [ToLower tbl (n.LastName ++ n.FirstName),
       ToLower tbl (n.LastName ++ "." ++ n.FirstName),
       ToLower tbl (n.LastName ++ "_" ++ n.FirstName)]
  else advanced

/-- One iteration of the affix loop of `GenerateAdvancedUsernames`. -/
def addAffixForms (tbl : Char → Char) (n : NameInfo) (advanced : List String)
    (affix : String) : List String :=
  let advanced :=
    if n.FirstName ≠ "" then
      advanced ++
        [ToLower tbl (affix ++ n.FirstName), ToLower tbl (affix ++ "_" ++ n.FirstName)]
    else advanced
  if n.LastName ≠ "" then
    advanced ++ [ToLower tbl (affix ++ n.LastName), ToLower tbl (affix ++ "_" ++ n.LastName)]
  else advanced

/-- The method `NameInfo.GenerateAdvancedUsernames`. -/
def GenerateAdvancedUsernames (tbl : Char → Char) (n : NameInfo) : Option (List String) :=
  (GenerateUsernames tbl n).bind fun basic =>
    let advanced := leetForms tbl basic
    let advanced := addReversedForms tbl n advanced
    let advanced := commonAffixes.foldl (addAffixForms tbl n) advanced
    some (basic ++ removeDuplicates advanced)

/-- A case table that leaves every rune alone; it agrees with Unicode on caseless and on
lower-case runes. -/
def caselessTable : Char → Char := fun r => r

/-! ## Specification-side and auxiliary definitions -/

/-- The base score of the specification: 0.10, 0.30, 0.50 for one, two, three hits and
`min(0.90, 0.70 + 0.05 (k - 4))` from four hits on. -/
def specBase (k : Int) : ℚ :=
  if k = 1 then 10 / 100
  else if k = 2 then 30 / 100
  else if k = 3 then 50 / 100
  else min (90 / 100) (70 / 100 + 5 / 100 * ((k : ℚ) - 4))

/-- The platform bonus of the specification. -/
def specBonus (site : String) : ℚ :=
  if site = "GitHub" then 10 / 100
  else if site = "Twitter" then 10 / 100
  else if site = "LinkedIn" then 15 / 100
  else if site = "Facebook" then 10 / 100
  else if site = "Instagram" then 10 / 100
  else 0

/-- The confidence of the specification: one final clamp at 1.00. -/
def specConfidence (k : Int) (results : List Result) : ℚ :=
  min 1 (specBase k + (results.map (fun r => specBonus r.Site)).sum)

/-- The match that `groupResultsByUsername` builds for one map entry, if any. -/
def groupEntry (entry : String × List Result) : Option ProfileMatch :=
  if (foundResults entry.2).length > 0 then
    some { Username := entry.1, Results := foundResults entry.2,
           MatchCount := ((foundResults entry.2).length : Int), Confidence := 0.0,
           NameMatches := [] }
  else none

/-- A probe result reporting that the handle exists on `site`. -/
def sampleHit (site : String) : Result :=
  { Site := site, URL := "https://example.com/" ++ site, Exists := true }

/-- A probe result reporting that the handle does not exist on `site`. -/
def sampleMiss (site : String) : Result :=
  { Site := site, URL := "https://example.com/" ++ site, Exists := false }

/-- The map of `TestAnalyzeResults`, in one iteration order. -/
def sampleResults : List (String × List Result) :=
  [("johndoe", [sampleHit "GitHub", sampleHit "Twitter", sampleMiss "Facebook"]),
   ("john.doe", [sampleMiss "GitHub", sampleHit "Twitter", sampleHit "Facebook"]),
   ("jdoe", [sampleHit "GitHub", sampleMiss "Twitter", sampleMiss "Facebook"])]

/-- One candidate found on GitHub only. -/
def oneGitHubHit : List (String × List Result) :=
  [("jdoe", [sampleHit "GitHub"])]

/-- One candidate found on GitHub, Twitter, Reddit and Flickr. -/
def fourHits : List (String × List Result) :=
  [("johndoe", [sampleHit "GitHub", sampleHit "Twitter", sampleHit "Reddit",
                sampleHit "Flickr"])]

/-- The match of `sampleResults` for the candidate `jdoe`, with its confidence as stored:
`0.1 + 0.1` in `float64`. -/
def sampleMatchJdoe : ProfileMatch :=
  { Username := "jdoe", Results := [sampleHit "GitHub"], MatchCount := 1,
    Confidence := 7205759403792794 / 2 ^ 55, NameMatches := [] }

/-- One candidate found on LinkedIn and then on GitHub. -/
def linkedInThenGitHub : List (String × List Result) :=
  [("jdoe", [sampleHit "LinkedIn", sampleHit "GitHub"])]

/-- The same candidate found on GitHub and then on LinkedIn. -/
def gitHubThenLinkedIn : List (String × List Result) :=
  [("jdoe", [sampleHit "GitHub", sampleHit "LinkedIn"])]

/-- Two candidates, found on eight and on nine platforms without a bonus. -/
def eightAndNineHits : List (String × List Result) :=
  [("eight", (List.range 8).map (fun i => sampleHit ("site" ++ Nat.repr i))),
   ("nine", (List.range 9).map (fun i => sampleHit ("site" ++ Nat.repr i)))]

/-- The list of first occurrences: each string is kept where it first appears and dropped
from the rest. -/
def firstOccurrences : List String → List String
  | [] => []
  | x :: xs => x :: (firstOccurrences xs).filter (fun y => decide (y ≠ x))

/-- The forms the specification lists for a last name alone: the reversed names with an
empty first name, then the two affixed forms for every affix. -/
def lastNameOnlyForms (tbl : Char → Char) (lastName : String) : List String :=
  [ToLower tbl lastName, ToLower tbl (lastName ++ "."), ToLower tbl (lastName ++ "_")]
    ++ commonAffixes.flatMap
        (fun affix => [ToLower tbl (affix ++ lastName), ToLower tbl (affix ++ "_" ++ lastName)])

/-- The whitespace-separated tokens of a string in the words of the specification: the
string is split at every space character and the empty pieces are dropped. -/
def whitespaceTokens (s : String) : List String :=
  ((s.data.splitOnP IsSpace).filter (fun piece => !piece.isEmpty)).map String.mk

/-- The first character of a string, as a string; empty for the empty string. -/
def firstCharacter (s : String) : String :=
  match s.data with
  | [] => ""
  | c :: _ => String.singleton c

/-- The last two decimal digits of a year, as a two-character string. -/
def lastTwoDigits (year : Int) : String :=
  String.mk [Nat.digitChar (year.toNat / 10 % 10), Nat.digitChar (year.toNat % 10)]

/-- The pre-year variations of the specification, with the first characters of the first and
middle names as initials. -/
def specSeeds (tbl : Char → Char) (n : NameInfo) : List String :=
  [ToLower tbl n.FirstName]
    ++ (if n.LastName ≠ "" then
          [ToLower tbl n.LastName,
           ToLower tbl (n.FirstName ++ n.LastName),
           ToLower tbl (n.FirstName ++ "." ++ n.LastName),
           ToLower tbl (n.FirstName ++ "_" ++ n.LastName),
           ToLower tbl (firstCharacter n.FirstName ++ n.LastName)]
        else [])
    ++ (if n.MiddleName ≠ "" then
          [ToLower tbl (n.FirstName ++ firstCharacter n.MiddleName ++ n.LastName),
           ToLower tbl (n.FirstName ++ "." ++ firstCharacter n.MiddleName ++ "." ++ n.LastName),
           ToLower tbl (n.FirstName ++ "_" ++ firstCharacter n.MiddleName ++ "_" ++ n.LastName)]
        else [])

/-- The four year-suffixed forms of every variation, in order. -/
def specYearForms (seeds : List String) (year short : String) : List String :=
  seeds.flatMap (fun v => [v ++ year, v ++ short, v ++ "_" ++ year, v ++ "_" ++ short])

/-- The full tier of the specification: the first occurrences of the pre-year variations
followed, for a positive birth year, by their year-suffixed forms. -/
def specGenerateUsernames (tbl : Char → Char) (n : NameInfo) : List String :=
  firstOccurrences
    (specSeeds tbl n ++
      (if n.BirthYear > 0 then
        specYearForms (specSeeds tbl n) (formatInt n.BirthYear) (lastTwoDigits n.BirthYear)
       else []))

/-- Whether the first character of a string, if there is one, is an ASCII character. -/
def asciiInitial (s : String) : Bool :=
  match s.data with
  | [] => true
  | c :: _ => decide (c.toNat < 0x80)

/-! ## package intersection: the filters -/

/-- The slice literal `highValuePlatforms` of `FindCommonProfiles`. -/
def highValuePlatformNames : List String :=
  ["GitHub", "Twitter", "LinkedIn", "Facebook", "Instagram"]

/-- The inner loop of `FindCommonProfiles` for one result: the counter goes up at the first
platform equal to the result's site and the loop breaks (the flag). -/
def countResult (platformCount : Int) (result : Result) : Int :=
  (highValuePlatformNames.foldl
    (fun (st : Int × Bool) platform =>
      if st.2 then st
      else if result.Site = platform then (st.1 + 1, true)
      else st)
    (platformCount, false)).1

/-- The value of `platformCount` after the loop over `match.Results`. -/
def platformCount (m : ProfileMatch) : Int :=
  m.Results.foldl countResult 0

/-- The function `FindCommonProfiles`. -/
def FindCommonProfiles (ms : List ProfileMatch) : List ProfileMatch :=
  ms.foldl
    (fun commonProfiles m =>
      if platformCount m ≥ 2 then commonProfiles ++ [m] else commonProfiles)
    []

/-- The assignment `m[key] = value` on a Go map held as its entry list. -/
def mapSet (m : List (String × Bool)) (key : String) (value : Bool) : List (String × Bool) :=
  (key, value) :: m.filter (fun entry => decide (entry.1 ≠ key))

/-- The index expression `m[key]` on a `map[string]bool`: `false` for an absent key. -/
def mapGet (m : List (String × Bool)) (key : String) : Bool :=
  (m.lookup key).getD false

/-- The map `platformMatches` that `FindProfilesByPlatforms` builds for one match. -/
def platformMatches (tbl : Char → Char) (m : ProfileMatch) : List (String × Bool) :=
  m.Results.foldl (fun pm result => mapSet pm (ToLower tbl result.Site) true) []

/-- The loop of `FindProfilesByPlatforms` that computes `allFound`, with its `break`. -/
def allFound (pm : List (String × Bool)) (lowerPlatforms : List String) : Bool :=
  (lowerPlatforms.foldl
    (fun (st : Bool × Bool) platform =>
      if st.2 then st
      else if !mapGet pm platform then (false, true)
      else st)
    (true, false)).1

/-- The function `FindProfilesByPlatforms`. -/
def FindProfilesByPlatforms (tbl : Char → Char) (ms : List ProfileMatch)
    (platforms : List String) : List ProfileMatch :=
  if platforms.length = 0 then ms
  else
    let lowerPlatforms := platforms.map (ToLower tbl)
    ms.foldl
      (fun filteredProfiles m =>
        if allFound (platformMatches tbl m) lowerPlatforms then filteredProfiles ++ [m]
        else filteredProfiles)
      []

/-! ## package checker -/

/-- A Go `error` value: one without a cause, or one made by `fmt.Errorf` with `%w`. -/
inductive GoError where
  | new (msg : String)
  | wrap (msg : String) (cause : GoError)
  deriving DecidableEq, Repr, Inhabited

/-- The method `Error` of an error value. -/
def GoError.Error : GoError → String
  | GoError.new msg => msg
  | GoError.wrap msg _ => msg

/-- The function `errors.Unwrap`. -/
def GoError.Unwrap : GoError → Option GoError
  | GoError.new _ => none
  | GoError.wrap _ cause => some cause

/-- The call `fmt.Errorf("max retries exceeded: %w", lastErr)`; a nil operand is printed as
a bad verb and nothing is wrapped. -/
def retriesExceeded (lastErr : Option GoError) : GoError :=
  match lastErr with
  | some err => GoError.wrap ("max retries exceeded: " ++ err.Error) err
  | none => GoError.new "max retries exceeded: %!w(<nil>)"

/-- The struct `CheckStats`; times are clock readings. -/
structure CheckStats where
  Total : Int := 0
  Found : Int := 0
  NotFound : Int := 0
  Errors : Int := 0
  StartTime : Nat := 0
  EndTime : Nat := 0
  deriving DecidableEq, Repr, Inhabited

/-- The struct `Checker` without its HTTP client and its mutex; `Timeout` is the client's
timeout in seconds. -/
structure Checker where
  Timeout : Int
  Verbose : Bool
  UserAgent : String
  Stats : CheckStats
  deriving DecidableEq, Repr, Inhabited

/-- The function `NewChecker`, at clock reading `now`. -/
def NewChecker (timeout : Int) (verbose : Bool) (now : Nat) : Checker :=
  { Timeout := timeout, Verbose := verbose, UserAgent := "Accio/1.0",
    Stats := { StartTime := now } }

/-- The method `incrementFound`. -/
def Checker.incrementFound (c : Checker) : Checker :=
  { c with Stats := { c.Stats with Found := c.Stats.Found + 1, Total := c.Stats.Total + 1 } }

/-- The method `incrementNotFound`. -/
def Checker.incrementNotFound (c : Checker) : Checker :=
  { c with Stats := { c.Stats with NotFound := c.Stats.NotFound + 1,
                                   Total := c.Stats.Total + 1 } }

/-- The method `incrementErrors`. -/
def Checker.incrementErrors (c : Checker) : Checker :=
  { c with Stats := { c.Stats with Errors := c.Stats.Errors + 1, Total := c.Stats.Total + 1 } }

/-- The method `GetStats`, at clock reading `now`: the updated checker and the snapshot. -/
def Checker.GetStats (c : Checker) (now : Nat) : Checker × CheckStats :=
  let c1 := { c with Stats := { c.Stats with EndTime := now } }
  (c1, c1.Stats)

/-- What the outside world answers to one probe: `http.NewRequestWithContext` fails, or
`Client.Do` fails, or a response arrives with its status code and the URL of its final
request. -/
inductive Exchange where
  | requestError (err : GoError)
  | transportError (err : GoError)
  | response (statusCode : Int) (finalURL : String)
  deriving DecidableEq, Repr, Inhabited

/-- Whether `sub` occurs in `s` as a contiguous run. -/
def hasInfix (sub : List Char) : List Char → Bool
  | [] => sub.isEmpty
  | c :: cs => sub.isPrefixOf (c :: cs) || hasInfix sub cs

/-- The library function `strings.Contains`. -/
def Contains (s substr : String) : Bool := hasInfix substr.data s.data

/-- The method `Checker.CheckUsername`, given the answer of the outside world: the updated
checker, `exists` and the error. -/
def Checker.CheckUsername (c : Checker) (username site url : String) (x : Exchange) :
    Checker × Bool × Option GoError :=
  match x with
  | Exchange.requestError err => (c.incrementErrors, false, some err)
  | Exchange.transportError err => (c.incrementErrors, false, some err)
  | Exchange.response statusCode finalURL =>
    let found : Bool := decide (statusCode ≥ 200) && decide (statusCode < 300)
    let found : Bool :=
      if site = "GitHub" ∧ found = true then
        if Contains finalURL "404" then false else found
      else found
    if found then (c.incrementFound, found, none)
    else (c.incrementNotFound, found, none)

/-- What one call of `CheckUsernameWithRetry` did: the checker afterwards, the returned
pair, the number of probes made and the sleeps in milliseconds, in order. -/
structure RetryRun where
  checker : Checker
  found : Bool
  err : Option GoError
  attempts : Nat
  sleeps : List Int
  deriving DecidableEq, Repr, Inhabited

/-- The loop of `CheckUsernameWithRetry` with `remaining` iterations to go, the loop
variable `retry`, and the answers of the outside world indexed by attempt. -/
def retryLoop (username site url : String) (outcomes : Nat → Exchange) :
    Nat → Nat → Checker → Option GoError → List Int → RetryRun
  | 0, retry, c, lastErr, sleeps =>
    { checker := c, found := false, err := some (retriesExceeded lastErr),
      attempts := retry, sleeps := sleeps }
  | remaining + 1, retry, c, _, sleeps =>
    match c.CheckUsername username site url (outcomes retry) with
    | (c1, found, none) =>
      { checker := c1, found := found, err := none, attempts := retry + 1, sleeps := sleeps }
    | (c1, _, some err) =>
      retryLoop username site url outcomes remaining (retry + 1) c1 (some err)
        (sleeps ++ [((retry : Int) + 1) * 500])

/-- The method `Checker.CheckUsernameWithRetry`: the loop runs while `retry < maxRetries`,
that is `maxRetries` times, or not at all when `maxRetries ≤ 0`. -/
def Checker.CheckUsernameWithRetry (c : Checker) (username site url : String)
    (maxRetries : Int) (outcomes : Nat → Exchange) : RetryRun :=
  retryLoop username site url outcomes maxRetries.toNat 0 c none []

/-! ## package http -/

/-- The scan of `strings.Replace` for a non-empty `old`: `skip` characters of a matched
occurrence are still to be passed over. -/
def replaceAux (old new : List Char) : List Char → Nat → List Char
  | [], _ => []
  | _ :: cs, skip + 1 => replaceAux old new cs skip
  | c :: cs, 0 =>
    if old.isPrefixOf (c :: cs) then new ++ replaceAux old new cs (old.length - 1)
    else c :: replaceAux old new cs 0

/-- The library function `strings.ReplaceAll`: the non-overlapping occurrences of `old`
are replaced from left to right; an empty `old` matches before every character and at the
end. -/
def ReplaceAll (s old new : String) : String :=
  if old.data.isEmpty then
    String.mk (new.data ++ s.data.flatMap (fun c => c :: new.data))
  else String.mk (replaceAux old.data new.data s.data 0)

/-- The function `FormatURL`. -/
def FormatURL (urlFormat username : String) : String :=
  ReplaceAll urlFormat "{}" username

/-! ## package sites -/

/-- The struct `Site`; an omitted field has the zero value of its type. -/
structure Site where
  Name : String := ""
  URL : String := ""
  ErrorType : String := ""
  ErrorMsg : String := ""
  URLProbe : Bool := false
  URLFormat : String := ""
  RegexCheck : String := ""
  CheckMethod : String := ""
  deriving DecidableEq, Repr, Inhabited

/-- The shape shared by every entry of the catalog in `GetSites`. -/
def statusCodeSite (name url : String) : Site :=
  { Name := name, URL := url, ErrorType := "status_code", URLProbe := false,
    URLFormat := url, CheckMethod := "GET" }

/-- The function `GetSites`. -/
def GetSites : List Site :=
  [statusCodeSite "GitHub" "https://github.com/{}",
   statusCodeSite "Twitter" "https://twitter.com/{}",
   statusCodeSite "Instagram" "https://www.instagram.com/{}",
   statusCodeSite "Facebook" "https://www.facebook.com/{}",
   statusCodeSite "YouTube" "https://www.youtube.com/{}",
   statusCodeSite "Pinterest" "https://www.pinterest.com/{}",
   statusCodeSite "Reddit" "https://www.reddit.com/user/{}",
   statusCodeSite "Twitch" "https://www.twitch.tv/{}",
   statusCodeSite "Medium" "https://medium.com/@{}",
   statusCodeSite "Quora" "https://www.quora.com/profile/{}",
   statusCodeSite "Flickr" "https://www.flickr.com/people/{}",
   statusCodeSite "Steam" "https://steamcommunity.com/id/{}",
   statusCodeSite "Vimeo" "https://vimeo.com/{}",
   statusCodeSite "SoundCloud" "https://soundcloud.com/{}",
   statusCodeSite "Disqus" "https://disqus.com/by/{}",
   statusCodeSite "Hackernews" "https://news.ycombinator.com/user?id={}",
   statusCodeSite "Deviantart" "https://{}.deviantart.com",
   statusCodeSite "Patreon" "https://www.patreon.com/{}",
   statusCodeSite "BitBucket" "https://bitbucket.org/{}",
   statusCodeSite "GitLab" "https://gitlab.com/{}",
   statusCodeSite "Spotify" "https://open.spotify.com/user/{}",
   statusCodeSite "Behance" "https://www.behance.net/{}",
   statusCodeSite "Goodreads" "https://www.goodreads.com/{}",
   statusCodeSite "Instructables" "https://www.instructables.com/member/{}",
   statusCodeSite "Keybase" "https://keybase.io/{}",
   statusCodeSite "Kongregate" "https://www.kongregate.com/accounts/{}",
   statusCodeSite "Livejournal" "https://{}.livejournal.com",
   statusCodeSite "AngelList" "https://angel.co/{}",
   statusCodeSite "Last.fm" "https://www.last.fm/user/{}",
   statusCodeSite "Dribbble" "https://dribbble.com/{}"]

/-- The loop of `GetSiteByName` over the catalog, with its early return. -/
def findSite (name : String) : List Site → Site × Bool
  | [] => ({}, false)
  | site :: rest => if site.Name = name then (site, true) else findSite name rest

/-- The function `GetSiteByName`. -/
def GetSiteByName (name : String) : Site × Bool := findSite name GetSites

/-- The number of non-overlapping occurrences of a non-empty `sub`, counted from the left
as `strings.Count` does; `skip` characters of a counted occurrence are still to be passed. -/
def countAux (sub : List Char) : List Char → Nat → Nat
  | [], _ => 0
  | _ :: cs, skip + 1 => countAux sub cs skip
  | c :: cs, 0 =>
    if sub.isPrefixOf (c :: cs) then 1 + countAux sub cs (sub.length - 1)
    else countAux sub cs 0

/-- The number of placeholders `{}` in a template. -/
def placeholderCount (template : String) : Nat := countAux "{}".data template.data 0

/-- The Unicode lower-case mapping of the Latin-1 Supplement block: the capital letters
U+00C0..U+00DE, without the multiplication sign U+00D7, move up by 32. Every other rune
is left alone, which is what Unicode does for the remaining runes of that block. -/
def latin1Table (r : Char) : Char :=
  if 0xC0 ≤ r.toNat ∧ r.toNat ≤ 0xDE ∧ r.toNat ≠ 0xD7 then Char.ofNat (r.toNat + 32) else r

/-- The number of distinct high-value platform names among the results of a match, as the
specification counts them. -/
def distinctHighValueCount (m : ProfileMatch) : Nat :=
  (highValuePlatformNames.filter
    (fun platform => decide (platform ∈ m.Results.map (fun r => r.Site)))).length

/-- The matches of `TestFindCommonProfiles`. -/
def sampleMatches : List ProfileMatch :=
  [{ Username := "johndoe",
     Results := [sampleHit "GitHub", sampleHit "Twitter", sampleHit "Reddit"],
     MatchCount := 3, Confidence := f64const 0.7 },
   { Username := "john.doe", Results := [sampleHit "GitHub", sampleHit "Flickr"],
     MatchCount := 2, Confidence := f64const 0.4 },
   { Username := "jdoe", Results := [sampleHit "Reddit"], MatchCount := 1,
     Confidence := f64const 0.1 }]

/-- A match with two results for GitHub and none for another high-value platform. -/
def twiceGitHub : ProfileMatch :=
  { Username := "johndoe",
    Results := [sampleHit "GitHub",
                { Site := "GitHub", URL := "https://github.com/johndoe", Exists := true }],
    MatchCount := 2, Confidence := f64const 0.5 }

/-- The case-insensitive superset test of the specification: every requested platform is the
site of some result of the match, up to letter case. -/
def hitsAllPlatforms (tbl : Char → Char) (platforms : List String) (m : ProfileMatch) : Bool :=
  platforms.all
    (fun p => m.Results.any (fun r => decide (ToLower tbl r.Site = ToLower tbl p)))

/-- The error of an exchange that failed, `none` for a response. -/
def Exchange.error : Exchange → Option GoError
  | Exchange.requestError err => some err
  | Exchange.transportError err => some err
  | Exchange.response _ _ => none

/-- The existence heuristic of the specification: a response with a 2xx status, unless the
site is GitHub and the URL of the final request contains `404`. -/
def probeExists (site : String) : Exchange → Bool
  | Exchange.response statusCode finalURL =>
    decide (200 ≤ statusCode ∧ statusCode < 300
      ∧ ¬ (site = "GitHub" ∧ Contains finalURL "404" = true))
  | _ => false

/-- The checkers that `NewChecker` followed by calls of `CheckUsername` and `GetStats` can
produce. -/
inductive Reachable : Checker → Prop where
  | init (timeout : Int) (verbose : Bool) (now : Nat) :
      Reachable (NewChecker timeout verbose now)
  | probe (c : Checker) (username site url : String) (x : Exchange) :
      Reachable c → Reachable (c.CheckUsername username site url x).1
  | stats (c : Checker) (now : Nat) : Reachable c → Reachable (c.GetStats now).1

/-- Two transport failures followed by a response with status 200. -/
def failTwiceThenFound : Nat → Exchange :=
  fun attempt =>
    if attempt < 2 then Exchange.transportError (GoError.new "connection refused")
    else Exchange.response 200 "https://example.com/johndoe"

/-- A transport failure at every attempt, numbered by the attempt. -/
def alwaysFailing : Nat → Exchange :=
  fun attempt => Exchange.transportError (GoError.new ("timeout " ++ Nat.repr attempt))

/-! ## package model -/

/-- The struct `NamePart`. -/
structure NamePart where
  ID : Nat := 0
  ProfileID : Nat := 0
  NamePart : String := ""
  PartType : String := ""
  deriving DecidableEq, Repr, Inhabited

/-- The struct `Alias`. -/
structure Alias where
  ID : Nat := 0
  ProfileID : Nat := 0
  Alias : String := ""
  deriving DecidableEq, Repr, Inhabited

/-- The struct `PlatformData`. -/
structure PlatformData where
  ID : Nat := 0
  ProfileID : Nat := 0
  DataKey : String := ""
  DataValue : String := ""
  deriving DecidableEq, Repr, Inhabited

/-- The struct `Profile`; times are clock readings. -/
structure Profile where
  ID : Nat := 0
  RealName : String := ""
  Username : String := ""
  Platform : String := ""
  ProfileURL : String := ""
  ImageURL : String := ""
  Verified : Bool := false
  FollowerCount : Int := 0
  Bio : String := ""
  LastUpdated : Nat := 0
  CreatedAt : Nat := 0
  UpdatedAt : Nat := 0
  NameParts : List NamePart := []
  Aliases : List Alias := []
  PlatformData : List PlatformData := []
  deriving DecidableEq, Repr, Inhabited

/-- The function `NewProfile`, at clock reading `now`. -/
def NewProfile (realName username platform profileURL imageURL bio : String) (verified : Bool)
    (followerCount : Int) (now : Nat) : Profile :=
  { RealName := realName, Username := username, Platform := platform,
    ProfileURL := profileURL, ImageURL := imageURL, Bio := bio, Verified := verified,
    FollowerCount := followerCount, LastUpdated := now }

/-- The method `Profile.UniqueKey`. -/
def Profile.UniqueKey (p : Profile) : String :=
  p.Platform ++ ":" ++ p.Username

/-- The transliteration of one character in the words of the specification: a character
whose lower-case form is one of `a`, `e`, `i`, `o`, `s`, `t` becomes the digit of that
letter, every other character stays. -/
def specLeetChar (tbl : Char → Char) (c : Char) : Char :=
  if unicodeToLower tbl c = 'a' then '4'
  else if unicodeToLower tbl c = 'e' then '3'
  else if unicodeToLower tbl c = 'i' then '1'
  else if unicodeToLower tbl c = 'o' then '0'
  else if unicodeToLower tbl c = 's' then '5'
  else if unicodeToLower tbl c = 't' then '7'
  else c

/-- The common tier in the words of the specification: the first occurrences of the first
name, then for a last name the four forms with it, then for a positive birth year the first
name with the year and with its last two digits. -/
def specCommonUsernames (tbl : Char → Char) (n : NameInfo) : List String :=
  firstOccurrences
    ([ToLower tbl n.FirstName]
      ++ (if n.LastName ≠ "" then
            [ToLower tbl n.LastName,
             ToLower tbl n.FirstName ++ ToLower tbl n.LastName,
             ToLower tbl n.FirstName ++ "." ++ ToLower tbl n.LastName,
             firstCharacter (ToLower tbl n.FirstName) ++ ToLower tbl n.LastName]
          else [])
      ++ (if n.BirthYear > 0 then
            [ToLower tbl n.FirstName ++ formatInt n.BirthYear,
             ToLower tbl n.FirstName ++ lastTwoDigits n.BirthYear]
          else []))

/-- A map with two candidates found on GitHub only, in one iteration order; the other
order is its reverse. -/
def tiedResults : List (String × List Result) :=
  [("jdoe", [sampleHit "GitHub"]), ("johnd", [sampleHit "GitHub"])]

/-! ## package checker: goroutines that share a `Checker`

A call of `CheckUsername` touches the shared counters only inside the increment method it
ends with; that method is `Lock`, the read and the write of `++` on one counter, the read and
the write of `++` on `Total`, and the deferred `Unlock`. Goroutines take these steps one at a
time in any order; `Lock` on a locked mutex does not return, which a schedule shows as a step
that changes nothing. -/

/-- The counters that the increment methods bump next to `Total`. -/
inductive Counter where
  | found
  | notFound
  | errors
  deriving DecidableEq, Repr, Inhabited

/-- The arguments of one call of `CheckUsername` and the answer of the outside world. -/
structure Call where
  username : String
  site : String
  url : String
  answer : Exchange
  deriving DecidableEq, Repr, Inhabited

/-- The increment method that a call of `CheckUsername` runs, found by the tests of
`Checker.CheckUsername`. -/
def Call.increment (call : Call) : Counter :=
  match call.answer with
  | Exchange.requestError _ => Counter.errors
  | Exchange.transportError _ => Counter.errors
  | Exchange.response statusCode finalURL =>
    let found : Bool := decide (statusCode ≥ 200) && decide (statusCode < 300)
    let found : Bool :=
      if call.site = "GitHub" ∧ found = true then
        if Contains finalURL "404" then false else found
      else found
    if found then Counter.found else Counter.notFound

/-- The statement that a goroutine executes next inside its increment method. -/
inductive Pc where
  | lock
  | loadCounter
  | storeCounter
  | loadTotal
  | storeTotal
  | unlock
  | done
  deriving DecidableEq, Repr, Inhabited

/-- A goroutine inside a call of `CheckUsername`: the counter of its increment method, its
next statement and the value read by its pending `++`. -/
structure Goroutine where
  counter : Counter
  pc : Pc
  reg : Int
  deriving DecidableEq, Repr, Inhabited

/-- The checker as the goroutines share it: the counters, the state of `c.Mutex`, and the
goroutines. -/
structure Shared where
  stats : CheckStats
  locked : Bool
  goroutines : List Goroutine
  deriving DecidableEq, Repr, Inhabited

/-- The read of a counter. -/
def CheckStats.read (s : CheckStats) : Counter → Int
  | Counter.found => s.Found
  | Counter.notFound => s.NotFound
  | Counter.errors => s.Errors

/-- The write of a counter. -/
def CheckStats.write (s : CheckStats) (k : Counter) (v : Int) : CheckStats :=
  match k with
  | Counter.found => { s with Found := v }
  | Counter.notFound => { s with NotFound := v }
  | Counter.errors => { s with Errors := v }

/-- One step of goroutine `i`. -/
def Shared.step (s : Shared) (i : Nat) : Shared :=
  match s.goroutines.get? i with
  | none => s
  | some g =>
    match g.pc with
    | Pc.lock =>
      if s.locked then s
      else { s with locked := true,
                    goroutines := s.goroutines.set i { g with pc := Pc.loadCounter } }
    | Pc.loadCounter =>
      { s with goroutines :=
          s.goroutines.set i { g with pc := Pc.storeCounter, reg := s.stats.read g.counter } }
    | Pc.storeCounter =>
      { s with stats := s.stats.write g.counter (g.reg + 1),
               goroutines := s.goroutines.set i { g with pc := Pc.loadTotal } }
    | Pc.loadTotal =>
      { s with goroutines :=
          s.goroutines.set i { g with pc := Pc.storeTotal, reg := s.stats.Total } }
    | Pc.storeTotal =>
      { s with stats := { s.stats with Total := g.reg + 1 },
               goroutines := s.goroutines.set i { g with pc := Pc.unlock } }
    | Pc.unlock =>
      { s with locked := false,
               goroutines := s.goroutines.set i { g with pc := Pc.done } }
    | Pc.done => s

/-- A run: the goroutines named by the schedule take one step each, in order. -/
def Shared.run (s : Shared) (schedule : List Nat) : Shared :=
  schedule.foldl Shared.step s

/-- The calls of `CheckUsername` started on one checker, each in its own goroutine. -/
def spawn (c : Checker) (calls : List Call) : Shared :=
  { stats := c.Stats, locked := false,
    goroutines := calls.map (fun call => { counter := call.increment, pc := Pc.lock, reg := 0 }) }

/-- Whether every call has completed. -/
def Shared.allDone (s : Shared) : Bool :=
  s.goroutines.all (fun g => decide (g.pc = Pc.done))

/-- The same calls made one after the other. -/
def sequential (c : Checker) (calls : List Call) : Checker :=
  calls.foldl
    (fun c call => (c.CheckUsername call.username call.site call.url call.answer).1) c

/-- The schedule that runs the goroutines one after the other: six steps each. -/
def sequentialSchedule (n : Nat) : List Nat :=
  (List.range n).flatMap (fun i => List.replicate 6 i)

/-- One step of goroutine `i` when `Lock` never blocks: the counters without mutual
exclusion, for contrast. -/
def Shared.stepUnguarded (s : Shared) (i : Nat) : Shared :=
  match s.goroutines.get? i with
  | none => s
  | some g =>
    match g.pc with
    | Pc.lock =>
      { s with locked := true,
               goroutines := s.goroutines.set i { g with pc := Pc.loadCounter } }
    | _ => s.step i

/-- Two calls that find the username and one whose request fails. -/
def threeCalls : List Call :=
  [{ username := "johndoe", site := "Reddit", url := "https://reddit.com/user/johndoe",
     answer := Exchange.response 200 "https://reddit.com/user/johndoe" },
   { username := "johndoe", site := "GitHub", url := "https://github.com/johndoe",
     answer := Exchange.response 200 "https://github.com/johndoe" },
   { username := "johndoe", site := "Flickr", url := "https://flickr.com/people/johndoe",
     answer := Exchange.transportError (GoError.new "timeout") }]

/-- Whether a goroutine about to run this statement holds the mutex. -/
def Pc.holdsLock : Pc → Bool
  | Pc.lock => false
  | Pc.done => false
  | _ => true

/-- Whether a goroutine about to run this statement has written its counter. -/
def Pc.wroteCounter : Pc → Bool
  | Pc.loadTotal => true
  | Pc.storeTotal => true
  | Pc.unlock => true
  | Pc.done => true
  | _ => false

/-- Whether a goroutine about to run this statement has written `Total`. -/
def Pc.wroteTotal : Pc → Bool
  | Pc.unlock => true
  | Pc.done => true
  | _ => false

/-- What holds of the shared checker at every moment of a run that started from the
counters `s0`: each counter has grown by the number of goroutines that have written it, the
mutex is locked exactly when one goroutine is between `Lock` and `Unlock` and then no other
is, and the value read by a pending `++` is still the value of its counter. -/
structure Invariant (s0 : CheckStats) (s : Shared) : Prop where
  counter : ∀ k, s.stats.read k
    = s0.read k
      + (s.goroutines.countP (fun g => decide (g.counter = k) && g.pc.wroteCounter) : Int)
  total : s.stats.Total = s0.Total + (s.goroutines.countP (fun g => g.pc.wroteTotal) : Int)
  times : s.stats.StartTime = s0.StartTime ∧ s.stats.EndTime = s0.EndTime
  mutex : s.goroutines.countP (fun g => g.pc.holdsLock) = if s.locked then 1 else 0
  regCounter : ∀ g ∈ s.goroutines, g.pc = Pc.storeCounter → g.reg = s.stats.read g.counter
  regTotal : ∀ g ∈ s.goroutines, g.pc = Pc.storeTotal → g.reg = s.stats.Total

/-- A run in which `Lock` never blocks. -/
def Shared.runUnguarded (s : Shared) (schedule : List Nat) : Shared :=
  schedule.foldl Shared.stepUnguarded s

/-- A schedule of three goroutines in which the second and the third try to lock the mutex
while the first holds it. -/
def interleavedSchedule : List Nat :=
  [0, 1, 0, 2, 0, 0, 1, 0, 0, 1, 1, 1, 1, 1, 1, 2, 2, 2, 2, 2, 2]

/-- A schedule of two goroutines in which both read the counter before either writes it. -/
def racingSchedule : List Nat :=
  [0, 1, 0, 1, 0, 0, 0, 0, 1, 1, 1, 1]

end Accio

namespace Accio

/-! # Theorems -/

/-! ## Lemmas: grouping -/

theorem foundResults_foldl (acc rs : List Result) :
    rs.foldl (fun found result => if result.Exists then found ++ [result] else found) acc
      = acc ++ rs.filter (fun r => r.Exists) := by
  induction rs generalizing acc with
  | nil => simp
  | cons r rs ih =>
    simp only [List.foldl_cons, ih, List.filter_cons]
    cases r.Exists <;> simp

theorem foundResults_eq_filter (rs : List Result) :
    foundResults rs = rs.filter (fun r => r.Exists) := by
  simp [foundResults, foundResults_foldl]

theorem group_foldl (acc : List ProfileMatch) (all : List (String × List Result)) :
    all.foldl
      (fun found entry =>
        let foundRs := foundResults entry.2
        if foundRs.length > 0 then
          found ++ [{ Username := entry.1, Results := foundRs,
                      MatchCount := (foundRs.length : Int),
                      Confidence := 0.0, NameMatches := [] }]
        else found) acc
      = acc ++ all.filterMap groupEntry := by
  induction all generalizing acc with
  | nil => simp
  | cons e all ih =>
    simp only [List.foldl_cons, ih, List.filterMap_cons, groupEntry]
    split <;> simp

theorem groupResultsByUsername_eq (all : List (String × List Result)) :
    groupResultsByUsername all = all.filterMap groupEntry := by
  simp [groupResultsByUsername, group_foldl]


/-! ## Lemmas: `float64` rounding and scoring -/

theorem roundHalfEven_abs_sub_le (y : ℚ) : |(roundHalfEven y : ℚ) - y| ≤ 1 / 2 := by
  have h1 := Int.floor_le y
  have h2 := Int.lt_floor_add_one y
  unfold roundHalfEven
  split_ifs with a b c
  · rw [abs_le]; constructor <;> linarith
  · rw [abs_le]; push_cast; constructor <;> linarith
  · rw [abs_le]; constructor <;> linarith
  · rw [abs_le]; push_cast; constructor <;> linarith

theorem roundHalfEven_eq_of_lt (y : ℚ) (m : ℤ) (h : |y - m| < 1 / 2) :
    roundHalfEven y = m := by
  rw [abs_lt] at h
  obtain ⟨h1, h2⟩ := h
  have hf1 := Int.floor_le y
  have hf2 := Int.lt_floor_add_one y
  by_cases hm : (m : ℚ) ≤ y
  · have hfl : ⌊y⌋ = m := by
      rw [Int.floor_eq_iff]
      constructor
      · exact hm
      · linarith
    unfold roundHalfEven
    rw [hfl, if_pos (by linarith)]
  · push_neg at hm
    have hfl : ⌊y⌋ = m - 1 := by
      rw [Int.floor_eq_iff]
      push_cast
      constructor <;> linarith
    unfold roundHalfEven
    rw [hfl]
    push_cast
    rw [if_neg (by linarith), if_pos (by linarith)]
    ring

theorem roundHalfEven_tie (m : ℤ) :
    roundHalfEven ((m : ℚ) + 1 / 2) = if m % 2 = 0 then m else m + 1 := by
  have hfl : ⌊(m : ℚ) + 1 / 2⌋ = m := by
    rw [Int.floor_eq_iff]
    constructor <;> linarith
  unfold roundHalfEven
  rw [hfl, if_neg (by linarith), if_neg (by linarith)]

theorem roundHalfEven_intCast (m : ℤ) : roundHalfEven (m : ℚ) = m :=
  roundHalfEven_eq_of_lt _ m (by simp)

theorem f64ulpExp_eq (x : ℚ) (e : ℤ) (he : -1022 ≤ e) (hlo : (2 : ℚ) ^ e ≤ |x|)
    (hhi : |x| < (2 : ℚ) ^ (e + 1)) : f64ulpExp x = e - 52 := by
  have hpos : 0 < |x| := lt_of_lt_of_le (by positivity) hlo
  have h1 : e ≤ Int.log 2 |x| := by
    rw [← Int.zpow_le_iff_le_log (by norm_num) hpos]
    simpa using hlo
  have h2 : Int.log 2 |x| < e + 1 := by
    rw [← Int.lt_zpow_iff_log_lt (by norm_num) hpos]
    simpa using hhi
  unfold f64ulpExp
  have : Int.log 2 |x| = e := by omega
  rw [this, max_eq_left he]

/-- Evaluation of the rounding away from a tie. -/
theorem f64round_eq (x : ℚ) (e m : ℤ) (he : -1022 ≤ e) (hlo : (2 : ℚ) ^ e ≤ |x|)
    (hhi : |x| < (2 : ℚ) ^ (e + 1)) (hm : |x / 2 ^ (e - 52) - m| < 1 / 2) :
    f64round x = m * 2 ^ (e - 52) := by
  unfold f64round
  rw [f64ulpExp_eq x e he hlo hhi, roundHalfEven_eq_of_lt _ m hm]

/-- Evaluation of the rounding at a tie. -/
theorem f64round_tie (x : ℚ) (e m : ℤ) (he : -1022 ≤ e) (hlo : (2 : ℚ) ^ e ≤ |x|)
    (hhi : |x| < (2 : ℚ) ^ (e + 1)) (hm : x / 2 ^ (e - 52) = m + 1 / 2) :
    f64round x = (if m % 2 = 0 then m else m + 1 : ℤ) * 2 ^ (e - 52) := by
  unfold f64round
  rw [f64ulpExp_eq x e he hlo hhi, hm, roundHalfEven_tie]

theorem f64round_zero : f64round 0 = 0 := by
  unfold f64round
  have : roundHalfEven (0 / 2 ^ f64ulpExp 0) = 0 := by
    rw [zero_div]
    exact_mod_cast roundHalfEven_intCast 0
  rw [this]
  simp

theorem f64round_abs_sub_le (x : ℚ) :
    |f64round x - x| ≤ 2 ^ f64ulpExp x / 2 := by
  have hu : (0 : ℚ) < 2 ^ f64ulpExp x := by positivity
  have h := roundHalfEven_abs_sub_le (x / 2 ^ f64ulpExp x)
  have hx : f64round x - x
      = ((roundHalfEven (x / 2 ^ f64ulpExp x) : ℚ) - x / 2 ^ f64ulpExp x) * 2 ^ f64ulpExp x := by
    unfold f64round
    field_simp
  rw [hx, abs_mul, abs_of_pos hu]
  calc |(roundHalfEven (x / 2 ^ f64ulpExp x) : ℚ) - x / 2 ^ f64ulpExp x| * 2 ^ f64ulpExp x
      ≤ 1 / 2 * 2 ^ f64ulpExp x := mul_le_mul_of_nonneg_right h hu.le
    _ = 2 ^ f64ulpExp x / 2 := by ring

theorem f64ulpExp_le (x : ℚ) (k : ℤ) (hk : 0 ≤ k) (h : |x| < 2 ^ (k + 1)) :
    f64ulpExp x ≤ k - 52 := by
  unfold f64ulpExp
  have : Int.log 2 |x| ≤ k := by
    by_cases hx : 0 < |x|
    · have : Int.log 2 |x| < k + 1 := by
        rw [← Int.lt_zpow_iff_log_lt (by norm_num) hx]
        simpa using h
      omega
    · have h0 : |x| = 0 := le_antisymm (not_lt.1 hx) (abs_nonneg x)
      rw [h0, Int.log_zero_right]
      omega
  have := max_le this (show (-1022 : ℤ) ≤ k by omega)
  omega

/-- The rounding error below 2 is at most `2^-53`. -/
theorem f64round_error_lt_two (x : ℚ) (h : |x| < 2) : |f64round x - x| ≤ 1 / 2 ^ 53 := by
  have h1 := f64round_abs_sub_le x
  have h2 := f64ulpExp_le x 0 (by norm_num) (by simpa using h)
  have h3 : (2 : ℚ) ^ f64ulpExp x ≤ 2 ^ (0 - 52 : ℤ) :=
    zpow_le_zpow_right₀ (by norm_num) h2
  have h4 : (2 : ℚ) ^ (0 - 52 : ℤ) = 1 / 2 ^ 52 := by norm_num
  rw [h4] at h3
  calc |f64round x - x| ≤ 2 ^ f64ulpExp x / 2 := h1
    _ ≤ (1 / 2 ^ 52) / 2 := by linarith
    _ = 1 / 2 ^ 53 := by norm_num

/-- The relative rounding error in the normal range is at most `2^-53`. -/
theorem f64round_rel_error (x : ℚ) (h : (2 : ℚ) ^ (-1022 : ℤ) ≤ |x|) :
    |f64round x - x| ≤ |x| / 2 ^ 53 := by
  have hpos : 0 < |x| := lt_of_lt_of_le (by positivity) h
  have h1 := f64round_abs_sub_le x
  have hlog : (-1022 : ℤ) ≤ Int.log 2 |x| := by
    rw [← Int.zpow_le_iff_le_log (by norm_num) hpos]
    simpa using h
  have hu : f64ulpExp x = Int.log 2 |x| - 52 := by
    unfold f64ulpExp
    rw [max_eq_left hlog]
  have h2 : ((2 : ℕ) : ℚ) ^ Int.log 2 |x| ≤ |x| := Int.zpow_log_le_self (by norm_num) hpos
  rw [hu, zpow_sub₀ (by norm_num)] at h1
  have h3 : (2 : ℚ) ^ Int.log 2 |x| ≤ |x| := by simpa using h2
  calc |f64round x - x| ≤ 2 ^ Int.log 2 |x| / 2 ^ (52 : ℤ) / 2 := h1
    _ = 2 ^ Int.log 2 |x| / 2 ^ 53 := by
      rw [div_div]; norm_num
    _ ≤ |x| / 2 ^ 53 := by
      apply div_le_div_of_nonneg_right h3 (by positivity)

/-- Evaluation of the rounding of a positive number away from a tie. -/
theorem f64round_pos_eq (x : ℚ) (e m : ℤ) (v : ℚ) (he : -1022 ≤ e) (hlo : (2 : ℚ) ^ e ≤ x)
    (hhi : x < (2 : ℚ) ^ (e + 1)) (h1 : (m : ℚ) - 1 / 2 < x / 2 ^ (e - 52))
    (h2 : x / 2 ^ (e - 52) < (m : ℚ) + 1 / 2) (hv : v = m * 2 ^ (e - 52)) :
    f64round x = v := by
  have hx : 0 < x := lt_of_lt_of_le (by positivity) hlo
  rw [hv]
  apply f64round_eq x e m he
  · rwa [abs_of_pos hx]
  · rwa [abs_of_pos hx]
  · rw [abs_lt]; constructor <;> linarith

/-- Evaluation of the rounding of a positive number at a tie. -/
theorem f64round_pos_tie (x : ℚ) (e m : ℤ) (v : ℚ) (he : -1022 ≤ e) (hlo : (2 : ℚ) ^ e ≤ x)
    (hhi : x < (2 : ℚ) ^ (e + 1)) (h1 : x / 2 ^ (e - 52) = (m : ℚ) + 1 / 2)
    (hv : v = (if m % 2 = 0 then m else m + 1 : ℤ) * 2 ^ (e - 52)) :
    f64round x = v := by
  have hx : 0 < x := lt_of_lt_of_le (by positivity) hlo
  rw [hv]
  apply f64round_tie x e m he
  · rwa [abs_of_pos hx]
  · rwa [abs_of_pos hx]
  · exact h1

theorem f64const_0_05 : f64const 0.05 = 7205759403792794 / 2 ^ 57 := by
  apply f64round_pos_eq _ (-5) 7205759403792794 <;> norm_num

theorem f64const_0_1 : f64const 0.1 = 7205759403792794 / 2 ^ 56 := by
  apply f64round_pos_eq _ (-4) 7205759403792794 <;> norm_num

theorem f64const_0_15 : f64const 0.15 = 5404319552844595 / 2 ^ 55 := by
  apply f64round_pos_eq _ (-3) 5404319552844595 <;> norm_num

theorem f64const_0_3 : f64const 0.3 = 5404319552844595 / 2 ^ 54 := by
  apply f64round_pos_eq _ (-2) 5404319552844595 <;> norm_num

theorem f64const_0_5 : f64const 0.5 = 1 / 2 := by
  apply f64round_pos_eq _ (-1) 4503599627370496 <;> norm_num

theorem f64const_0_7 : f64const 0.7 = 6305039478318694 / 2 ^ 53 := by
  apply f64round_pos_eq _ (-1) 6305039478318694 <;> norm_num

theorem f64const_0_9 : f64const 0.9 = 8106479329266893 / 2 ^ 53 := by
  apply f64round_pos_eq _ (-1) 8106479329266893 <;> norm_num

theorem f64const_1_0 : f64const 1.0 = 1 := by
  apply f64round_pos_eq _ 0 4503599627370496 <;> norm_num

theorem specBase_le (k : Int) : specBase k ≤ 9 / 10 := by
  unfold specBase
  split_ifs <;> norm_num

theorem specBonus_nonneg (site : String) : 0 ≤ specBonus site := by
  unfold specBonus
  split_ifs <;> norm_num

theorem lookup_highValue (site : String) :
    highValuePlatforms.lookup site
      = if site = "GitHub" then some (f64const 0.1)
        else if site = "Twitter" then some (f64const 0.1)
        else if site = "LinkedIn" then some (f64const 0.15)
        else if site = "Facebook" then some (f64const 0.1)
        else if site = "Instagram" then some (f64const 0.1)
        else none := by
  have key : ∀ (k : String) (v : ℚ) (es : List (String × ℚ)),
      List.lookup site ((k, v) :: es) = if site = k then some v else List.lookup site es := by
    intro k v es
    by_cases h : site = k
    · simp [List.lookup, h]
    · have hb : (site == k) = false := by simpa using h
      simp [List.lookup, h, hb]
  simp only [highValuePlatforms, key, List.lookup_nil]

/-- The entry of a site in the bonus table: none with exact bonus 0, or the float64 constant
of its exact bonus, which is 0.10 or 0.15. -/
theorem bonus_cases (site : String) :
    (highValuePlatforms.lookup site = none ∧ specBonus site = 0)
      ∨ (highValuePlatforms.lookup site = some (7205759403792794 / 2 ^ 56)
          ∧ specBonus site = 10 / 100)
      ∨ (highValuePlatforms.lookup site = some (5404319552844595 / 2 ^ 55)
          ∧ specBonus site = 15 / 100) := by
  rw [lookup_highValue, f64const_0_1, f64const_0_15]
  unfold specBonus
  by_cases h1 : site = "GitHub"
  · right; left; simp [h1]
  by_cases h2 : site = "Twitter"
  · right; left; simp [h2]
  by_cases h3 : site = "LinkedIn"
  · right; right; simp [h3]
  by_cases h4 : site = "Facebook"
  · right; left; simp [h4]
  by_cases h5 : site = "Instagram"
  · right; left; simp [h5]
  left
  simp [h1, h2, h3, h4, h5]

theorem abs_min_one_sub (a b : ℚ) : |min 1 a - min 1 b| ≤ |a - b| := by
  rcases le_total a 1 with ha | ha <;> rcases le_total b 1 with hb | hb
  · rw [min_eq_right ha, min_eq_right hb]
  · rw [min_eq_right ha, min_eq_left hb, abs_le]
    have := abs_nonneg (a - b)
    have h2 : a - b ≤ |a - b| := le_abs_self _
    have h3 : -(a - b) ≤ |a - b| := neg_le_abs _
    constructor <;> linarith
  · rw [min_eq_left ha, min_eq_right hb, abs_le]
    have h2 : a - b ≤ |a - b| := le_abs_self _
    have h3 : -(a - b) ≤ |a - b| := neg_le_abs _
    constructor <;> linarith
  · rw [min_eq_left ha, min_eq_left hb]
    simp

/-- One step of the bonus loop against one step of the exact recurrence. -/
theorem addBonus_error (c e : ℚ) (hc0 : 0 ≤ c) (hc1 : c ≤ 1) (he : e ≤ 1) (r : Result) :
    c ≤ addBonus c r ∧ addBonus c r ≤ 1
      ∧ |addBonus c r - min 1 (e + specBonus r.Site)| ≤ |c - e| + 1 / 2 ^ 52 := by
  have key : ∀ b bx : ℚ, 1 / 10 ≤ b → b ≤ 1 / 5 → |b - bx| ≤ 1 / 2 ^ 54 →
      c ≤ (if f64add c b > f64const 1.0 then f64const 1.0 else f64add c b)
        ∧ (if f64add c b > f64const 1.0 then f64const 1.0 else f64add c b) ≤ 1
        ∧ |(if f64add c b > f64const 1.0 then f64const 1.0 else f64add c b) - min 1 (e + bx)|
            ≤ |c - e| + 1 / 2 ^ 52 := by
    intro b bx hb1 hb2 hbx
    have hx : |c + b| < 2 := by
      rw [abs_lt]; constructor <;> linarith
    have herr := f64round_error_lt_two (c + b) hx
    have hmin : (if f64add c b > f64const 1.0 then f64const 1.0 else f64add c b)
        = min 1 (f64add c b) := by
      rw [f64const_1_0]
      split_ifs with h
      · rw [min_eq_left (le_of_lt h)]
      · rw [min_eq_right (not_lt.1 h)]
    rw [hmin]
    have hlow : c ≤ f64add c b := by
      unfold f64add
      have := (abs_le.1 herr).1
      have h53 : (1 : ℚ) / 2 ^ 53 ≤ 1 / 10 := by norm_num
      linarith
    refine ⟨le_min hc1 hlow, min_le_left _ _, ?_⟩
    refine le_trans (abs_min_one_sub _ _) ?_
    have e1 : f64add c b - (e + bx) = (f64round (c + b) - (c + b)) + (c - e) + (b - bx) := by
      unfold f64add; ring
    rw [e1]
    refine le_trans (abs_add_three _ _ _) ?_
    have h54 : (1 : ℚ) / 2 ^ 53 + 1 / 2 ^ 54 ≤ 1 / 2 ^ 52 := by norm_num
    linarith
  unfold addBonus
  rcases bonus_cases r.Site with ⟨h1, h2⟩ | ⟨h1, h2⟩ | ⟨h1, h2⟩
  · rw [h1, h2, add_zero, min_eq_right he]
    simp only []
    refine ⟨le_refl _, hc1, ?_⟩
    have : (0 : ℚ) ≤ 1 / 2 ^ 52 := by positivity
    linarith
  · rw [h1, h2]
    exact key _ _ (by norm_num) (by norm_num) (by rw [abs_le]; constructor <;> norm_num)
  · rw [h1, h2]
    exact key _ _ (by norm_num) (by norm_num) (by rw [abs_le]; constructor <;> norm_num)

theorem sum_specBonus_nonneg (rs : List Result) :
    0 ≤ (rs.map (fun r => specBonus r.Site)).sum :=
  List.sum_nonneg (by
    intro x hx
    obtain ⟨r, _, rfl⟩ := List.mem_map.1 hx
    exact specBonus_nonneg _)

/-- The bonus loop against the exact clamped sum. -/
theorem foldl_addBonus_error (rs : List Result) (c e : ℚ) (hc0 : 0 ≤ c) (hc1 : c ≤ 1)
    (he : e ≤ 1) :
    c ≤ rs.foldl addBonus c ∧ rs.foldl addBonus c ≤ 1
      ∧ |rs.foldl addBonus c - min 1 (e + (rs.map (fun r => specBonus r.Site)).sum)|
          ≤ |c - e| + rs.length / 2 ^ 52 := by
  induction rs generalizing c e with
  | nil => simp [hc1, min_eq_right he]
  | cons r rs ih =>
    obtain ⟨a1, a2, a3⟩ := addBonus_error c e hc0 hc1 he r
    obtain ⟨b1, b2, b3⟩ := ih (addBonus c r) (min 1 (e + specBonus r.Site))
      (le_trans hc0 a1) a2 (min_le_left _ _)
    have hs := sum_specBonus_nonneg rs
    have hb := specBonus_nonneg r.Site
    have hmin : min 1 (min 1 (e + specBonus r.Site) + (rs.map (fun r => specBonus r.Site)).sum)
        = min 1 (e + (specBonus r.Site + (rs.map (fun r => specBonus r.Site)).sum)) := by
      rcases le_total (e + specBonus r.Site) 1 with h | h
      · rw [min_eq_right h, add_assoc]
      · rw [min_eq_left h, min_eq_left (by linarith), min_eq_left (by linarith)]
    rw [List.foldl_cons, List.map_cons, List.sum_cons, ← hmin]
    refine ⟨le_trans a1 b1, b2, le_trans b3 ?_⟩
    rw [List.length_cons]
    push_cast
    have : ((rs.length : ℚ) + 1) / 2 ^ 52 = (rs.length : ℚ) / 2 ^ 52 + 1 / 2 ^ 52 := by ring
    rw [this]
    linarith

theorem f64round_ge_of_pos (x : ℚ) (hx : (2 : ℚ) ^ (-1022 : ℤ) ≤ x) :
    x * (1 - 1 / 2 ^ 53) ≤ f64round x := by
  have hpos : 0 < x := lt_of_lt_of_le (by positivity) hx
  have h := f64round_rel_error x (by rwa [abs_of_pos hpos])
  rw [abs_of_pos hpos] at h
  have := (abs_le.1 h).1
  have e : x * (1 - 1 / 2 ^ 53) = x - x / 2 ^ 53 := by ring
  rw [e]
  linarith

theorem tiny_le (x : ℚ) (hx : 1 / 100 ≤ x) : (2 : ℚ) ^ (-1022 : ℤ) ≤ x := by
  have h : (2 : ℚ) ^ (-1022 : ℤ) ≤ 2 ^ (-7 : ℤ) := zpow_le_zpow_right₀ (by norm_num) (by norm_num)
  have h2 : (2 : ℚ) ^ (-7 : ℤ) ≤ 1 / 100 := by norm_num
  exact le_trans (le_trans h h2) hx

/-- From nine hits on the base is clamped to the constant 0.9. -/
theorem baseConfidence_clamped (k : Int) (hk : 9 ≤ k) : baseConfidence k = f64const 0.9 := by
  unfold baseConfidence
  rw [if_neg (by omega), if_neg (by omega), if_neg (by omega)]
  simp only []
  rw [if_pos]
  have hj : (5 : ℚ) ≤ ((k - 4 : Int) : ℚ) := by
    have : (5 : Int) ≤ k - 4 := by omega
    exact_mod_cast this
  have h1 : (499 : ℚ) / 100 ≤ f64ofInt (k - 4) := by
    have := f64round_ge_of_pos ((k - 4 : Int) : ℚ) (tiny_le _ (by linarith))
    unfold f64ofInt
    have h53 : (0 : ℚ) ≤ 1 - 1 / 2 ^ 53 := by norm_num
    have h53' : (499 : ℚ) / 100 ≤ 5 * (1 - 1 / 2 ^ 53) := by norm_num
    nlinarith
  have h2 : (249 : ℚ) / 1000 ≤ f64mul (f64ofInt (k - 4)) (f64const 0.05) := by
    rw [f64const_0_05]
    have hp : (2495 : ℚ) / 10000 ≤ f64ofInt (k - 4) * (7205759403792794 / 2 ^ 57) := by
      have : (0.05 : ℚ) ≤ 7205759403792794 / 2 ^ 57 := by norm_num
      nlinarith
    have := f64round_ge_of_pos _ (tiny_le _ (le_trans (by norm_num) hp))
    unfold f64mul
    have h53' : (249 : ℚ) / 1000 ≤ 2495 / 10000 * (1 - 1 / 2 ^ 53) := by norm_num
    have h53 : (0 : ℚ) ≤ 1 - 1 / 2 ^ 53 := by norm_num
    nlinarith
  have h3 : (94 : ℚ) / 100
      ≤ f64add (f64const 0.7) (f64mul (f64ofInt (k - 4)) (f64const 0.05)) := by
    have hs : (948 : ℚ) / 1000
        ≤ f64const 0.7 + f64mul (f64ofInt (k - 4)) (f64const 0.05) := by
      rw [f64const_0_7]
      have : (699 : ℚ) / 1000 ≤ 6305039478318694 / 2 ^ 53 := by norm_num
      linarith
    have := f64round_ge_of_pos _ (tiny_le _ (le_trans (by norm_num) hs))
    unfold f64add
    have h53' : (94 : ℚ) / 100 ≤ 948 / 1000 * (1 - 1 / 2 ^ 53) := by norm_num
    have h53 : (0 : ℚ) ≤ 1 - 1 / 2 ^ 53 := by norm_num
    nlinarith
  rw [f64const_0_9]
  have : (8106479329266893 : ℚ) / 2 ^ 53 < 94 / 100 := by norm_num
  exact lt_of_lt_of_le this h3

theorem f64ofInt_small :
    f64ofInt 0 = 0 ∧ f64ofInt 1 = 1 ∧ f64ofInt 2 = 2 ∧ f64ofInt 3 = 3 ∧ f64ofInt 4 = 4 := by
  unfold f64ofInt
  refine ⟨?_, ?_, ?_, ?_, ?_⟩
  · simpa using f64round_zero
  · apply f64round_pos_eq _ 0 4503599627370496 <;> norm_num
  · apply f64round_pos_eq _ 1 4503599627370496 <;> norm_num
  · apply f64round_pos_eq _ 1 6755399441055744 <;> norm_num
  · apply f64round_pos_eq _ 2 4503599627370496 <;> norm_num

/-- The products `float64(j) * 0.05` for `j` from 0 to 4. -/
theorem f64mul_small :
    f64mul 0 (7205759403792794 / 2 ^ 57) = 0
      ∧ f64mul 1 (7205759403792794 / 2 ^ 57) = 7205759403792794 / 2 ^ 57
      ∧ f64mul 2 (7205759403792794 / 2 ^ 57) = 7205759403792794 / 2 ^ 56
      ∧ f64mul 3 (7205759403792794 / 2 ^ 57) = 5404319552844596 / 2 ^ 55
      ∧ f64mul 4 (7205759403792794 / 2 ^ 57) = 7205759403792794 / 2 ^ 55 := by
  unfold f64mul
  refine ⟨?_, ?_, ?_, ?_, ?_⟩
  · simpa using f64round_zero
  · apply f64round_pos_eq _ (-5) 7205759403792794 <;> norm_num
  · apply f64round_pos_eq _ (-4) 7205759403792794 <;> norm_num
  · apply f64round_pos_tie _ (-3) 5404319552844595 <;> norm_num
  · apply f64round_pos_eq _ (-3) 7205759403792794 <;> norm_num

/-- The sums `0.7 + float64(j) * 0.05` for `j` from 0 to 4. -/
theorem f64add_small :
    f64add (6305039478318694 / 2 ^ 53) 0 = 6305039478318694 / 2 ^ 53
      ∧ f64add (6305039478318694 / 2 ^ 53) (7205759403792794 / 2 ^ 57)
          = 6755399441055744 / 2 ^ 53
      ∧ f64add (6305039478318694 / 2 ^ 53) (7205759403792794 / 2 ^ 56)
          = 7205759403792793 / 2 ^ 53
      ∧ f64add (6305039478318694 / 2 ^ 53) (5404319552844596 / 2 ^ 55)
          = 7656119366529843 / 2 ^ 53
      ∧ f64add (6305039478318694 / 2 ^ 53) (7205759403792794 / 2 ^ 55)
          = 8106479329266892 / 2 ^ 53 := by
  unfold f64add
  refine ⟨?_, ?_, ?_, ?_, ?_⟩
  · apply f64round_pos_eq _ (-1) 6305039478318694 <;> norm_num
  · apply f64round_pos_eq _ (-1) 6755399441055744 <;> norm_num
  · apply f64round_pos_eq _ (-1) 7205759403792793 <;> norm_num
  · apply f64round_pos_eq _ (-1) 7656119366529843 <;> norm_num
  · apply f64round_pos_tie _ (-1) 8106479329266892 <;> norm_num

/-- The base confidence as stored, for every match count from 1 on. -/
theorem baseConfidence_values :
    baseConfidence 1 = 7205759403792794 / 2 ^ 56
      ∧ baseConfidence 2 = 5404319552844595 / 2 ^ 54
      ∧ baseConfidence 3 = 1 / 2
      ∧ baseConfidence 4 = 6305039478318694 / 2 ^ 53
      ∧ baseConfidence 5 = 6755399441055744 / 2 ^ 53
      ∧ baseConfidence 6 = 7205759403792793 / 2 ^ 53
      ∧ baseConfidence 7 = 7656119366529843 / 2 ^ 53
      ∧ baseConfidence 8 = 8106479329266892 / 2 ^ 53
      ∧ ∀ k : Int, 9 ≤ k → baseConfidence k = 8106479329266893 / 2 ^ 53 := by
  obtain ⟨i0, i1, i2, i3, i4⟩ := f64ofInt_small
  obtain ⟨m0, m1, m2, m3, m4⟩ := f64mul_small
  obtain ⟨a0, a1, a2, a3, a4⟩ := f64add_small
  refine ⟨?_, ?_, ?_, ?_, ?_, ?_, ?_, ?_, ?_⟩
  · simp [baseConfidence, f64const_0_1]
  · simp [baseConfidence, f64const_0_3]
  · simp [baseConfidence, f64const_0_5]
  · have e : baseConfidence 4
        = if f64add (f64const 0.7) (f64mul (f64ofInt 0) (f64const 0.05)) > f64const 0.9
          then f64const 0.9
          else f64add (f64const 0.7) (f64mul (f64ofInt 0) (f64const 0.05)) := rfl
    rw [e, f64const_0_7, f64const_0_05, f64const_0_9, i0, m0, a0, if_neg (by norm_num)]
  · have e : baseConfidence 5
        = if f64add (f64const 0.7) (f64mul (f64ofInt 1) (f64const 0.05)) > f64const 0.9
          then f64const 0.9
          else f64add (f64const 0.7) (f64mul (f64ofInt 1) (f64const 0.05)) := rfl
    rw [e, f64const_0_7, f64const_0_05, f64const_0_9, i1, m1, a1, if_neg (by norm_num)]
  · have e : baseConfidence 6
        = if f64add (f64const 0.7) (f64mul (f64ofInt 2) (f64const 0.05)) > f64const 0.9
          then f64const 0.9
          else f64add (f64const 0.7) (f64mul (f64ofInt 2) (f64const 0.05)) := rfl
    rw [e, f64const_0_7, f64const_0_05, f64const_0_9, i2, m2, a2, if_neg (by norm_num)]
  · have e : baseConfidence 7
        = if f64add (f64const 0.7) (f64mul (f64ofInt 3) (f64const 0.05)) > f64const 0.9
          then f64const 0.9
          else f64add (f64const 0.7) (f64mul (f64ofInt 3) (f64const 0.05)) := rfl
    rw [e, f64const_0_7, f64const_0_05, f64const_0_9, i3, m3, a3, if_neg (by norm_num)]
  · have e : baseConfidence 8
        = if f64add (f64const 0.7) (f64mul (f64ofInt 4) (f64const 0.05)) > f64const 0.9
          then f64const 0.9
          else f64add (f64const 0.7) (f64mul (f64ofInt 4) (f64const 0.05)) := rfl
    rw [e, f64const_0_7, f64const_0_05, f64const_0_9, i4, m4, a4, if_neg (by norm_num)]
  · intro k hk
    rw [baseConfidence_clamped k hk, f64const_0_9]

/-- The base confidence against the exact base. -/
theorem baseConfidence_error (k : Int) (hk : 1 ≤ k) :
    1 / 10 ≤ baseConfidence k ∧ baseConfidence k ≤ 1
      ∧ |baseConfidence k - specBase k| ≤ 1 / 2 ^ 52 := by
  obtain ⟨b1, b2, b3, b4, b5, b6, b7, b8, b9⟩ := baseConfidence_values
  have hcases : k = 1 ∨ k = 2 ∨ k = 3 ∨ k = 4 ∨ k = 5 ∨ k = 6 ∨ k = 7 ∨ k = 8 ∨ 9 ≤ k := by
    omega
  rcases hcases with h | h | h | h | h | h | h | h | h
  · subst h; rw [b1]; refine ⟨by norm_num, by norm_num, ?_⟩
    rw [abs_le]; constructor <;> norm_num [specBase]
  · subst h; rw [b2]; refine ⟨by norm_num, by norm_num, ?_⟩
    rw [abs_le]; constructor <;> norm_num [specBase]
  · subst h; rw [b3]; refine ⟨by norm_num, by norm_num, ?_⟩
    rw [abs_le]; constructor <;> norm_num [specBase]
  · subst h; rw [b4]; refine ⟨by norm_num, by norm_num, ?_⟩
    rw [abs_le]; constructor <;> norm_num [specBase]
  · subst h; rw [b5]; refine ⟨by norm_num, by norm_num, ?_⟩
    rw [abs_le]; constructor <;> norm_num [specBase]
  · subst h; rw [b6]; refine ⟨by norm_num, by norm_num, ?_⟩
    rw [abs_le]; constructor <;> norm_num [specBase]
  · subst h; rw [b7]; refine ⟨by norm_num, by norm_num, ?_⟩
    rw [abs_le]; constructor <;> norm_num [specBase]
  · subst h; rw [b8]; refine ⟨by norm_num, by norm_num, ?_⟩
    rw [abs_le]; constructor <;> norm_num [specBase]
  · rw [b9 k h]
    have hs : specBase k = 90 / 100 := by
      unfold specBase
      rw [if_neg (by omega), if_neg (by omega), if_neg (by omega), min_eq_left]
      have : (9 : ℚ) ≤ (k : ℚ) := by exact_mod_cast h
      linarith
    rw [hs]
    refine ⟨by norm_num, by norm_num, ?_⟩
    rw [abs_le]; constructor <;> norm_num

theorem specBonus_le (site : String) : specBonus site ≤ 15 / 100 := by
  unfold specBonus
  split_ifs <;> norm_num

theorem addBonus_of_none (c : ℚ) (r : Result) (h : highValuePlatforms.lookup r.Site = none) :
    addBonus c r = c := by
  unfold addBonus
  rw [h]

theorem addBonus_of_some (c b : ℚ) (r : Result)
    (h : highValuePlatforms.lookup r.Site = some b) :
    addBonus c r = if f64add c b > 1 then 1 else f64add c b := by
  unfold addBonus
  rw [h, f64const_1_0]

/-- The sums `0.5 + 0.1` and `(0.5 + 0.1) + 0.1` as stored. -/
theorem f64add_half :
    f64add (1 / 2) (7205759403792794 / 2 ^ 56) = 5404319552844595 / 2 ^ 53
      ∧ f64add (5404319552844595 / 2 ^ 53) (7205759403792794 / 2 ^ 56)
          = 6305039478318694 / 2 ^ 53 := by
  unfold f64add
  constructor
  · apply f64round_pos_eq _ (-1) 5404319552844595 <;> norm_num
  · apply f64round_pos_eq _ (-1) 6305039478318694 <;> norm_num

set_option maxHeartbeats 2000000 in
theorem threshold_three (r1 r2 r3 : Result) :
    [r1, r2, r3].foldl addBonus (baseConfidence 3) ≥ f64const 0.7
      ↔ specConfidence 3 [r1, r2, r3] ≥ 70 / 100 := by
  obtain ⟨-, -, b3, -⟩ := baseConfidence_values
  have herr := (foldl_addBonus_error [r1, r2, r3] (baseConfidence 3) (specBase 3)
    (by rw [b3]; norm_num) (by rw [b3]; norm_num) (by norm_num [specBase])).2.2
  have hs3 : specBase 3 = 1 / 2 := by norm_num [specBase]
  rw [b3, hs3, sub_self, abs_zero, zero_add, abs_le] at herr
  obtain ⟨s1, s2⟩ := f64add_half
  have t1 : (if f64add (1 / 2) (7205759403792794 / 2 ^ 56) > 1 then 1
      else f64add (1 / 2) (7205759403792794 / 2 ^ 56)) = 5404319552844595 / 2 ^ 53 := by
    rw [s1, if_neg (by norm_num)]
  have t2 : (if f64add (5404319552844595 / 2 ^ 53) (7205759403792794 / 2 ^ 56) > 1 then 1
      else f64add (5404319552844595 / 2 ^ 53) (7205759403792794 / 2 ^ 56))
      = 6305039478318694 / 2 ^ 53 := by
    rw [s2, if_neg (by norm_num)]
  unfold specConfidence
  rw [b3, hs3, f64const_0_7]
  simp only [List.map_cons, List.map_nil, List.sum_cons, List.sum_nil, List.length_cons,
    List.length_nil] at herr ⊢
  push_cast at herr
  obtain ⟨hl, hu⟩ := herr
  rcases bonus_cases r1.Site with ⟨l1, e1⟩ | ⟨l1, e1⟩ | ⟨l1, e1⟩ <;>
  rcases bonus_cases r2.Site with ⟨l2, e2⟩ | ⟨l2, e2⟩ | ⟨l2, e2⟩ <;>
  rcases bonus_cases r3.Site with ⟨l3, e3⟩ | ⟨l3, e3⟩ | ⟨l3, e3⟩ <;>
  rw [e1, e2, e3, min_eq_right (by norm_num)] at hl hu ⊢ <;>
  first
    | (constructor <;> intro h <;> linarith)
    | (simp only [List.foldl_cons, List.foldl_nil]
       first
         | rw [addBonus_of_none _ _ l1, addBonus_of_some _ _ _ l2, addBonus_of_some _ _ _ l3]
         | rw [addBonus_of_some _ _ _ l1, addBonus_of_none _ _ l2, addBonus_of_some _ _ _ l3]
         | rw [addBonus_of_some _ _ _ l1, addBonus_of_some _ _ _ l2, addBonus_of_none _ _ l3]
       rw [t1, t2]
       norm_num)

theorem specBase_ge_of_four (k : Int) (hk : 4 ≤ k) : 70 / 100 ≤ specBase k := by
  unfold specBase
  rw [if_neg (by omega), if_neg (by omega), if_neg (by omega)]
  have : (4 : ℚ) ≤ (k : ℚ) := by exact_mod_cast hk
  apply le_min
  · norm_num
  · linarith

theorem baseConfidence_ge_of_four (k : Int) (hk : 4 ≤ k) :
    6305039478318694 / 2 ^ 53 ≤ baseConfidence k := by
  obtain ⟨-, -, -, b4, b5, b6, b7, b8, b9⟩ := baseConfidence_values
  have hcases : k = 4 ∨ k = 5 ∨ k = 6 ∨ k = 7 ∨ k = 8 ∨ 9 ≤ k := by omega
  rcases hcases with h | h | h | h | h | h
  · subst h; rw [b4]
  · subst h; rw [b5]; norm_num
  · subst h; rw [b6]; norm_num
  · subst h; rw [b7]; norm_num
  · subst h; rw [b8]; norm_num
  · rw [b9 k h]; norm_num

/-- The stored confidence against the exact clamped sum. -/
theorem confidence_error (k : Int) (hk : 1 ≤ k) (rs : List Result) :
    1 / 10 ≤ rs.foldl addBonus (baseConfidence k) ∧ rs.foldl addBonus (baseConfidence k) ≤ 1
      ∧ |rs.foldl addBonus (baseConfidence k) - specConfidence k rs|
          ≤ ((rs.length : ℚ) + 1) / 2 ^ 52 := by
  obtain ⟨hb0, hb1, hbe⟩ := baseConfidence_error k hk
  have hs1 : specBase k ≤ 1 := by
    have := specBase_le k; linarith
  obtain ⟨hlow, hhigh, herr⟩ := foldl_addBonus_error rs (baseConfidence k)
    (specBase k) (by linarith) hb1 hs1
  refine ⟨le_trans hb0 hlow, hhigh, ?_⟩
  unfold specConfidence
  have e : ((rs.length : ℚ) + 1) / 2 ^ 52 = 1 / 2 ^ 52 + (rs.length : ℚ) / 2 ^ 52 := by ring
  rw [e]
  linarith

theorem specConfidence_small (rs : List Result) (h1 : 1 ≤ rs.length) (h2 : rs.length ≤ 2) :
    specConfidence (rs.length : Int) rs ≤ 60 / 100 := by
  match rs, h1, h2 with
  | [r1], _, _ =>
    show specConfidence 1 [r1] ≤ 60 / 100
    have hb := specBonus_le r1.Site
    have hs : specBase 1 = 10 / 100 := by norm_num [specBase]
    unfold specConfidence
    rw [hs]
    simp only [List.map_cons, List.map_nil, List.sum_cons, List.sum_nil]
    exact le_trans (min_le_right _ _) (by linarith)
  | [r1, r2], _, _ =>
    show specConfidence 2 [r1, r2] ≤ 60 / 100
    have hb := specBonus_le r1.Site
    have hb' := specBonus_le r2.Site
    have hs : specBase 2 = 30 / 100 := by norm_num [specBase]
    unfold specConfidence
    rw [hs]
    simp only [List.map_cons, List.map_nil, List.sum_cons, List.sum_nil]
    exact le_trans (min_le_right _ _) (by linarith)
  | _ :: _ :: _ :: _, _, h => exact absurd h (by simp)

/-- The test `Confidence >= 0.7` on the stored value agrees with the same test on the exact
clamped sum, for every match with as many results as its match count. -/
theorem threshold_agrees (rs : List Result) (hn : 1 ≤ rs.length) :
    rs.foldl addBonus (baseConfidence (rs.length : Int)) ≥ f64const 0.7
      ↔ specConfidence (rs.length : Int) rs ≥ 70 / 100 := by
  have hk : (1 : Int) ≤ (rs.length : Int) := by exact_mod_cast hn
  by_cases h4 : 4 ≤ rs.length
  · have hk4 : (4 : Int) ≤ (rs.length : Int) := by exact_mod_cast h4
    obtain ⟨hb0, hb1, hbe⟩ := baseConfidence_error (rs.length : Int) hk
    have hs1 : specBase (rs.length : Int) ≤ 1 := by
      have := specBase_le (rs.length : Int); linarith
    obtain ⟨hlow, -, -⟩ := foldl_addBonus_error rs (baseConfidence (rs.length : Int))
      (specBase (rs.length : Int)) (by linarith) hb1 hs1
    have hsum := sum_specBonus_nonneg rs
    have h1 := baseConfidence_ge_of_four _ hk4
    have h2 := specBase_ge_of_four _ hk4
    rw [f64const_0_7]
    constructor
    · intro _
      unfold specConfidence
      apply le_min
      · norm_num
      · linarith
    · intro _
      exact le_trans h1 hlow
  · by_cases h3 : rs.length = 3
    · match rs, h3 with
      | [r1, r2, r3], _ => exact threshold_three r1 r2 r3
    · have h2 : rs.length ≤ 2 := by omega
      have hS := specConfidence_small rs hn h2
      obtain ⟨-, -, hE⟩ := confidence_error (rs.length : Int) hk rs
      have hE2 := (abs_le.1 hE).2
      have hlen : ((rs.length : ℚ) + 1) / 2 ^ 52 ≤ 3 / 2 ^ 52 := by
        have : (rs.length : ℚ) ≤ 2 := by exact_mod_cast h2
        apply div_le_div_of_nonneg_right _ (by positivity)
        linarith
      have h52 : (3 : ℚ) / 2 ^ 52 < 1 / 100 := by norm_num
      rw [f64const_0_7]
      have h07 : (69 : ℚ) / 100 < 6305039478318694 / 2 ^ 53 := by norm_num
      constructor
      · intro h; exfalso
        have h' : (6305039478318694 : ℚ) / 2 ^ 53
            ≤ rs.foldl addBonus (baseConfidence (rs.length : Int)) := h
        linarith
      · intro h; exfalso
        have h' : (70 : ℚ) / 100 ≤ specConfidence (rs.length : Int) rs := h
        linarith

theorem scoreMatch_confidence (m : ProfileMatch) :
    (scoreMatch m).Confidence = m.Results.foldl addBonus (baseConfidence m.MatchCount) := rfl

theorem specConfidence_perm (k : Int) (rs rs' : List Result) (h : rs.Perm rs') :
    specConfidence k rs = specConfidence k rs' := by
  unfold specConfidence
  rw [(h.map (fun r => specBonus r.Site)).sum_eq]

theorem lookup_sample_sites :
    highValuePlatforms.lookup "GitHub" = some (7205759403792794 / 2 ^ 56)
      ∧ highValuePlatforms.lookup "Twitter" = some (7205759403792794 / 2 ^ 56)
      ∧ highValuePlatforms.lookup "LinkedIn" = some (5404319552844595 / 2 ^ 55)
      ∧ highValuePlatforms.lookup "Reddit" = none
      ∧ highValuePlatforms.lookup "Flickr" = none := by
  refine ⟨?_, ?_, ?_, ?_, ?_⟩
  · rw [lookup_highValue, if_pos rfl, f64const_0_1]
  · rw [lookup_highValue, if_neg (by decide), if_pos rfl, f64const_0_1]
  · rw [lookup_highValue, if_neg (by decide), if_neg (by decide), if_pos rfl, f64const_0_15]
  · rw [lookup_highValue, if_neg (by decide), if_neg (by decide), if_neg (by decide),
      if_neg (by decide), if_neg (by decide)]
  · rw [lookup_highValue, if_neg (by decide), if_neg (by decide), if_neg (by decide),
      if_neg (by decide), if_neg (by decide)]

/-- The sums of the examples as stored. -/
theorem f64add_examples :
    f64add (7205759403792794 / 2 ^ 56) (7205759403792794 / 2 ^ 56) = 7205759403792794 / 2 ^ 55
      ∧ f64add (6305039478318694 / 2 ^ 53) (7205759403792794 / 2 ^ 56)
          = 7205759403792793 / 2 ^ 53
      ∧ f64add (7205759403792793 / 2 ^ 53) (7205759403792794 / 2 ^ 56)
          = 8106479329266892 / 2 ^ 53
      ∧ f64add (5404319552844595 / 2 ^ 54) (5404319552844595 / 2 ^ 55)
          = 8106479329266892 / 2 ^ 54
      ∧ f64add (8106479329266892 / 2 ^ 54) (7205759403792794 / 2 ^ 56)
          = 4953959590107545 / 2 ^ 53
      ∧ f64add (5404319552844595 / 2 ^ 54) (7205759403792794 / 2 ^ 56)
          = 7205759403792794 / 2 ^ 54
      ∧ f64add (7205759403792794 / 2 ^ 54) (5404319552844595 / 2 ^ 55)
          = 4953959590107546 / 2 ^ 53 := by
  unfold f64add
  refine ⟨?_, ?_, ?_, ?_, ?_, ?_, ?_⟩
  · apply f64round_pos_eq _ (-3) 7205759403792794 <;> norm_num
  · apply f64round_pos_eq _ (-1) 7205759403792793 <;> norm_num
  · apply f64round_pos_eq _ (-1) 8106479329266892 <;> norm_num
  · apply f64round_pos_tie _ (-2) 8106479329266892 <;> norm_num
  · apply f64round_pos_eq _ (-1) 4953959590107545 <;> norm_num
  · apply f64round_pos_tie _ (-2) 7205759403792793 <;> norm_num
  · apply f64round_pos_eq _ (-1) 4953959590107546 <;> norm_num

/-- The decimal numerals that Go prints for the stored values of the examples. -/
theorem f64const_examples :
    f64const 0.2 = 7205759403792794 / 2 ^ 55
      ∧ f64const 0.8999999999999999 = 8106479329266892 / 2 ^ 53
      ∧ f64const 0.5499999999999999 = 4953959590107545 / 2 ^ 53
      ∧ f64const 0.55 = 4953959590107546 / 2 ^ 53 := by
  unfold f64const
  refine ⟨?_, ?_, ?_, ?_⟩
  · apply f64round_pos_eq _ (-3) 7205759403792794 <;> norm_num
  · apply f64round_pos_eq _ (-1) 8106479329266892 <;> norm_num
  · apply f64round_pos_eq _ (-1) 4953959590107545 <;> norm_num
  · apply f64round_pos_eq _ (-1) 4953959590107546 <;> norm_num

/-- The stored confidence of the example matches. -/
theorem scored_examples :
    [sampleHit "GitHub"].foldl addBonus (baseConfidence 1) = 7205759403792794 / 2 ^ 55
      ∧ [sampleHit "GitHub", sampleHit "Twitter", sampleHit "Reddit",
          sampleHit "Flickr"].foldl addBonus (baseConfidence 4) = 8106479329266892 / 2 ^ 53
      ∧ [sampleHit "LinkedIn", sampleHit "GitHub"].foldl addBonus (baseConfidence 2)
          = 4953959590107545 / 2 ^ 53
      ∧ [sampleHit "GitHub", sampleHit "LinkedIn"].foldl addBonus (baseConfidence 2)
          = 4953959590107546 / 2 ^ 53 := by
  obtain ⟨b1, b2, -, b4, -⟩ := baseConfidence_values
  obtain ⟨lG, lT, lL, lR, lF⟩ := lookup_sample_sites
  obtain ⟨a1, a2, a3, a4, a5, a6, a7⟩ := f64add_examples
  have hG : ∀ c, addBonus c (sampleHit "GitHub")
      = if f64add c (7205759403792794 / 2 ^ 56) > 1 then 1
        else f64add c (7205759403792794 / 2 ^ 56) := fun c => addBonus_of_some c _ _ lG
  have hT : ∀ c, addBonus c (sampleHit "Twitter")
      = if f64add c (7205759403792794 / 2 ^ 56) > 1 then 1
        else f64add c (7205759403792794 / 2 ^ 56) := fun c => addBonus_of_some c _ _ lT
  have hL : ∀ c, addBonus c (sampleHit "LinkedIn")
      = if f64add c (5404319552844595 / 2 ^ 55) > 1 then 1
        else f64add c (5404319552844595 / 2 ^ 55) := fun c => addBonus_of_some c _ _ lL
  have hR : ∀ c, addBonus c (sampleHit "Reddit") = c := fun c => addBonus_of_none c _ lR
  have hF : ∀ c, addBonus c (sampleHit "Flickr") = c := fun c => addBonus_of_none c _ lF
  refine ⟨?_, ?_, ?_, ?_⟩
  · rw [List.foldl_cons, List.foldl_nil, b1, hG, a1, if_neg (by norm_num)]
  · rw [List.foldl_cons, List.foldl_cons, List.foldl_cons, List.foldl_cons, List.foldl_nil,
      b4, hF, hR, hG, a2, if_neg (by norm_num), hT, a3, if_neg (by norm_num)]
  · rw [List.foldl_cons, List.foldl_cons, List.foldl_nil, b2, hL, a4, if_neg (by norm_num),
      hG, a5, if_neg (by norm_num)]
  · rw [List.foldl_cons, List.foldl_cons, List.foldl_nil, b2, hG, a6, if_neg (by norm_num),
      hL, a7, if_neg (by norm_num)]


/-! ## Lemmas: sorting -/

theorem moreConfident_strictWeak : StrictWeak moreConfident where
  asymm := by
    intro a b h
    simp only [moreConfident, decide_eq_true_eq, decide_eq_false_iff_not, not_lt, gt_iff_lt] at *
    exact le_of_lt h
  negTrans := by
    intro a b c h1 h2
    simp only [moreConfident, decide_eq_false_iff_not, not_lt, gt_iff_lt] at *
    exact le_trans h1 h2

theorem insertRev_perm (less : ProfileMatch → ProfileMatch → Bool) (x : ProfileMatch)
    (ys : List ProfileMatch) : (insertRev less x ys).Perm (x :: ys) := by
  induction ys with
  | nil => simp [insertRev]
  | cons y ys ih =>
    simp only [insertRev]
    split
    · exact (ih.cons y).trans (List.Perm.swap x y ys)
    · exact List.Perm.refl _

theorem foldl_insertRev_perm (less : ProfileMatch → ProfileMatch → Bool)
    (xs acc : List ProfileMatch) :
    (xs.foldl (fun acc x => insertRev less x acc) acc).Perm (xs ++ acc) := by
  induction xs generalizing acc with
  | nil => simp
  | cons x xs ih =>
    rw [List.foldl_cons]
    refine (ih _).trans ?_
    refine ((insertRev_perm less x acc).append_left xs).trans ?_
    simp only [List.cons_append]
    exact List.perm_middle

/-- The reversed prefix is sorted: no element is `less` than one that comes after it in the
reversed list, which is one placed before it in the slice. -/
theorem insertRev_sorted (less : ProfileMatch → ProfileMatch → Bool) (hw : StrictWeak less)
    (x : ProfileMatch) (ys : List ProfileMatch)
    (h : ys.Pairwise (fun a b => less a b = false)) :
    (insertRev less x ys).Pairwise (fun a b => less a b = false) := by
  induction ys with
  | nil => simp [insertRev]
  | cons y ys ih =>
    rw [List.pairwise_cons] at h
    simp only [insertRev]
    split
    · rename_i hxy
      rw [List.pairwise_cons]
      refine ⟨?_, ih h.2⟩
      intro z hz
      rcases List.mem_cons.1 ((insertRev_perm less x ys).mem_iff.1 hz) with hzx | hzy
      · rw [hzx]
        exact hw.asymm _ _ hxy
      · exact h.1 z hzy
    · rename_i hxy
      have hxy : less x y = false := by simpa using hxy
      rw [List.pairwise_cons, List.pairwise_cons]
      refine ⟨?_, h.1, h.2⟩
      intro z hz
      rcases List.mem_cons.1 hz with rfl | hz
      · exact hxy
      · exact hw.negTrans _ _ _ hxy (h.1 z hz)

theorem foldl_insertRev_sorted (less : ProfileMatch → ProfileMatch → Bool)
    (hw : StrictWeak less) (xs acc : List ProfileMatch)
    (h : acc.Pairwise (fun a b => less a b = false)) :
    (xs.foldl (fun acc x => insertRev less x acc) acc).Pairwise
      (fun a b => less a b = false) := by
  induction xs generalizing acc with
  | nil => simpa using h
  | cons x xs ih =>
    rw [List.foldl_cons]
    exact ih _ (insertRev_sorted less hw x acc h)

theorem insertionSort_contract : SortSliceContract insertionSort where
  perm := by
    intro less xs
    unfold insertionSort
    refine (List.reverse_perm _).trans ?_
    simpa using foldl_insertRev_perm less xs []
  sorted := by
    intro less hw xs
    unfold insertionSort
    rw [List.pairwise_reverse]
    exact foldl_insertRev_sorted less hw xs [] List.Pairwise.nil


/-! ## Lemmas: `AnalyzeResults` -/

theorem matches_perm (sortSlice : SortSlice) (hs : SortSliceContract sortSlice)
    (allResults : List (String × List Result)) :
    (AnalyzeResults sortSlice allResults).Matches.Perm
      ((allResults.filterMap groupEntry).map scoreMatch) := by
  have h := hs.perm moreConfident (calculateConfidenceScores (groupResultsByUsername allResults))
  simpa [AnalyzeResults, calculateConfidenceScores, groupResultsByUsername_eq] using h

theorem groupEntry_some (e : String × List Result) (m : ProfileMatch)
    (h : groupEntry e = some m) :
    m.Username = e.1 ∧ m.Results = e.2.filter (fun r => r.Exists)
      ∧ m.MatchCount = (m.Results.length : Int) ∧ 1 ≤ m.MatchCount := by
  unfold groupEntry at h
  split at h
  · rename_i hlen
    cases h
    refine ⟨rfl, foundResults_eq_filter _, rfl, ?_⟩
    show (1 : Int) ≤ ((foundResults e.2).length : Int)
    exact_mod_cast hlen
  · cases h

theorem mem_scored (allResults : List (String × List Result)) (m : ProfileMatch)
    (hm : m ∈ (allResults.filterMap groupEntry).map scoreMatch) :
    ∃ e ∈ allResults, ∃ m0, groupEntry e = some m0 ∧ m = scoreMatch m0 := by
  obtain ⟨m0, hm0, rfl⟩ := List.mem_map.1 hm
  obtain ⟨e, he, hg⟩ := List.mem_filterMap.1 hm0
  exact ⟨e, he, m0, hg, rfl⟩

theorem filter_scored_absent (all : List (String × List Result)) (u : String)
    (hu : u ∉ all.map (fun entry => entry.1)) :
    ((all.filterMap groupEntry).map scoreMatch).filter (fun m => decide (m.Username = u))
      = [] := by
  rw [List.filter_eq_nil_iff]
  intro m hm
  obtain ⟨e, he, m0, hg, rfl⟩ := mem_scored all m hm
  have h1 := (groupEntry_some e m0 hg).1
  have : (scoreMatch m0).Username = e.1 := h1
  simp only [decide_eq_true_eq]
  intro hEq
  apply hu
  rw [← hEq, this]
  exact List.mem_map.2 ⟨e, he, rfl⟩

theorem filter_scored_present (all : List (String × List Result))
    (hk : keysDistinct all) (u : String) (rs : List Result) (h : (u, rs) ∈ all) :
    ((all.filterMap groupEntry).map scoreMatch).filter (fun m => decide (m.Username = u))
      = (match groupEntry (u, rs) with
         | some m => [scoreMatch m]
         | none => []) := by
  induction all with
  | nil => cases h
  | cons e rest ih =>
    unfold keysDistinct at hk
    rw [List.map_cons, List.nodup_cons] at hk
    rcases List.mem_cons.1 h with he | hr
    · subst he
      have hrest := filter_scored_absent rest u hk.1
      rw [List.filterMap_cons]
      cases hg : groupEntry (u, rs) with
      | none => simpa using hrest
      | some m0 =>
        have hu : (scoreMatch m0).Username = u := (groupEntry_some _ m0 hg).1
        simp only [List.map_cons, List.filter_cons, hu, decide_True, if_true, hrest]
    · have hne : e.1 ≠ u := by
        intro hEq
        apply hk.1
        rw [hEq]
        exact List.mem_map.2 ⟨(u, rs), hr, rfl⟩
      rw [List.filterMap_cons]
      cases hg : groupEntry e with
      | none => exact ih hk.2 hr
      | some m0 =>
        have hu : (scoreMatch m0).Username = e.1 := (groupEntry_some _ m0 hg).1
        simp only [List.map_cons, List.filter_cons, hu, hne, decide_False]
        exact ih hk.2 hr

theorem foldl_matchCount (ms : List ProfileMatch) (z : Int) :
    ms.foldl (fun total m => total + m.MatchCount) z
      = z + (ms.map (fun m => m.MatchCount)).sum := by
  induction ms generalizing z with
  | nil => simp
  | cons m ms ih => rw [List.foldl_cons, ih, List.map_cons, List.sum_cons, add_assoc]

theorem foldl_unique (ms : List ProfileMatch) (z : Int) :
    ms.foldl (fun n m => if m.Confidence ≥ f64const 0.7 then n + 1 else n) z
      = z + ((ms.filter (fun m => decide (m.Confidence ≥ f64const 0.7))).length : Int) := by
  induction ms generalizing z with
  | nil => simp
  | cons m ms ih =>
    rw [List.foldl_cons, ih, List.filter_cons]
    by_cases h : m.Confidence ≥ f64const 0.7
    · simp only [h, if_true, decide_True, List.length_cons]
      push_cast
      ring
    · simp only [h, if_false, decide_False]
      simp

theorem sum_matchCount_scored (all : List (String × List Result)) :
    (((all.filterMap groupEntry).map scoreMatch).map (fun m => m.MatchCount)).sum
      = ((all.map (fun entry => (entry.2.filter (fun r => r.Exists)).length)).sum : Nat) := by
  induction all with
  | nil => simp
  | cons e rest ih =>
    rw [List.filterMap_cons]
    cases hg : groupEntry e with
    | none =>
      have h0 : (e.2.filter (fun r => r.Exists)).length = 0 := by
        unfold groupEntry at hg
        split at hg
        · cases hg
        · rename_i hlen
          rw [← foundResults_eq_filter]
          omega
      simp only [ih, List.map_cons, List.sum_cons, h0, zero_add]
    | some m0 =>
      obtain ⟨-, h2, h3, -⟩ := groupEntry_some e m0 hg
      have hc : (scoreMatch m0).MatchCount = ((e.2.filter (fun r => r.Exists)).length : Int) := by
        show m0.MatchCount = _
        rw [h3, h2]
      simp only [List.map_cons, List.sum_cons, hc, ih]
      push_cast
      rfl

theorem sampleResults_keysDistinct : keysDistinct sampleResults := by
  unfold keysDistinct sampleResults
  decide

theorem groupEntry_jdoe :
    groupEntry ("jdoe", [sampleHit "GitHub", sampleMiss "Twitter", sampleMiss "Facebook"])
      = some { Username := "jdoe", Results := [sampleHit "GitHub"], MatchCount := 1,
               Confidence := 0.0, NameMatches := [] } := by
  simp [groupEntry, foundResults, sampleHit, sampleMiss]

theorem scoreMatch_jdoe :
    scoreMatch { Username := "jdoe", Results := [sampleHit "GitHub"], MatchCount := 1,
                 Confidence := 0.0, NameMatches := [] } = sampleMatchJdoe := by
  simp only [scoreMatch, sampleMatchJdoe, ProfileMatch.mk.injEq, true_and, and_true]
  exact scored_examples.1

theorem sampleMatchJdoe_mem (sortSlice : SortSlice) (hs : SortSliceContract sortSlice) :
    sampleMatchJdoe ∈ (AnalyzeResults sortSlice sampleResults).Matches := by
  rw [(matches_perm sortSlice hs sampleResults).mem_iff, List.mem_map]
  refine ⟨_, ?_, scoreMatch_jdoe⟩
  rw [List.mem_filterMap]
  exact ⟨_, by simp [sampleResults], groupEntry_jdoe⟩


/-! ## Claims on `AnalyzeResults` -/

theorem singleton_matches (sortSlice : SortSlice) (hs : SortSliceContract sortSlice)
    (u : String) (rs : List Result) (m0 : ProfileMatch) (hg : groupEntry (u, rs) = some m0) :
    (AnalyzeResults sortSlice [(u, rs)]).Matches = [scoreMatch m0] := by
  have h := matches_perm sortSlice hs [(u, rs)]
  simp only [List.filterMap_cons, hg, List.filterMap_nil, List.map_cons, List.map_nil] at h
  exact List.perm_singleton.1 h

/-- The stored confidence of three examples, for any sort: for the hits on GitHub, Twitter,
Reddit and Flickr it is `0.7 + 0.1 + 0.1` rounded after each sum, the `float64` that prints
as 0.8999999999999999, where the exact decimal value is 0.90; for hits on LinkedIn and GitHub
it is 0.5499999999999999 in that order and 0.55 in the other. -/
theorem stored_confidence_is_rounded (sortSlice : SortSlice)
    (hs : SortSliceContract sortSlice) :
    (AnalyzeResults sortSlice fourHits).Matches.map (fun x => x.Confidence)
        = [8106479329266892 / 2 ^ 53]
      ∧ (8106479329266892 / 2 ^ 53 : ℚ) = f64const 0.8999999999999999
      ∧ (8106479329266892 / 2 ^ 53 : ℚ) < 90 / 100
      ∧ specConfidence 4 [sampleHit "GitHub", sampleHit "Twitter", sampleHit "Reddit",
          sampleHit "Flickr"] = 90 / 100
      ∧ (AnalyzeResults sortSlice linkedInThenGitHub).Matches.map (fun x => x.Confidence)
        = [f64const 0.5499999999999999]
      ∧ (AnalyzeResults sortSlice gitHubThenLinkedIn).Matches.map (fun x => x.Confidence)
        = [f64const 0.55]
      ∧ f64const 0.5499999999999999 < f64const 0.55 := by
  obtain ⟨c1, c2, c3, c4⟩ := f64const_examples
  obtain ⟨s1, s2, s3, s4⟩ := scored_examples
  refine ⟨?_, c2.symm, by norm_num, ?_, ?_, ?_, ?_⟩
  · have hg : groupEntry ("johndoe", [sampleHit "GitHub", sampleHit "Twitter",
          sampleHit "Reddit", sampleHit "Flickr"])
        = some { Username := "johndoe",
                 Results := [sampleHit "GitHub", sampleHit "Twitter", sampleHit "Reddit",
                   sampleHit "Flickr"],
                 MatchCount := 4, Confidence := 0.0, NameMatches := [] } := by
      simp [groupEntry, foundResults, sampleHit]
    rw [fourHits, singleton_matches sortSlice hs _ _ _ hg, List.map_singleton,
      scoreMatch_confidence]
    exact congrArg (fun x => [x]) s2
  · have hReddit : specBonus "Reddit" = 0 := by simp [specBonus]
    have hFlickr : specBonus "Flickr" = 0 := by simp [specBonus]
    have hGitHub : specBonus "GitHub" = 10 / 100 := by simp [specBonus]
    have hTwitter : specBonus "Twitter" = 10 / 100 := by simp [specBonus]
    simp only [specConfidence, sampleHit, List.map_cons, List.map_nil, hReddit, hFlickr, hGitHub,
      hTwitter]
    norm_num [specBase]
  · have hg : groupEntry ("jdoe", [sampleHit "LinkedIn", sampleHit "GitHub"])
        = some { Username := "jdoe", Results := [sampleHit "LinkedIn", sampleHit "GitHub"],
                 MatchCount := 2, Confidence := 0.0, NameMatches := [] } := by
      simp [groupEntry, foundResults, sampleHit]
    rw [linkedInThenGitHub, singleton_matches sortSlice hs _ _ _ hg, List.map_singleton,
      scoreMatch_confidence, c3]
    exact congrArg (fun x => [x]) s3
  · have hg : groupEntry ("jdoe", [sampleHit "GitHub", sampleHit "LinkedIn"])
        = some { Username := "jdoe", Results := [sampleHit "GitHub", sampleHit "LinkedIn"],
                 MatchCount := 2, Confidence := 0.0, NameMatches := [] } := by
      simp [groupEntry, foundResults, sampleHit]
    rw [gitHubThenLinkedIn, singleton_matches sortSlice hs _ _ _ hg, List.map_singleton,
      scoreMatch_confidence, c4]
    exact congrArg (fun x => [x]) s4
  · rw [c3, c4]; norm_num

/-- C1 fails on the code, which computes in `float64`: with the insertion sort that
`sort.Slice` runs on short slices, the hits on GitHub, Twitter, Reddit and Flickr store
`8106479329266892 / 2^53`, which prints as 0.8999999999999999 and is not the exact decimal
value 0.90 of C1, and hits on LinkedIn and GitHub store a value that depends on their
order. -/
theorem stored_confidence_differs_from_decimal :
    (AnalyzeResults insertionSort fourHits).Matches.map (fun x => x.Confidence)
        = [8106479329266892 / 2 ^ 53]
      ∧ (8106479329266892 / 2 ^ 53 : ℚ) ≠ 90 / 100
      ∧ specConfidence 4 [sampleHit "GitHub", sampleHit "Twitter", sampleHit "Reddit",
          sampleHit "Flickr"] = 90 / 100
      ∧ (AnalyzeResults insertionSort linkedInThenGitHub).Matches.map (fun x => x.Confidence)
        ≠ (AnalyzeResults insertionSort gitHubThenLinkedIn).Matches.map
            (fun x => x.Confidence) := by
  obtain ⟨h1, -, h3, h4, h5, h6, h7⟩ :=
    stored_confidence_is_rounded insertionSort insertionSort_contract
  refine ⟨h1, ne_of_lt h3, h4, ?_⟩
  rw [h5, h6]
  intro h
  exact absurd (List.singleton_inj.1 h) (ne_of_lt h7)

/-- C1, amended: every match returned by `AnalyzeResults` stores the `float64` value that
starts from the base of its `MatchCount` and adds the bonus of each result in order, every
sum rounded to `float64` and clamped at 1.00. The stored value lies between 0.10 and 1.00,
differs from the exact decimal value `min(1, base(MatchCount) + sum of the bonuses)` by at
most `(MatchCount + 1) / 2^52`, and for another order of the results by at most twice that.
One GitHub hit stores the `float64` 0.2 and hits on GitHub, Twitter, Reddit, Flickr store
0.8999999999999999. -/
theorem confidence_is_rounded_clamped_sum (sortSlice : SortSlice)
    (hs : SortSliceContract sortSlice)
    (allResults : List (String × List Result)) (m : ProfileMatch)
    (hm : m ∈ (AnalyzeResults sortSlice allResults).Matches) :
    m.Confidence = m.Results.foldl addBonus (baseConfidence m.MatchCount)
      ∧ 1 / 10 ≤ m.Confidence ∧ m.Confidence ≤ 1
      ∧ |m.Confidence - specConfidence m.MatchCount m.Results|
          ≤ ((m.MatchCount : ℚ) + 1) / 2 ^ 52
      ∧ (∀ rs : List Result, rs.Perm m.Results →
          |rs.foldl addBonus (baseConfidence m.MatchCount) - m.Confidence|
            ≤ 2 * (((m.MatchCount : ℚ) + 1) / 2 ^ 52))
      ∧ (AnalyzeResults sortSlice oneGitHubHit).Matches.map (fun x => x.Confidence)
          = [f64const 0.2]
      ∧ (AnalyzeResults sortSlice fourHits).Matches.map (fun x => x.Confidence)
          = [f64const 0.8999999999999999] := by
  rw [(matches_perm sortSlice hs allResults).mem_iff] at hm
  obtain ⟨e, -, m0, hg, rfl⟩ := mem_scored allResults m hm
  obtain ⟨-, -, hcount, hpos⟩ := groupEntry_some e m0 hg
  have hR : (scoreMatch m0).Results = m0.Results := rfl
  have hC : (scoreMatch m0).MatchCount = m0.MatchCount := rfl
  rw [hR, hC, scoreMatch_confidence]
  have hlen : (m0.MatchCount : ℚ) = (m0.Results.length : ℚ) := by
    rw [hcount]; push_cast; rfl
  obtain ⟨e1, e2, e3⟩ := confidence_error m0.MatchCount hpos m0.Results
  rw [← hlen] at e3
  obtain ⟨c1, c2, c3, c4⟩ := f64const_examples
  refine ⟨rfl, e1, e2, e3, ?_, ?_, ?_⟩
  · intro rs hp
    obtain ⟨-, -, e4⟩ := confidence_error m0.MatchCount hpos rs
    rw [hp.length_eq, ← hlen, specConfidence_perm _ _ _ hp] at e4
    have h := abs_sub_le (rs.foldl addBonus (baseConfidence m0.MatchCount))
      (specConfidence m0.MatchCount m0.Results)
      (m0.Results.foldl addBonus (baseConfidence m0.MatchCount))
    rw [abs_sub_comm (specConfidence m0.MatchCount m0.Results)] at h
    linarith
  · have hg1 : groupEntry ("jdoe", [sampleHit "GitHub"])
        = some { Username := "jdoe", Results := [sampleHit "GitHub"], MatchCount := 1,
                 Confidence := 0.0, NameMatches := [] } := by
      simp [groupEntry, foundResults, sampleHit]
    rw [oneGitHubHit, singleton_matches sortSlice hs _ _ _ hg1, List.map_singleton,
      scoreMatch_confidence, c1]
    exact congrArg (fun x => [x]) scored_examples.1
  · rw [(stored_confidence_is_rounded sortSlice hs).1, c2]

/-- Witness of C1: the candidate `jdoe` of the test map, found on GitHub only. -/
theorem confidence_is_rounded_clamped_sum_witness :
    sampleMatchJdoe.Confidence
        = sampleMatchJdoe.Results.foldl addBonus (baseConfidence sampleMatchJdoe.MatchCount)
      ∧ 1 / 10 ≤ sampleMatchJdoe.Confidence ∧ sampleMatchJdoe.Confidence ≤ 1
      ∧ |sampleMatchJdoe.Confidence
            - specConfidence sampleMatchJdoe.MatchCount sampleMatchJdoe.Results|
          ≤ ((sampleMatchJdoe.MatchCount : ℚ) + 1) / 2 ^ 52
      ∧ (∀ rs : List Result, rs.Perm sampleMatchJdoe.Results →
          |rs.foldl addBonus (baseConfidence sampleMatchJdoe.MatchCount)
              - sampleMatchJdoe.Confidence|
            ≤ 2 * (((sampleMatchJdoe.MatchCount : ℚ) + 1) / 2 ^ 52))
      ∧ (AnalyzeResults insertionSort oneGitHubHit).Matches.map (fun x => x.Confidence)
          = [f64const 0.2]
      ∧ (AnalyzeResults insertionSort fourHits).Matches.map (fun x => x.Confidence)
          = [f64const 0.8999999999999999] :=
  confidence_is_rounded_clamped_sum insertionSort insertionSort_contract sampleResults
    sampleMatchJdoe (sampleMatchJdoe_mem insertionSort insertionSort_contract)

/-- C2: for a map with distinct keys, the matches with a given candidate's name are exactly
one match when the candidate has a result with `Exists` set, holding those results in their
original order and their number as `MatchCount`, and none otherwise; every returned match
comes from a key of the map in this way and has `MatchCount ≥ 1`. -/
theorem matches_are_grouped (sortSlice : SortSlice) (hs : SortSliceContract sortSlice)
    (allResults : List (String × List Result)) (hk : keysDistinct allResults) :
    (∀ (u : String) (rs : List Result), (u, rs) ∈ allResults →
        ((AnalyzeResults sortSlice allResults).Matches.filter
            (fun m => decide (m.Username = u))).map
          (fun m => (m.Username, m.Results, m.MatchCount))
          = if rs.filter (fun r => r.Exists) = [] then []
            else [(u, rs.filter (fun r => r.Exists),
                   ((rs.filter (fun r => r.Exists)).length : Int))])
      ∧ (∀ m ∈ (AnalyzeResults sortSlice allResults).Matches,
          ∃ rs, (m.Username, rs) ∈ allResults ∧ m.Results = rs.filter (fun r => r.Exists)
            ∧ m.MatchCount = (m.Results.length : Int) ∧ 1 ≤ m.MatchCount) := by
  have hp := matches_perm sortSlice hs allResults
  constructor
  · intro u rs hmem
    have hf := hp.filter (fun m => decide (m.Username = u))
    rw [filter_scored_present allResults hk u rs hmem] at hf
    cases hg : groupEntry (u, rs) with
    | none =>
      rw [hg] at hf
      have hnil : rs.filter (fun r => r.Exists) = [] := by
        unfold groupEntry at hg
        split at hg
        · cases hg
        · rename_i hlen
          rw [← foundResults_eq_filter]
          exact List.length_eq_zero.1 (by simpa using hlen)
      rw [List.perm_nil.1 hf, if_pos hnil]
      rfl
    | some m0 =>
      rw [hg] at hf
      obtain ⟨h1, h2, h3, h4⟩ := groupEntry_some (u, rs) m0 hg
      have hne : rs.filter (fun r => r.Exists) ≠ [] := by
        intro h0
        rw [h3, h2] at h4
        simp [h0] at h4
      rw [List.perm_singleton.1 hf, if_neg hne, List.map_singleton]
      have e1 : (scoreMatch m0).Username = u := h1
      have e2 : (scoreMatch m0).Results = rs.filter (fun r => r.Exists) := h2
      have e3 : (scoreMatch m0).MatchCount = ((rs.filter (fun r => r.Exists)).length : Int) := by
        show m0.MatchCount = _
        rw [h3, h2]
      rw [e1, e2, e3]
  · intro m hm
    rw [hp.mem_iff] at hm
    obtain ⟨e, he, m0, hg, rfl⟩ := mem_scored allResults m hm
    obtain ⟨h1, h2, h3, h4⟩ := groupEntry_some e m0 hg
    refine ⟨e.2, ?_, h2, h3, h4⟩
    have e1 : (scoreMatch m0).Username = e.1 := h1
    rw [e1]
    exact he

/-- Witness of C2: the map of `TestAnalyzeResults`. -/
theorem matches_are_grouped_witness :
    (∀ (u : String) (rs : List Result), (u, rs) ∈ sampleResults →
        ((AnalyzeResults insertionSort sampleResults).Matches.filter
            (fun m => decide (m.Username = u))).map
          (fun m => (m.Username, m.Results, m.MatchCount))
          = if rs.filter (fun r => r.Exists) = [] then []
            else [(u, rs.filter (fun r => r.Exists),
                   ((rs.filter (fun r => r.Exists)).length : Int))])
      ∧ (∀ m ∈ (AnalyzeResults insertionSort sampleResults).Matches,
          ∃ rs, (m.Username, rs) ∈ sampleResults ∧ m.Results = rs.filter (fun r => r.Exists)
            ∧ m.MatchCount = (m.Results.length : Int) ∧ 1 ≤ m.MatchCount) :=
  matches_are_grouped insertionSort insertionSort_contract sampleResults
    sampleResults_keysDistinct


theorem matches_pairwise (sortSlice : SortSlice) (hs : SortSliceContract sortSlice)
    (allResults : List (String × List Result)) :
    (AnalyzeResults sortSlice allResults).Matches.Pairwise
      (fun a b => a.Confidence ≥ b.Confidence) := by
  have h := hs.sorted moreConfident moreConfident_strictWeak
    (calculateConfidenceScores (groupResultsByUsername allResults))
  refine List.Pairwise.imp ?_ h
  intro a b hab
  simpa [moreConfident] using hab

/-- C3: the matches returned by `AnalyzeResults` are sorted by non-increasing confidence:
for all positions `i < j`, `Matches[i].Confidence ≥ Matches[j].Confidence`. -/
theorem matches_sorted_by_confidence (sortSlice : SortSlice)
    (hs : SortSliceContract sortSlice) (allResults : List (String × List Result))
    (i j : Nat) (hij : i < j) (hj : j < (AnalyzeResults sortSlice allResults).Matches.length) :
    ((AnalyzeResults sortSlice allResults).Matches.get ⟨i, lt_trans hij hj⟩).Confidence
      ≥ ((AnalyzeResults sortSlice allResults).Matches.get ⟨j, hj⟩).Confidence := by
  have h := matches_pairwise sortSlice hs allResults
  rw [List.pairwise_iff_get] at h
  exact h ⟨i, lt_trans hij hj⟩ ⟨j, hj⟩ hij

theorem sampleResults_matches_length (sortSlice : SortSlice)
    (hs : SortSliceContract sortSlice) :
    (AnalyzeResults sortSlice sampleResults).Matches.length = 3 := by
  rw [(matches_perm sortSlice hs sampleResults).length_eq]
  simp [sampleResults, groupEntry, foundResults, sampleHit, sampleMiss]

/-- Witness of C3: the first and the last match of the test map. -/
theorem matches_sorted_by_confidence_witness :
    ((AnalyzeResults insertionSort sampleResults).Matches.get
        ⟨0, lt_trans (by decide : 0 < 2)
          (by rw [sampleResults_matches_length insertionSort insertionSort_contract]
              decide)⟩).Confidence
      ≥ ((AnalyzeResults insertionSort sampleResults).Matches.get
        ⟨2, by rw [sampleResults_matches_length insertionSort insertionSort_contract]
               decide⟩).Confidence :=
  matches_sorted_by_confidence insertionSort insertionSort_contract sampleResults 0 2
    (by decide)
    (by rw [sampleResults_matches_length insertionSort insertionSort_contract]
        decide)

theorem unique_test_agrees (sortSlice : SortSlice) (hs : SortSliceContract sortSlice)
    (allResults : List (String × List Result)) (m : ProfileMatch)
    (hm : m ∈ (AnalyzeResults sortSlice allResults).Matches) :
    decide (m.Confidence ≥ f64const 0.7)
      = decide (specConfidence m.MatchCount m.Results ≥ 70 / 100) := by
  rw [(matches_perm sortSlice hs allResults).mem_iff] at hm
  obtain ⟨e, -, m0, hg, rfl⟩ := mem_scored allResults m hm
  obtain ⟨-, -, hcount, hpos⟩ := groupEntry_some e m0 hg
  have hR : (scoreMatch m0).Results = m0.Results := rfl
  have hC : (scoreMatch m0).MatchCount = m0.MatchCount := rfl
  rw [hR, hC, scoreMatch_confidence, hcount]
  have hn : 1 ≤ m0.Results.length := by
    rw [hcount] at hpos
    exact_mod_cast hpos
  exact decide_eq_decide.2 (threshold_agrees m0.Results hn)

/-- C4: for a map with distinct keys, `TotalChecked` is the number of keys, `TotalFound` is the
sum of `MatchCount` over the returned matches and the number of results with `Exists` set in
the map, and `UniqueProfiles` is the number of returned matches with confidence at least
0.70: the stored `float64` is at least the `float64` constant 0.7, which holds exactly for
the matches whose exact decimal confidence is at least 0.70. -/
theorem totals_are_counts (sortSlice : SortSlice) (hs : SortSliceContract sortSlice)
    (allResults : List (String × List Result)) (hk : keysDistinct allResults) :
    (AnalyzeResults sortSlice allResults).TotalChecked
        = ((allResults.map (fun entry => entry.1)).toFinset.card : Int)
      ∧ (AnalyzeResults sortSlice allResults).TotalFound
        = ((AnalyzeResults sortSlice allResults).Matches.map (fun m => m.MatchCount)).sum
      ∧ (AnalyzeResults sortSlice allResults).TotalFound
        = (((allResults.map
              (fun entry => (entry.2.filter (fun r => r.Exists)).length)).sum : Nat) : Int)
      ∧ (AnalyzeResults sortSlice allResults).UniqueProfiles
        = (((AnalyzeResults sortSlice allResults).Matches.filter
              (fun m => decide (m.Confidence ≥ f64const 0.7))).length : Int)
      ∧ (AnalyzeResults sortSlice allResults).UniqueProfiles
        = (((AnalyzeResults sortSlice allResults).Matches.filter
              (fun m => decide (specConfidence m.MatchCount m.Results ≥ 70 / 100))).length
            : Int) := by
  have hp := matches_perm sortSlice hs allResults
  have hF : (AnalyzeResults sortSlice allResults).TotalFound
      = ((AnalyzeResults sortSlice allResults).Matches.map (fun m => m.MatchCount)).sum := by
    have h := foldl_matchCount (AnalyzeResults sortSlice allResults).Matches 0
    rw [zero_add] at h
    exact h
  have hU : (AnalyzeResults sortSlice allResults).UniqueProfiles
      = (((AnalyzeResults sortSlice allResults).Matches.filter
            (fun m => decide (m.Confidence ≥ f64const 0.7))).length : Int) := by
    have h := foldl_unique (AnalyzeResults sortSlice allResults).Matches 0
    rw [zero_add] at h
    exact h
  refine ⟨?_, hF, ?_, hU, ?_⟩
  · rw [List.toFinset_card_of_nodup hk, List.length_map]
    rfl
  · rw [hF, (hp.map (fun m => m.MatchCount)).sum_eq, sum_matchCount_scored]
  · rw [hU]
    congr 2
    apply List.filter_congr
    intro m hm
    exact unique_test_agrees sortSlice hs allResults m hm

/-- Witness of C4: the map of `TestAnalyzeResults`. -/
theorem totals_are_counts_witness :
    (AnalyzeResults insertionSort sampleResults).TotalChecked
        = ((sampleResults.map (fun entry => entry.1)).toFinset.card : Int)
      ∧ (AnalyzeResults insertionSort sampleResults).TotalFound
        = ((AnalyzeResults insertionSort sampleResults).Matches.map
            (fun m => m.MatchCount)).sum
      ∧ (AnalyzeResults insertionSort sampleResults).TotalFound
        = (((sampleResults.map
              (fun entry => (entry.2.filter (fun r => r.Exists)).length)).sum : Nat) : Int)
      ∧ (AnalyzeResults insertionSort sampleResults).UniqueProfiles
        = (((AnalyzeResults insertionSort sampleResults).Matches.filter
              (fun m => decide (m.Confidence ≥ f64const 0.7))).length : Int)
      ∧ (AnalyzeResults insertionSort sampleResults).UniqueProfiles
        = (((AnalyzeResults insertionSort sampleResults).Matches.filter
              (fun m => decide (specConfidence m.MatchCount m.Results ≥ 70 / 100))).length
            : Int) :=
  totals_are_counts insertionSort insertionSort_contract sampleResults
    sampleResults_keysDistinct

/-! ## Lemmas: `removeDuplicates` -/

theorem removeDuplicates_foldl (l : List String) (keys acc : List String)
    (hinv : ∀ x, x ∈ keys ↔ x ∈ acc) :
    (l.foldl
      (fun (st : List String × List String) entry =>
        if entry ∈ st.1 then st else (entry :: st.1, st.2 ++ [entry]))
      (keys, acc)).2
      = acc ++ (firstOccurrences l).filter (fun y => decide (y ∉ acc)) := by
  induction l generalizing keys acc with
  | nil => simp [firstOccurrences]
  | cons x xs ih =>
    rw [List.foldl_cons]
    by_cases hx : x ∈ keys
    · have hxa : x ∈ acc := (hinv x).1 hx
      simp only [hx, if_true]
      rw [ih keys acc hinv]
      congr 1
      simp only [firstOccurrences, List.filter_cons, hxa, not_true_eq_false, decide_False,
        List.filter_filter]
      simp only [Bool.false_eq_true, if_false]
      apply List.filter_congr
      intro y _
      by_cases hy : y ∈ acc
      · simp [hy]
      · have : y ≠ x := by
          intro h
          exact hy (h ▸ hxa)
        simp [hy, this]
    · have hxa : x ∉ acc := fun h => hx ((hinv x).2 h)
      simp only [hx, if_false]
      have hinv2 : ∀ y, y ∈ x :: keys ↔ y ∈ acc ++ [x] := by
        intro y
        simp only [List.mem_cons, List.mem_append, List.mem_singleton, hinv y]
        tauto
      rw [ih (x :: keys) (acc ++ [x]) hinv2]
      simp only [firstOccurrences, List.filter_cons, hxa, not_false_eq_true, decide_True, if_true,
        List.filter_filter, List.append_assoc, List.singleton_append]
      congr 2
      apply List.filter_congr
      intro y _
      by_cases hy : y ∈ acc <;> by_cases hyx : y = x <;> simp [hy, hyx]

theorem removeDuplicates_eq (l : List String) : removeDuplicates l = firstOccurrences l := by
  unfold removeDuplicates
  rw [removeDuplicates_foldl l [] [] (by simp)]
  simp

theorem mem_firstOccurrences (l : List String) (x : String) :
    x ∈ firstOccurrences l ↔ x ∈ l := by
  induction l with
  | nil => simp [firstOccurrences]
  | cons a l ih =>
    simp only [firstOccurrences, List.mem_cons, List.mem_filter, ih, decide_eq_true_eq]
    by_cases h : x = a <;> simp [h]

theorem firstOccurrences_sublist (l : List String) : (firstOccurrences l).Sublist l := by
  induction l with
  | nil => exact List.Sublist.slnil
  | cons a l ih =>
    simp only [firstOccurrences]
    exact ((List.filter_sublist _).trans ih).cons₂ a

theorem firstOccurrences_nodup (l : List String) : (firstOccurrences l).Nodup := by
  induction l with
  | nil => simp [firstOccurrences]
  | cons a l ih =>
    simp only [firstOccurrences, List.nodup_cons, List.mem_filter, decide_eq_true_eq]
    exact ⟨fun h => h.2 rfl, ih.filter _⟩

theorem removeDuplicates_nodup (l : List String) : (removeDuplicates l).Nodup := by
  rw [removeDuplicates_eq]; exact firstOccurrences_nodup l


/-! ## Lemmas: the generators -/

theorem GenerateUsernames_some (tbl : Char → Char) (n : NameInfo) (us : List String)
    (h : GenerateUsernames tbl n = some us) : us = [] ∨ ∃ vs, us = removeDuplicates vs := by
  unfold GenerateUsernames at h
  split at h
  · left; cases h; rfl
  · right
    simp only [Option.bind_eq_some] at h
    obtain ⟨v1, -, v2, -, v3, -, h3⟩ := h
    exact ⟨v3, by cases h3; rfl⟩

theorem GenerateCommonUsernames_some (tbl : Char → Char) (n : NameInfo) (us : List String)
    (h : GenerateCommonUsernames tbl n = some us) :
    us = [] ∨ ∃ vs, us = removeDuplicates vs := by
  unfold GenerateCommonUsernames at h
  split at h
  · left; cases h; rfl
  · right
    simp only [Option.bind_eq_some] at h
    obtain ⟨v1, -, v2, -, h3⟩ := h
    exact ⟨v2, by cases h3; rfl⟩

/-- C6: `removeDuplicates l` is the list of first occurrences of `l`: it has no string twice,
the same members as `l`, and is a subsequence of `l`; hence no result of `GenerateUsernames` or
`GenerateCommonUsernames` contains a duplicate. -/
theorem removeDuplicates_first_occurrences (tbl : Char → Char) (l : List String)
    (n : NameInfo) :
    removeDuplicates l = firstOccurrences l
      ∧ (removeDuplicates l).Nodup
      ∧ (∀ x, x ∈ removeDuplicates l ↔ x ∈ l)
      ∧ (removeDuplicates l).Sublist l
      ∧ (∀ us, GenerateUsernames tbl n = some us → us.Nodup)
      ∧ (∀ us, GenerateCommonUsernames tbl n = some us → us.Nodup) := by
  refine ⟨removeDuplicates_eq l, removeDuplicates_nodup l, ?_, ?_, ?_, ?_⟩
  · intro x
    rw [removeDuplicates_eq]
    exact mem_firstOccurrences l x
  · rw [removeDuplicates_eq]
    exact firstOccurrences_sublist l
  · intro us h
    rcases GenerateUsernames_some tbl n us h with rfl | ⟨vs, rfl⟩
    · exact List.nodup_nil
    · exact removeDuplicates_nodup vs
  · intro us h
    rcases GenerateCommonUsernames_some tbl n us h with rfl | ⟨vs, rfl⟩
    · exact List.nodup_nil
    · exact removeDuplicates_nodup vs


theorem string_append_empty (s : String) : s ++ "" = s := by
  apply String.ext
  simp

theorem removeDuplicates_ne_nil (x : String) (xs : List String) :
    removeDuplicates (x :: xs) ≠ [] := by
  rw [removeDuplicates_eq]
  simp [firstOccurrences]

/-- Counterexample to C7 as stated: with an empty first name and the last name `Doe`,
`GenerateAdvancedUsernames` returns nineteen strings. -/
theorem advanced_nonempty_without_first_name :
    GenerateAdvancedUsernames caselessTable { FirstName := "", LastName := "Doe" }
        = some ["doe", "doe.", "doe_", "thedoe", "the_doe", "realdoe", "real_doe",
            "officialdoe", "official_doe", "itsdoe", "its_doe", "imdoe", "im_doe", "mrdoe",
            "mr_doe", "msdoe", "ms_doe", "drdoe", "dr_doe"]
      ∧ GenerateAdvancedUsernames caselessTable { FirstName := "", LastName := "Doe" }
        ≠ some [] := by
  decide

/-- C7, amended: with an empty first name `GenerateUsernames` and `GenerateCommonUsernames`
return the empty sequence whatever the other fields are; `GenerateAdvancedUsernames` returns
the empty sequence when the last name is empty too, and otherwise the deduplicated last-name
forms (reversed names and affixed forms), which are not empty. -/
theorem empty_first_name_results (tbl : Char → Char) (n : NameInfo)
    (h : n.FirstName = "") :
    GenerateUsernames tbl n = some []
      ∧ GenerateCommonUsernames tbl n = some []
      ∧ (n.LastName = "" → GenerateAdvancedUsernames tbl n = some [])
      ∧ (n.LastName ≠ "" →
          GenerateAdvancedUsernames tbl n
              = some (removeDuplicates (lastNameOnlyForms tbl n.LastName))
            ∧ GenerateAdvancedUsernames tbl n ≠ some []) := by
  have hU : GenerateUsernames tbl n = some [] := by simp [GenerateUsernames, h]
  have hC : GenerateCommonUsernames tbl n = some [] := by simp [GenerateCommonUsernames, h]
  refine ⟨hU, hC, ?_, ?_⟩
  · intro hL
    simp [GenerateAdvancedUsernames, hU, leetForms, addReversedForms, addAffixForms,
      commonAffixes, h, hL, removeDuplicates]
  · intro hL
    have hval : GenerateAdvancedUsernames tbl n
        = some (removeDuplicates (lastNameOnlyForms tbl n.LastName)) := by
      simp [GenerateAdvancedUsernames, hU, leetForms, addReversedForms, addAffixForms,
        commonAffixes, h, hL, lastNameOnlyForms, string_append_empty]
    refine ⟨hval, ?_⟩
    rw [hval]
    intro hEq
    exact removeDuplicates_ne_nil _ _ (Option.some.inj hEq)

/-- Witness of C7: no first name, last name `Doe`, birth year 5. -/
theorem empty_first_name_results_witness :
    GenerateUsernames caselessTable { FirstName := "", LastName := "Doe", BirthYear := 5 }
        = some []
      ∧ GenerateCommonUsernames caselessTable
          { FirstName := "", LastName := "Doe", BirthYear := 5 } = some []
      ∧ (("Doe" : String) = "" →
          GenerateAdvancedUsernames caselessTable
            { FirstName := "", LastName := "Doe", BirthYear := 5 } = some [])
      ∧ (("Doe" : String) ≠ "" →
          GenerateAdvancedUsernames caselessTable
              { FirstName := "", LastName := "Doe", BirthYear := 5 }
              = some (removeDuplicates (lastNameOnlyForms caselessTable "Doe"))
            ∧ GenerateAdvancedUsernames caselessTable
              { FirstName := "", LastName := "Doe", BirthYear := 5 } ≠ some []) :=
  empty_first_name_results caselessTable { FirstName := "", LastName := "Doe", BirthYear := 5 }
    rfl

/-! ## Claims on the generators: run-time failure -/

theorem sliceFrom2_one_digit (y : Int) (h1 : 1 ≤ y) (h9 : y ≤ 9) :
    sliceFrom2 (formatInt y) = none := by
  interval_cases y <;> decide

theorem addYearForms_one_digit (n : NameInfo) (h1 : 1 ≤ n.BirthYear) (h9 : n.BirthYear ≤ 9)
    (variations : List String) : addYearForms n variations = none := by
  have hpos : n.BirthYear > 0 := by omega
  simp [addYearForms, hpos, sliceFrom2_one_digit n.BirthYear h1 h9]

theorem addCommonYearForms_one_digit (n : NameInfo) (h1 : 1 ≤ n.BirthYear)
    (h9 : n.BirthYear ≤ 9) (firstName : String) (variations : List String) :
    addCommonYearForms n firstName variations = none := by
  have hpos : n.BirthYear > 0 := by omega
  simp [addCommonYearForms, hpos, sliceFrom2_one_digit n.BirthYear h1 h9]

/-- C8 fails on the code: for a non-empty first name and a birth year from 1 to 9 the slice
`yearStr[2:]` is out of range, so `GenerateUsernames`, `GenerateCommonUsernames` and
`GenerateAdvancedUsernames` all panic instead of returning a sequence. -/
theorem one_digit_year_panics (tbl : Char → Char) (n : NameInfo) (hF : n.FirstName ≠ "")
    (h1 : 1 ≤ n.BirthYear) (h9 : n.BirthYear ≤ 9) :
    GenerateUsernames tbl n = none
      ∧ GenerateCommonUsernames tbl n = none
      ∧ GenerateAdvancedUsernames tbl n = none := by
  have hU : GenerateUsernames tbl n = none := by
    unfold GenerateUsernames
    rw [if_neg hF]
    cases addLastNameForms tbl n [ToLower tbl n.FirstName] with
    | none => rfl
    | some v1 =>
      cases hm : addMiddleInitialForms tbl n v1 with
      | none => simp [hm]
      | some v2 => simp [hm, addYearForms_one_digit n h1 h9]
  have hC : GenerateCommonUsernames tbl n = none := by
    unfold GenerateCommonUsernames
    rw [if_neg hF]
    cases hl : addCommonLastNameForms tbl n (ToLower tbl n.FirstName)
        [ToLower tbl n.FirstName] with
    | none => simp [hl]
    | some v1 => simp [hl, addCommonYearForms_one_digit n h1 h9]
  refine ⟨hU, hC, ?_⟩
  simp [GenerateAdvancedUsernames, hU]

/-- Witness of the failure of C8: first name `John`, birth year 5. -/
theorem one_digit_year_panics_witness :
    GenerateUsernames caselessTable { FirstName := "John", BirthYear := 5 } = none
      ∧ GenerateCommonUsernames caselessTable { FirstName := "John", BirthYear := 5 } = none
      ∧ GenerateAdvancedUsernames caselessTable { FirstName := "John", BirthYear := 5 }
          = none :=
  one_digit_year_panics caselessTable { FirstName := "John", BirthYear := 5 } (by decide)
    (by decide) (by decide)

/-! ## Claims on `ParseFullName` -/

theorem sliceRange_middle (parts : List String) (h : 3 ≤ parts.length) :
    sliceRange parts 1 (parts.length - 1)
      = some ((parts.take (parts.length - 1)).drop 1) := by
  unfold sliceRange
  rw [if_pos]
  constructor <;> omega

/-- The fields cut by `fieldsAux` are non-empty and free of space characters, given that the
field being read is free of them. -/
theorem fieldsAux_tokens (cs cur : List Char) (hcur : ∀ c ∈ cur, IsSpace c = false) :
    ∀ t ∈ fieldsAux cs cur, t ≠ "" ∧ ∀ c ∈ t.data, IsSpace c = false := by
  induction cs generalizing cur with
  | nil =>
    intro t ht
    unfold fieldsAux at ht
    split at ht
    · cases ht
    · rename_i hne
      have : t = String.mk cur := by simpa using ht
      subst this
      refine ⟨?_, hcur⟩
      intro h
      apply hne
      have : cur = [] := by
        have := congrArg String.data h
        simpa using this
      simp [this]
  | cons c cs ih =>
    intro t ht
    unfold fieldsAux at ht
    split at ht
    · split at ht
      · exact ih [] (by simp) t ht
      · rename_i hne
        rcases List.mem_cons.1 ht with rfl | ht
        · refine ⟨?_, hcur⟩
          intro h
          apply hne
          have : cur = [] := by
            have := congrArg String.data h
            simpa using this
          simp [this]
        · exact ih [] (by simp) t ht
    · rename_i hsp
      refine ih (cur ++ [c]) ?_ t ht
      intro d hd
      rcases List.mem_append.1 hd with hd | hd
      · exact hcur d hd
      · have : d = c := by simpa using hd
        subst this
        simpa using hsp

theorem modifyHead_twice {α : Type} (f g : α → α) (l : List α) :
    (l.modifyHead f).modifyHead g = l.modifyHead (fun x => g (f x)) := by
  cases l <;> rfl

theorem modifyHead_nil_append (l : List (List Char)) :
    l.modifyHead (fun x => [] ++ x) = l := by
  cases l <;> rfl

/-- The scan of `strings.Fields` cuts the pieces between space characters and drops the empty
ones; the field being read belongs to the first piece. -/
theorem fieldsAux_eq_split (cs : List Char) :
    ∀ cur : List Char,
      fieldsAux cs cur
        = ((((cs.splitOnP IsSpace).modifyHead (fun x => cur ++ x)).filter
            (fun piece => !piece.isEmpty))).map String.mk := by
  induction cs with
  | nil =>
    intro cur
    rw [List.splitOnP_nil]
    cases cur <;> simp [fieldsAux, List.modifyHead]
  | cons c cs ih =>
    intro cur
    rw [List.splitOnP_cons]
    unfold fieldsAux
    by_cases hsp : IsSpace c = true
    · rw [if_pos hsp, if_pos hsp, ih [], modifyHead_nil_append]
      cases cur <;> simp [List.modifyHead]
    · rw [if_neg hsp, if_neg hsp, ih (cur ++ [c]), modifyHead_twice]
      simp

/-- The fields of `strings.Fields` are the whitespace-separated tokens of the string. -/
theorem Fields_eq_whitespaceTokens (s : String) : Fields s = whitespaceTokens s := by
  unfold Fields whitespaceTokens
  rw [fieldsAux_eq_split, modifyHead_nil_append]

/-- What `ParseFullName` returns, by the number of fields of its argument. -/
theorem ParseFullName_cases (s : String) :
    ∃ info, ParseFullName s = some info
      ∧ info.BirthYear = 0
      ∧ (∀ t ∈ Fields s, t ≠ "" ∧ ∀ c ∈ t.data, IsSpace c = false)
      ∧ ((Fields s).length = 0 →
          info.FirstName = "" ∧ info.MiddleName = "" ∧ info.LastName = "")
      ∧ ((Fields s).length = 1 →
          (Fields s).get? 0 = some info.FirstName ∧ info.MiddleName = ""
            ∧ info.LastName = "")
      ∧ ((Fields s).length = 2 →
          (Fields s).get? 0 = some info.FirstName ∧ info.MiddleName = ""
            ∧ (Fields s).get? 1 = some info.LastName)
      ∧ (3 ≤ (Fields s).length →
          (Fields s).get? 0 = some info.FirstName
            ∧ (Fields s).get? ((Fields s).length - 1) = some info.LastName
            ∧ info.MiddleName
                = " ".intercalate (((Fields s).take ((Fields s).length - 1)).drop 1)) := by
  have htok : ∀ t ∈ Fields s, t ≠ "" ∧ ∀ c ∈ t.data, IsSpace c = false :=
    fieldsAux_tokens s.data [] (by simp)
  unfold ParseFullName
  generalize Fields s = parts at htok ⊢
  match parts, htok with
  | [], _ =>
    exact ⟨{}, rfl, rfl, by simp, by simp, by simp, by simp, by simp⟩
  | [p0], htok =>
    exact ⟨{ FirstName := p0 }, rfl, rfl, htok, by simp, by simp, by simp, by simp⟩
  | [p0, p1], htok =>
    exact ⟨{ FirstName := p0, LastName := p1 }, rfl, rfl, htok, by simp, by simp, by simp,
      by simp⟩
  | p0 :: p1 :: p2 :: rest, htok =>
    have hlen : 3 ≤ (p0 :: p1 :: p2 :: rest).length := by simp
    have hlast : ∃ l, (p0 :: p1 :: p2 :: rest).get? ((p0 :: p1 :: p2 :: rest).length - 1)
        = some l := by
      have hlt : (p0 :: p1 :: p2 :: rest).length - 1 < (p0 :: p1 :: p2 :: rest).length := by
        omega
      exact ⟨_, List.get?_eq_get hlt⟩
    obtain ⟨l, hl⟩ := hlast
    refine ⟨{ FirstName := p0,
              MiddleName := Join (((p0 :: p1 :: p2 :: rest).take
                ((p0 :: p1 :: p2 :: rest).length - 1)).drop 1) " ",
              LastName := l }, ?_, rfl, htok, ?_, ?_, ?_, ?_⟩
    · have hm : (p0 :: p1 :: p2 :: rest).length = rest.length + 3 := by simp
      simp only [hm]
      rw [← hm, sliceRange_middle _ hlen, hl]
      rfl
    · intro h; simp at h
    · intro h; simp at h
    · intro h; simp at h
    · intro _
      exact ⟨rfl, hl, rfl⟩

/-- C9: for every string `s`, the fields that `ParseFullName` reads are the
whitespace-separated tokens of `s` (the pieces between space characters, the empty ones
dropped; each token is non-empty and free of space characters). `ParseFullName` never fails
and leaves `BirthYear` at 0; with `k` tokens it returns all fields empty for `k = 0`, the
first token as first name alone for `k = 1`, first and last name for `k = 2`, and for
`k ≥ 3` the first token, the last token and the tokens between them joined by single spaces.
So the four tokens of a name with irregular spacing give John, Michael James, Doe, and the
cases of `TestParseFullName` come out as the test expects. -/
theorem ParseFullName_by_field_count (s : String) :
    Fields s = whitespaceTokens s
      ∧ (∃ info, ParseFullName s = some info
          ∧ info.BirthYear = 0
          ∧ (∀ t ∈ whitespaceTokens s, t ≠ "" ∧ ∀ c ∈ t.data, IsSpace c = false)
          ∧ ((whitespaceTokens s).length = 0 →
              info.FirstName = "" ∧ info.MiddleName = "" ∧ info.LastName = "")
          ∧ ((whitespaceTokens s).length = 1 →
              (whitespaceTokens s).get? 0 = some info.FirstName ∧ info.MiddleName = ""
                ∧ info.LastName = "")
          ∧ ((whitespaceTokens s).length = 2 →
              (whitespaceTokens s).get? 0 = some info.FirstName ∧ info.MiddleName = ""
                ∧ (whitespaceTokens s).get? 1 = some info.LastName)
          ∧ (3 ≤ (whitespaceTokens s).length →
              (whitespaceTokens s).get? 0 = some info.FirstName
                ∧ (whitespaceTokens s).get? ((whitespaceTokens s).length - 1)
                    = some info.LastName
                ∧ info.MiddleName
                    = " ".intercalate
                        (((whitespaceTokens s).take ((whitespaceTokens s).length - 1)).drop 1)))
      ∧ whitespaceTokens "  John \t Michael   James\nDoe " = ["John", "Michael", "James", "Doe"]
      ∧ ParseFullName "  John \t Michael   James\nDoe "
          = some { FirstName := "John", MiddleName := "Michael James", LastName := "Doe" }
      ∧ ParseFullName "" = some {}
      ∧ ParseFullName "   " = some {}
      ∧ ParseFullName "John" = some { FirstName := "John" }
      ∧ ParseFullName "John Doe" = some { FirstName := "John", LastName := "Doe" }
      ∧ ParseFullName "John Michael Doe"
          = some { FirstName := "John", MiddleName := "Michael", LastName := "Doe" }
      ∧ ParseFullName "John Michael James Doe"
          = some { FirstName := "John", MiddleName := "Michael James", LastName := "Doe" } := by
  have hF := Fields_eq_whitespaceTokens s
  have h := ParseFullName_cases s
  rw [hF] at h
  exact ⟨hF, h, by decide, by decide, by decide, by decide, by decide, by decide, by decide,
    by decide⟩

/-- The cases of `TestParseFullName`, and a name with irregular spacing. -/
theorem ParseFullName_examples :
    ParseFullName "" = some {}
      ∧ ParseFullName "John" = some { FirstName := "John" }
      ∧ ParseFullName "John Doe" = some { FirstName := "John", LastName := "Doe" }
      ∧ ParseFullName "John Michael Doe"
          = some { FirstName := "John", MiddleName := "Michael", LastName := "Doe" }
      ∧ ParseFullName "John Michael James Doe"
          = some { FirstName := "John", MiddleName := "Michael James", LastName := "Doe" }
      ∧ ParseFullName "  John \t Michael   James\nDoe "
          = some { FirstName := "John", MiddleName := "Michael James", LastName := "Doe" } := by
  decide

/-! ## Lemmas: decimal numerals -/

theorem toDigitsCore_eq (fuel : Nat) :
    ∀ (n : Nat) (ds : List Char), n < fuel →
      Nat.toDigitsCore 10 fuel n ds = Nat.toDigitsCore 10 (n + 1) n [] ++ ds := by
  induction fuel using Nat.strong_induction_on with
  | _ fuel ih =>
    intro n ds hn
    cases fuel with
    | zero => omega
    | succ fuel =>
      by_cases h0 : n / 10 = 0
      · simp [Nat.toDigitsCore, h0]
      · have hlt : n / 10 < n := Nat.div_lt_self (by omega) (by decide)
        have e1 : Nat.toDigitsCore 10 (fuel + 1) n ds
            = Nat.toDigitsCore 10 fuel (n / 10) (Nat.digitChar (n % 10) :: ds) := by
          simp [Nat.toDigitsCore, h0]
        have e2 : Nat.toDigitsCore 10 (n + 1) n []
            = Nat.toDigitsCore 10 n (n / 10) [Nat.digitChar (n % 10)] := by
          simp [Nat.toDigitsCore, h0]
        rw [e1, e2, ih fuel (Nat.lt_succ_self _) (n / 10) _ (by omega),
          ih n (by omega) (n / 10) _ hlt]
        simp

theorem toDigits_small (n : Nat) (h : n < 10) : Nat.toDigits 10 n = [Nat.digitChar n] := by
  have h0 : n / 10 = 0 := Nat.div_eq_of_lt h
  have hm : n % 10 = n := Nat.mod_eq_of_lt h
  simp [Nat.toDigits, Nat.toDigitsCore, h0, hm]

theorem toDigits_step (n : Nat) (h : 10 ≤ n) :
    Nat.toDigits 10 n = Nat.toDigits 10 (n / 10) ++ [Nat.digitChar (n % 10)] := by
  have h0 : n / 10 ≠ 0 := by
    intro h0
    have := (Nat.div_eq_zero_iff (by decide : 0 < 10)).1 h0
    omega
  have hlt : n / 10 < n := Nat.div_lt_self (by omega) (by decide)
  have e2 : Nat.toDigitsCore 10 (n + 1) n []
      = Nat.toDigitsCore 10 n (n / 10) [Nat.digitChar (n % 10)] := by
    simp [Nat.toDigitsCore, h0]
  unfold Nat.toDigits
  rw [e2, toDigitsCore_eq n (n / 10) _ hlt]

theorem toDigits_length_pos (n : Nat) : 1 ≤ (Nat.toDigits 10 n).length := by
  by_cases h : n < 10
  · rw [toDigits_small n h]; simp
  · rw [toDigits_step n (by omega)]; simp

theorem toDigits_length_two (n : Nat) (h : 10 ≤ n) : 2 ≤ (Nat.toDigits 10 n).length := by
  rw [toDigits_step n h, List.length_append]
  have := toDigits_length_pos (n / 10)
  simp
  omega

theorem toDigits_four (n : Nat) (h1 : 1000 ≤ n) (h2 : n ≤ 9999) :
    Nat.toDigits 10 n
      = [Nat.digitChar (n / 1000), Nat.digitChar (n / 100 % 10), Nat.digitChar (n / 10 % 10),
         Nat.digitChar (n % 10)] := by
  rw [toDigits_step n (by omega), toDigits_step (n / 10) (by omega),
    toDigits_step (n / 10 / 10) (by omega), toDigits_small (n / 10 / 10 / 10) (by omega)]
  have a1 : n / 10 / 10 / 10 = n / 1000 := by omega
  have a2 : n / 10 / 10 % 10 = n / 100 % 10 := by omega
  rw [a1, a2]
  rfl

theorem formatInt_pos (y : Int) (h : 0 < y) :
    formatInt y = String.mk (Nat.toDigits 10 y.toNat) := by
  obtain ⟨m, rfl⟩ := Int.eq_ofNat_of_zero_le (le_of_lt h)
  rfl

theorem sliceFrom2_two_digits (y : Int) (h : 10 ≤ y) :
    sliceFrom2 (formatInt y) = some (String.mk ((Nat.toDigits 10 y.toNat).drop 2)) := by
  rw [formatInt_pos y (by omega)]
  unfold sliceFrom2
  rw [if_pos]
  exact toDigits_length_two _ (by omega)

/-! ## Lemmas: the blocks of `GenerateUsernames` -/

theorem string_data_ne_nil (s : String) (h : s ≠ "") : s.data ≠ [] := by
  intro hd
  apply h
  apply String.ext
  simpa using hd

theorem byteAt0_isSome (s : String) (h : s ≠ "") : ∃ b, byteAt0 s = some b := by
  unfold byteAt0
  cases hd : s.data with
  | nil => exact absurd hd (string_data_ne_nil s h)
  | cons c cs => exact ⟨_, rfl⟩

theorem byteAt0_ascii (s : String) (h : s ≠ "") (ha : asciiInitial s = true) :
    ∃ b, byteAt0 s = some b ∧ byteToString b = firstCharacter s := by
  unfold byteAt0 firstCharacter
  unfold asciiInitial at ha
  cases hd : s.data with
  | nil => exact absurd hd (string_data_ne_nil s h)
  | cons c cs =>
    rw [hd] at ha
    have hc : c.toNat < 0x80 := by simpa using ha
    refine ⟨_, rfl, ?_⟩
    simp only [utf8FirstByte, hc, if_true, byteToString, Char.ofNat_toNat]

theorem yearVariations_foldl (vs acc : List String) (year short : String) :
    vs.foldl
      (fun acc username =>
        acc ++ [username ++ year, username ++ short,
                username ++ "_" ++ year, username ++ "_" ++ short])
      acc
      = acc ++ specYearForms vs year short := by
  induction vs generalizing acc with
  | nil => simp [specYearForms]
  | cons v vs ih =>
    rw [List.foldl_cons, ih]
    simp [specYearForms, List.flatMap_cons]

theorem yearVariations_eq (vs : List String) (year short : String) :
    yearVariations vs year short = specYearForms vs year short := by
  unfold yearVariations
  rw [yearVariations_foldl]
  simp

theorem addYearForms_four_digits (n : NameInfo)
    (hy : n.BirthYear = 0 ∨ (1000 ≤ n.BirthYear ∧ n.BirthYear ≤ 9999)) (vs : List String) :
    addYearForms n vs
      = some (vs ++
          (if n.BirthYear > 0 then
            specYearForms vs (formatInt n.BirthYear) (lastTwoDigits n.BirthYear)
           else [])) := by
  unfold addYearForms
  rcases hy with h0 | ⟨h1, h2⟩
  · simp [h0]
  · have hpos : n.BirthYear > 0 := by omega
    rw [if_pos hpos, if_pos hpos]
    simp only []
    rw [sliceFrom2_two_digits n.BirthYear (by omega)]
    have hd : Nat.toDigits 10 n.BirthYear.toNat
        = [Nat.digitChar (n.BirthYear.toNat / 1000),
           Nat.digitChar (n.BirthYear.toNat / 100 % 10),
           Nat.digitChar (n.BirthYear.toNat / 10 % 10),
           Nat.digitChar (n.BirthYear.toNat % 10)] :=
      toDigits_four _ (by omega) (by omega)
    simp only [hd, List.drop_succ_cons, List.drop_zero, yearVariations_eq, lastTwoDigits]
    rfl

theorem GenerateUsernames_ascii_initials (tbl : Char → Char) (n : NameInfo)
    (hF : n.FirstName ≠ "") (hFa : asciiInitial n.FirstName = true)
    (hMa : asciiInitial n.MiddleName = true)
    (hy : n.BirthYear = 0 ∨ (1000 ≤ n.BirthYear ∧ n.BirthYear ≤ 9999)) :
    GenerateUsernames tbl n = some (specGenerateUsernames tbl n) := by
  obtain ⟨b, hb, hbs⟩ := byteAt0_ascii n.FirstName hF hFa
  have hL : addLastNameForms tbl n [ToLower tbl n.FirstName]
      = some ([ToLower tbl n.FirstName] ++
          (if n.LastName ≠ "" then
            [ToLower tbl n.LastName,
             ToLower tbl (n.FirstName ++ n.LastName),
             ToLower tbl (n.FirstName ++ "." ++ n.LastName),
             ToLower tbl (n.FirstName ++ "_" ++ n.LastName),
             ToLower tbl (firstCharacter n.FirstName ++ n.LastName)]
           else [])) := by
    unfold addLastNameForms
    by_cases h : n.LastName = ""
    · simp [h]
    · simp [h, hb, hbs]
  have hM : ∀ vs, addMiddleInitialForms tbl n vs
      = some (vs ++
          (if n.MiddleName ≠ "" then
            [ToLower tbl (n.FirstName ++ firstCharacter n.MiddleName ++ n.LastName),
             ToLower tbl (n.FirstName ++ "." ++ firstCharacter n.MiddleName ++ "."
               ++ n.LastName),
             ToLower tbl (n.FirstName ++ "_" ++ firstCharacter n.MiddleName ++ "_"
               ++ n.LastName)]
           else [])) := by
    intro vs
    unfold addMiddleInitialForms
    by_cases h : n.MiddleName = ""
    · simp [h]
    · obtain ⟨c, hc, hcs⟩ := byteAt0_ascii n.MiddleName h hMa
      simp [h, hc, hcs]
  unfold GenerateUsernames
  rw [if_neg hF, hL]
  simp only [Option.bind_some, Option.some_bind, hM, addYearForms_four_digits n hy,
    removeDuplicates_eq]
  rfl

/-! ## Claims on `GenerateUsernames` -/

/-- C5 fails on the code for a name whose initial is not an ASCII character: the code takes
the first byte of the name as its initial, so for the first name `明华` and the last name `Li`
it returns `æli` where the specification has `明li`. For names with ASCII initials and a
birth year that is 0 or has four digits, `GenerateUsernames` returns the first occurrences of
the variations followed by their year-suffixed forms, as the claim states. -/
theorem initial_is_first_byte :
    GenerateUsernames caselessTable { FirstName := "明华", LastName := "Li" }
        = some ["明华", "li", "明华li", "明华.li", "明华_li", "æli"]
      ∧ specGenerateUsernames caselessTable { FirstName := "明华", LastName := "Li" }
        = ["明华", "li", "明华li", "明华.li", "明华_li", "明li"]
      ∧ (∀ (tbl : Char → Char) (n : NameInfo), n.FirstName ≠ "" →
          asciiInitial n.FirstName = true → asciiInitial n.MiddleName = true →
          (n.BirthYear = 0 ∨ (1000 ≤ n.BirthYear ∧ n.BirthYear ≤ 9999)) →
          GenerateUsernames tbl n = some (specGenerateUsernames tbl n)) := by
  refine ⟨by decide, by decide, ?_⟩
  intro tbl n hF hFa hMa hy
  exact GenerateUsernames_ascii_initials tbl n hF hFa hMa hy

set_option maxRecDepth 100000 in
/-- The example of the specification: John Doe, born 1990. -/
theorem GenerateUsernames_john_doe_1990 :
    GenerateUsernames caselessTable
        { FirstName := "John", LastName := "Doe", BirthYear := 1990 }
      = some ["john", "doe", "johndoe", "john.doe", "john_doe", "jdoe",
          "john1990", "john90", "john_1990", "john_90",
          "doe1990", "doe90", "doe_1990", "doe_90",
          "johndoe1990", "johndoe90", "johndoe_1990", "johndoe_90",
          "john.doe1990", "john.doe90", "john.doe_1990", "john.doe_90",
          "john_doe1990", "john_doe90", "john_doe_1990", "john_doe_90",
          "jdoe1990", "jdoe90", "jdoe_1990", "jdoe_90"] := by
  decide

/-! ## Claims on `GenerateAdvancedUsernames` -/

theorem addYearForms_isSome (n : NameInfo) (hy : n.BirthYear ≤ 0 ∨ 10 ≤ n.BirthYear)
    (vs : List String) : ∃ ws, addYearForms n vs = some ws := by
  unfold addYearForms
  by_cases hpos : n.BirthYear > 0
  · rw [if_pos hpos]
    simp only []
    rw [sliceFrom2_two_digits n.BirthYear (by omega)]
    exact ⟨_, rfl⟩
  · rw [if_neg hpos]
    exact ⟨_, rfl⟩

theorem GenerateUsernames_isSome (tbl : Char → Char) (n : NameInfo) (hF : n.FirstName ≠ "")
    (hy : n.BirthYear ≤ 0 ∨ 10 ≤ n.BirthYear) :
    ∃ basic, GenerateUsernames tbl n = some basic := by
  obtain ⟨b, hb⟩ := byteAt0_isSome n.FirstName hF
  have hL : ∃ v1, addLastNameForms tbl n [ToLower tbl n.FirstName] = some v1 := by
    unfold addLastNameForms
    by_cases h : n.LastName = ""
    · rw [if_neg (not_not.2 h)]
      exact ⟨_, rfl⟩
    · rw [if_pos h, hb]
      exact ⟨_, rfl⟩
  obtain ⟨v1, h1⟩ := hL
  have hM : ∃ v2, addMiddleInitialForms tbl n v1 = some v2 := by
    unfold addMiddleInitialForms
    by_cases h : n.MiddleName = ""
    · rw [if_neg (not_not.2 h)]
      exact ⟨_, rfl⟩
    · obtain ⟨c, hc⟩ := byteAt0_isSome n.MiddleName h
      rw [if_pos h, hc]
      exact ⟨_, rfl⟩
  obtain ⟨v2, h2⟩ := hM
  obtain ⟨v3, h3⟩ := addYearForms_isSome n hy v2
  refine ⟨removeDuplicates v3, ?_⟩
  unfold GenerateUsernames
  rw [if_neg hF, h1]
  simp only [Option.some_bind, h2, h3]

theorem leetForms_foldl (tbl : Char → Char) (basic acc : List String) :
    basic.foldl (fun advanced username => advanced ++ [toLeetspeak tbl username]) acc
      = acc ++ basic.map (toLeetspeak tbl) := by
  induction basic generalizing acc with
  | nil => simp
  | cons u us ih => rw [List.foldl_cons, ih]; simp

theorem leetForms_eq (tbl : Char → Char) (basic : List String) :
    leetForms tbl basic = basic.map (toLeetspeak tbl) := by
  unfold leetForms
  rw [leetForms_foldl]
  simp

theorem mem_addAffixForms (tbl : Char → Char) (n : NameInfo) (acc : List String)
    (affix x : String) (hx : x ∈ acc) : x ∈ addAffixForms tbl n acc affix := by
  unfold addAffixForms
  by_cases hF : n.FirstName = "" <;> by_cases hL : n.LastName = "" <;> simp [hF, hL, hx]

theorem mem_foldl_addAffixForms (tbl : Char → Char) (n : NameInfo) (affixes : List String)
    (acc : List String) (x : String) (hx : x ∈ acc) :
    x ∈ affixes.foldl (addAffixForms tbl n) acc := by
  induction affixes generalizing acc with
  | nil => simpa using hx
  | cons a as ih =>
    rw [List.foldl_cons]
    exact ih _ (mem_addAffixForms tbl n acc a x hx)

theorem affix_forms_mem (tbl : Char → Char) (n : NameInfo) (hF : n.FirstName ≠ "")
    (hL : n.LastName ≠ "") (affixes : List String) (acc : List String) (a : String)
    (ha : a ∈ affixes) :
    ToLower tbl (a ++ n.FirstName) ∈ affixes.foldl (addAffixForms tbl n) acc
      ∧ ToLower tbl (a ++ "_" ++ n.FirstName) ∈ affixes.foldl (addAffixForms tbl n) acc
      ∧ ToLower tbl (a ++ n.LastName) ∈ affixes.foldl (addAffixForms tbl n) acc
      ∧ ToLower tbl (a ++ "_" ++ n.LastName) ∈ affixes.foldl (addAffixForms tbl n) acc := by
  induction affixes generalizing acc with
  | nil => cases ha
  | cons b bs ih =>
    rw [List.foldl_cons]
    rcases List.mem_cons.1 ha with rfl | hbs
    · have key : ∀ x, x ∈ addAffixForms tbl n acc a →
          x ∈ bs.foldl (addAffixForms tbl n) (addAffixForms tbl n acc a) :=
        fun x hx => mem_foldl_addAffixForms tbl n bs _ x hx
      refine ⟨key _ ?_, key _ ?_, key _ ?_, key _ ?_⟩ <;>
        simp [addAffixForms, hF, hL]
    · exact ih _ hbs

set_option maxRecDepth 100000 in
/-- C10 fails on the code for a birth year from 1 to 9, where `GenerateAdvancedUsernames`
panics inside `GenerateUsernames` (John Doe born in year 5). For every other birth year, a
non-empty first name `F` and a non-empty last name `L`, it returns a list that contains the
three reversed names, the leetspeak form of every string of `GenerateUsernames` (`j0hn` and
`d03` for John Doe) and, for each affix, the four affixed forms. -/
theorem advanced_forms_present :
    GenerateAdvancedUsernames caselessTable
        { FirstName := "John", LastName := "Doe", BirthYear := 5 } = none
      ∧ (∀ (tbl : Char → Char) (n : NameInfo), n.FirstName ≠ "" → n.LastName ≠ "" →
          (n.BirthYear ≤ 0 ∨ 10 ≤ n.BirthYear) →
          ∃ basic adv, GenerateUsernames tbl n = some basic
            ∧ GenerateAdvancedUsernames tbl n = some adv
            ∧ ToLower tbl (n.LastName ++ n.FirstName) ∈ adv
            ∧ ToLower tbl (n.LastName ++ "." ++ n.FirstName) ∈ adv
            ∧ ToLower tbl (n.LastName ++ "_" ++ n.FirstName) ∈ adv
            ∧ (∀ u ∈ basic, toLeetspeak tbl u ∈ adv)
            ∧ (∀ a ∈ commonAffixes,
                ToLower tbl (a ++ n.FirstName) ∈ adv
                  ∧ ToLower tbl (a ++ "_" ++ n.FirstName) ∈ adv
                  ∧ ToLower tbl (a ++ n.LastName) ∈ adv
                  ∧ ToLower tbl (a ++ "_" ++ n.LastName) ∈ adv))
      ∧ (∃ adv, GenerateAdvancedUsernames caselessTable { FirstName := "John", LastName := "Doe" }
            = some adv
          ∧ "j0hn" ∈ adv ∧ "d03" ∈ adv ∧ "doejohn" ∈ adv ∧ "doe.john" ∈ adv
          ∧ "realjohn" ∈ adv ∧ "official_doe" ∈ adv) := by
  refine ⟨by decide, ?_, ?_⟩
  · intro tbl n hF hL hy
    obtain ⟨basic, hb⟩ := GenerateUsernames_isSome tbl n hF hy
    have hadv : GenerateAdvancedUsernames tbl n
        = some (basic ++ removeDuplicates
            (commonAffixes.foldl (addAffixForms tbl n)
              (addReversedForms tbl n (leetForms tbl basic)))) := by
      unfold GenerateAdvancedUsernames
      rw [hb]
      rfl
    refine ⟨basic, _, hb, hadv, ?_⟩
    have hrev : ∀ x, x ∈ addReversedForms tbl n (leetForms tbl basic) →
        x ∈ basic ++ removeDuplicates
          (commonAffixes.foldl (addAffixForms tbl n)
            (addReversedForms tbl n (leetForms tbl basic))) := by
      intro x hx
      apply List.mem_append_right
      rw [removeDuplicates_eq, mem_firstOccurrences]
      exact mem_foldl_addAffixForms tbl n _ _ x hx
    refine ⟨hrev _ ?_, hrev _ ?_, hrev _ ?_, ?_, ?_⟩
    · simp [addReversedForms, hL]
    · simp [addReversedForms, hL]
    · simp [addReversedForms, hL]
    · intro u hu
      apply hrev
      have : toLeetspeak tbl u ∈ leetForms tbl basic := by
        rw [leetForms_eq]
        exact List.mem_map.2 ⟨u, hu, rfl⟩
      simp [addReversedForms, hL, this]
    · intro a ha
      have h4 := affix_forms_mem tbl n hF hL commonAffixes
        (addReversedForms tbl n (leetForms tbl basic)) a ha
      have up : ∀ x, x ∈ commonAffixes.foldl (addAffixForms tbl n)
            (addReversedForms tbl n (leetForms tbl basic)) →
          x ∈ basic ++ removeDuplicates
            (commonAffixes.foldl (addAffixForms tbl n)
              (addReversedForms tbl n (leetForms tbl basic))) := by
        intro x hx
        apply List.mem_append_right
        rw [removeDuplicates_eq, mem_firstOccurrences]
        exact hx
      exact ⟨up _ h4.1, up _ h4.2.1, up _ h4.2.2.1, up _ h4.2.2.2⟩
  · refine ⟨_, rfl, ?_⟩
    decide

/-! ## Instances of the claims at concrete inputs -/

set_option maxRecDepth 100000 in
/-- Witness of C5: John Doe, born 1990, has ASCII initials and a four-digit year. -/
theorem initial_is_first_byte_witness :
    GenerateUsernames caselessTable
        { FirstName := "John", LastName := "Doe", BirthYear := 1990 }
      = some (specGenerateUsernames caselessTable
          { FirstName := "John", LastName := "Doe", BirthYear := 1990 }) :=
  initial_is_first_byte.2.2 caselessTable
    { FirstName := "John", LastName := "Doe", BirthYear := 1990 }
    (by decide) (by decide) (by decide) (Or.inr ⟨by decide, by decide⟩)

/-- Witness of C6: a list with a repeated entry, and John Doe born 1990. -/
theorem removeDuplicates_first_occurrences_witness :
    removeDuplicates ["john", "doe", "john", "jdoe", "doe"]
        = firstOccurrences ["john", "doe", "john", "jdoe", "doe"]
      ∧ (removeDuplicates ["john", "doe", "john", "jdoe", "doe"]).Nodup
      ∧ (∀ x, x ∈ removeDuplicates ["john", "doe", "john", "jdoe", "doe"]
            ↔ x ∈ ["john", "doe", "john", "jdoe", "doe"])
      ∧ (removeDuplicates ["john", "doe", "john", "jdoe", "doe"]).Sublist
          ["john", "doe", "john", "jdoe", "doe"]
      ∧ (∀ us, GenerateUsernames caselessTable
            { FirstName := "John", LastName := "Doe", BirthYear := 1990 } = some us → us.Nodup)
      ∧ (∀ us, GenerateCommonUsernames caselessTable
            { FirstName := "John", LastName := "Doe", BirthYear := 1990 } = some us →
          us.Nodup) :=
  removeDuplicates_first_occurrences caselessTable ["john", "doe", "john", "jdoe", "doe"]
    { FirstName := "John", LastName := "Doe", BirthYear := 1990 }

/-- Witness of C10: John Doe without a birth year has all the advanced forms. -/
theorem advanced_forms_present_witness :
    ∃ basic adv,
      GenerateUsernames caselessTable { FirstName := "John", LastName := "Doe" } = some basic
        ∧ GenerateAdvancedUsernames caselessTable { FirstName := "John", LastName := "Doe" }
            = some adv
        ∧ ToLower caselessTable ("Doe" ++ "John") ∈ adv
        ∧ ToLower caselessTable ("Doe" ++ "." ++ "John") ∈ adv
        ∧ ToLower caselessTable ("Doe" ++ "_" ++ "John") ∈ adv
        ∧ (∀ u ∈ basic, toLeetspeak caselessTable u ∈ adv)
        ∧ (∀ a ∈ commonAffixes,
            ToLower caselessTable (a ++ "John") ∈ adv
              ∧ ToLower caselessTable (a ++ "_" ++ "John") ∈ adv
              ∧ ToLower caselessTable (a ++ "Doe") ∈ adv
              ∧ ToLower caselessTable (a ++ "_" ++ "Doe") ∈ adv) :=
  advanced_forms_present.2.1 caselessTable { FirstName := "John", LastName := "Doe" }
    (by decide) (by decide) (Or.inl (by decide))

/-! ## Claims on the tiers of the generator -/

set_option maxRecDepth 100000 in
/-- C11: where `GenerateUsernames` returns a list, `GenerateAdvancedUsernames` returns that
list followed by the deduplicated advanced set, which has no duplicate and holds the
leetspeak form of every basic string; where `GenerateUsernames` panics so does
`GenerateAdvancedUsernames`. The concatenation is not deduplicated: for the first name
`Judy`, whose leetspeak form is itself, `judy` occurs twice in the result. -/
theorem advanced_is_basic_then_deduplicated (tbl : Char → Char) (n : NameInfo) :
    (GenerateUsernames tbl n = none → GenerateAdvancedUsernames tbl n = none)
      ∧ (∀ basic, GenerateUsernames tbl n = some basic →
          ∃ extra, GenerateAdvancedUsernames tbl n = some (basic ++ extra)
            ∧ extra.Nodup
            ∧ extra = removeDuplicates
                (commonAffixes.foldl (addAffixForms tbl n)
                  (addReversedForms tbl n (leetForms tbl basic)))
            ∧ ∀ u ∈ basic, toLeetspeak tbl u ∈ extra)
      ∧ (∃ adv, GenerateAdvancedUsernames caselessTable { FirstName := "Judy" } = some adv
          ∧ adv.count "judy" = 2 ∧ ¬ adv.Nodup) := by
  refine ⟨?_, ?_, ?_⟩
  · intro h
    simp [GenerateAdvancedUsernames, h]
  · intro basic hb
    refine ⟨_, ?_, removeDuplicates_nodup _, rfl, ?_⟩
    · unfold GenerateAdvancedUsernames
      rw [hb]
      rfl
    · intro u hu
      rw [removeDuplicates_eq, mem_firstOccurrences]
      apply mem_foldl_addAffixForms
      have : toLeetspeak tbl u ∈ leetForms tbl basic := by
        rw [leetForms_eq]
        exact List.mem_map.2 ⟨u, hu, rfl⟩
      unfold addReversedForms
      split
      · exact List.mem_append_left _ this
      · exact this
  · refine ⟨_, rfl, ?_, ?_⟩ <;> decide

/-! ## Lemmas: lower-casing -/

theorem toNat_ofNat_small (n : Nat) (h : n < 0xD800) : (Char.ofNat n).toNat = n := by
  unfold Char.ofNat
  rw [dif_pos (Or.inl h)]
  simp only [Char.ofNatAux, Char.toNat, UInt32.toNat]
  have : n < UInt32.size := by
    have : (0xD800 : Nat) < UInt32.size := by decide
    omega
  simp [UInt32.ofNat', this]

theorem unicodeToLower_ascii (tbl : Char → Char) (c : Char) (h : c.toNat < 0x80) :
    (unicodeToLower tbl c).toNat < 0x80 := by
  unfold unicodeToLower
  have h1 : c.toNat ≤ 0x7F := by omega
  rw [if_pos h1]
  split
  · rename_i hu
    rw [toNat_ofNat_small _ (by omega)]
    omega
  · exact h

theorem ToLower_append (tbl : Char → Char) (a b : String) :
    ToLower tbl (a ++ b) = ToLower tbl a ++ ToLower tbl b := by
  apply String.ext
  simp [ToLower]

theorem ToLower_singleton (tbl : Char → Char) (c : Char) :
    ToLower tbl (String.singleton c) = String.singleton (unicodeToLower tbl c) := by
  apply String.ext
  simp [ToLower, String.singleton]

theorem ToLower_dot (tbl : Char → Char) : ToLower tbl "." = "." := by
  apply String.ext
  simp [ToLower, unicodeToLower]

theorem ToLower_underscore (tbl : Char → Char) : ToLower tbl "_" = "_" := by
  apply String.ext
  simp [ToLower, unicodeToLower]

theorem ToLower_ne_empty (tbl : Char → Char) (s : String) (h : s ≠ "") :
    ToLower tbl s ≠ "" := by
  intro hE
  apply string_data_ne_nil s h
  have := congrArg String.data hE
  simpa [ToLower] using this

/-- For an ASCII initial the two tiers compute the same initial form: the first byte of the
lower-cased first name, and the lower-cased first byte of the first name. -/
theorem initial_forms_agree (tbl : Char → Char) (F L : String)
    (ha : asciiInitial F = true) (b b2 : Nat) (hb : byteAt0 F = some b)
    (hb2 : byteAt0 (ToLower tbl F) = some b2) :
    byteToString b2 ++ ToLower tbl L = ToLower tbl (byteToString b ++ L) := by
  unfold byteAt0 at hb hb2
  unfold asciiInitial at ha
  cases hd : F.data with
  | nil => rw [hd] at hb; cases hb
  | cons c cs =>
    rw [hd] at hb ha
    have hc : c.toNat < 0x80 := by simpa using ha
    have hlow : (ToLower tbl F).data = unicodeToLower tbl c :: cs.map (unicodeToLower tbl) := by
      simp [ToLower, hd]
    rw [hlow] at hb2
    have hlc := unicodeToLower_ascii tbl c hc
    have e1 : b = c.toNat := by
      have := Option.some.inj hb
      simp only [utf8FirstByte, hc, if_true] at this
      exact this.symm
    have e2 : b2 = (unicodeToLower tbl c).toNat := by
      have := Option.some.inj hb2
      simp only [utf8FirstByte, hlc, if_true] at this
      exact this.symm
    rw [e1, e2, ToLower_append]
    simp only [byteToString, Char.ofNat_toNat, ToLower_singleton]

/-! ## Lemmas: what the two tiers collect -/

theorem addYearForms_some (n : NameInfo) (vs ws : List String)
    (h : addYearForms n vs = some ws) :
    (¬ n.BirthYear > 0 ∧ ws = vs)
      ∨ (n.BirthYear > 0 ∧ ∃ short, sliceFrom2 (formatInt n.BirthYear) = some short
          ∧ ws = vs ++ specYearForms vs (formatInt n.BirthYear) short) := by
  unfold addYearForms at h
  by_cases hpos : n.BirthYear > 0
  · right
    rw [if_pos hpos] at h
    simp only [] at h
    cases hs : sliceFrom2 (formatInt n.BirthYear) with
    | none => rw [hs] at h; cases h
    | some short =>
      rw [hs] at h
      refine ⟨hpos, short, rfl, ?_⟩
      have := Option.some.inj h
      rw [← this, yearVariations_eq]
  · left
    rw [if_neg hpos] at h
    exact ⟨hpos, (Option.some.inj h).symm⟩

theorem addCommonYearForms_some (n : NameInfo) (f : String) (vs ws : List String)
    (h : addCommonYearForms n f vs = some ws) :
    (¬ n.BirthYear > 0 ∧ ws = vs)
      ∨ (n.BirthYear > 0 ∧ ∃ short, sliceFrom2 (formatInt n.BirthYear) = some short
          ∧ ws = vs ++ [f ++ formatInt n.BirthYear, f ++ short]) := by
  unfold addCommonYearForms at h
  by_cases hpos : n.BirthYear > 0
  · right
    rw [if_pos hpos] at h
    simp only [] at h
    cases hs : sliceFrom2 (formatInt n.BirthYear) with
    | none => rw [hs] at h; cases h
    | some short =>
      rw [hs] at h
      exact ⟨hpos, short, rfl, (Option.some.inj h).symm⟩
  · left
    rw [if_neg hpos] at h
    exact ⟨hpos, (Option.some.inj h).symm⟩

theorem addLastNameForms_some (tbl : Char → Char) (n : NameInfo) (vs ws : List String)
    (h : addLastNameForms tbl n vs = some ws) :
    (n.LastName = "" ∧ ws = vs)
      ∨ (n.LastName ≠ "" ∧ ∃ b, byteAt0 n.FirstName = some b
          ∧ ws = vs ++
              [ToLower tbl n.LastName,
               ToLower tbl (n.FirstName ++ n.LastName),
               ToLower tbl (n.FirstName ++ "." ++ n.LastName),
               ToLower tbl (n.FirstName ++ "_" ++ n.LastName),
               ToLower tbl (byteToString b ++ n.LastName)]) := by
  unfold addLastNameForms at h
  by_cases hL : n.LastName = ""
  · left
    rw [if_neg (not_not.2 hL)] at h
    exact ⟨hL, (Option.some.inj h).symm⟩
  · right
    rw [if_pos hL] at h
    cases hb : byteAt0 n.FirstName with
    | none => rw [hb] at h; cases h
    | some b =>
      rw [hb] at h
      exact ⟨hL, b, rfl, (Option.some.inj h).symm⟩

theorem addCommonLastNameForms_some (tbl : Char → Char) (n : NameInfo) (f : String)
    (vs ws : List String) (h : addCommonLastNameForms tbl n f vs = some ws) :
    (n.LastName = "" ∧ ws = vs)
      ∨ (n.LastName ≠ "" ∧ ∃ b, byteAt0 f = some b
          ∧ ws = vs ++
              [ToLower tbl n.LastName, f ++ ToLower tbl n.LastName,
               f ++ "." ++ ToLower tbl n.LastName,
               byteToString b ++ ToLower tbl n.LastName]) := by
  unfold addCommonLastNameForms at h
  by_cases hL : n.LastName = ""
  · left
    rw [if_neg (not_not.2 hL)] at h
    exact ⟨hL, (Option.some.inj h).symm⟩
  · right
    rw [if_pos hL] at h
    simp only [] at h
    cases hb : byteAt0 f with
    | none => rw [hb] at h; cases h
    | some b =>
      rw [hb] at h
      exact ⟨hL, b, rfl, (Option.some.inj h).symm⟩

theorem addMiddleInitialForms_subset (tbl : Char → Char) (n : NameInfo)
    (vs ws : List String) (h : addMiddleInitialForms tbl n vs = some ws) :
    ∀ x ∈ vs, x ∈ ws := by
  unfold addMiddleInitialForms at h
  by_cases hM : n.MiddleName = ""
  · rw [if_neg (not_not.2 hM)] at h
    cases Option.some.inj h
    exact fun x hx => hx
  · rw [if_pos hM] at h
    cases hb : byteAt0 n.MiddleName with
    | none => rw [hb] at h; cases h
    | some b =>
      rw [hb] at h
      cases Option.some.inj h
      exact fun x hx => List.mem_append_left _ hx

theorem GenerateUsernames_parts (tbl : Char → Char) (n : NameInfo) (g : List String)
    (hF : n.FirstName ≠ "") (h : GenerateUsernames tbl n = some g) :
    ∃ v1 v2 v3, addLastNameForms tbl n [ToLower tbl n.FirstName] = some v1
      ∧ addMiddleInitialForms tbl n v1 = some v2
      ∧ addYearForms n v2 = some v3
      ∧ g = removeDuplicates v3 := by
  unfold GenerateUsernames at h
  rw [if_neg hF] at h
  simp only [Option.bind_eq_some] at h
  obtain ⟨v1, h1, v2, h2, v3, h3, h4⟩ := h
  exact ⟨v1, v2, v3, h1, h2, h3, (Option.some.inj h4).symm⟩

theorem GenerateCommonUsernames_parts (tbl : Char → Char) (n : NameInfo) (c : List String)
    (hF : n.FirstName ≠ "") (h : GenerateCommonUsernames tbl n = some c) :
    ∃ v1 v2, addCommonLastNameForms tbl n (ToLower tbl n.FirstName)
          [ToLower tbl n.FirstName] = some v1
      ∧ addCommonYearForms n (ToLower tbl n.FirstName) v1 = some v2
      ∧ c = removeDuplicates v2 := by
  unfold GenerateCommonUsernames at h
  rw [if_neg hF] at h
  simp only [Option.bind_eq_some] at h
  obtain ⟨v1, h1, v2, h2, h3⟩ := h
  exact ⟨v1, v2, h1, h2, (Option.some.inj h3).symm⟩

theorem mem_specYearForms (vs : List String) (year short v : String) (hv : v ∈ vs) :
    v ++ year ∈ specYearForms vs year short ∧ v ++ short ∈ specYearForms vs year short := by
  unfold specYearForms
  constructor <;>
    exact List.mem_flatMap.2 ⟨v, hv, by simp⟩

theorem mem_removeDuplicates (l : List String) (x : String) :
    x ∈ removeDuplicates l ↔ x ∈ l := by
  rw [removeDuplicates_eq]
  exact mem_firstOccurrences l x

/-- With an ASCII initial, everything the common tier returns is returned by the full tier. -/
theorem common_subset_full (tbl : Char → Char) (n : NameInfo)
    (ha : asciiInitial n.FirstName = true) (c g : List String)
    (hc : GenerateCommonUsernames tbl n = some c) (hg : GenerateUsernames tbl n = some g) :
    ∀ x ∈ c, x ∈ g := by
  by_cases hF : n.FirstName = ""
  · have : GenerateCommonUsernames tbl n = some [] := by simp [GenerateCommonUsernames, hF]
    rw [this] at hc
    cases Option.some.inj hc
    intro x hx
    cases hx
  obtain ⟨w1, w2, hw1, hw2, rfl⟩ := GenerateCommonUsernames_parts tbl n c hF hc
  obtain ⟨v1, v2, v3, hv1, hv2, hv3, rfl⟩ := GenerateUsernames_parts tbl n g hF hg
  have h12 := addMiddleInitialForms_subset tbl n v1 v2 hv2
  have hf1 : ToLower tbl n.FirstName ∈ v1 := by
    rcases addLastNameForms_some tbl n _ v1 hv1 with ⟨-, rfl⟩ | ⟨-, b, -, rfl⟩ <;> simp
  -- the pre-year variations of the common tier are pre-year variations of the full tier
  have hw1v1 : ∀ x ∈ w1, x ∈ v1 := by
    rcases addCommonLastNameForms_some tbl n _ _ w1 hw1 with ⟨hL, rfl⟩ | ⟨hL, b2, hb2, rfl⟩
    · intro x hx
      have : x = ToLower tbl n.FirstName := by simpa using hx
      rw [this]; exact hf1
    · rcases addLastNameForms_some tbl n _ v1 hv1 with ⟨hL0, -⟩ | ⟨-, b, hb, rfl⟩
      · exact absurd hL0 hL
      · have hi := initial_forms_agree tbl n.FirstName n.LastName ha b b2 hb hb2
        intro x hx
        simp only [List.mem_append, List.mem_cons, List.mem_singleton, List.not_mem_nil,
          or_false] at hx ⊢
        rcases hx with hx | hx | hx | hx | hx
        · exact Or.inl hx
        · exact Or.inr (Or.inl hx)
        · right; right; left
          rw [hx, ToLower_append]
        · right; right; right; left
          rw [hx, ToLower_append, ToLower_append, ToLower_dot]
        · right; right; right; right; right
          rw [hx, hi]
  intro x hx
  rw [mem_removeDuplicates] at hx ⊢
  rcases addCommonYearForms_some n _ w1 w2 hw2 with ⟨hny, rfl⟩ | ⟨hy, short, hs, rfl⟩
  · have hx2 := h12 x (hw1v1 x hx)
    rcases addYearForms_some n v2 v3 hv3 with ⟨-, rfl⟩ | ⟨-, s2, -, rfl⟩
    · exact hx2
    · exact List.mem_append_left _ hx2
  · rcases addYearForms_some n v2 v3 hv3 with ⟨hny, -⟩ | ⟨-, s2, hs2, rfl⟩
    · exact absurd hy hny
    · rw [hs] at hs2
      cases Option.some.inj hs2
      rcases List.mem_append.1 hx with hx | hx
      · exact List.mem_append_left _ (h12 x (hw1v1 x hx))
      · have hf2 := h12 _ hf1
        have hm := mem_specYearForms v2 (formatInt n.BirthYear) short _ hf2
        apply List.mem_append_right
        simp only [List.mem_cons, List.mem_singleton, List.not_mem_nil, or_false] at hx
        rcases hx with hx | hx
        · rw [hx]; exact hm.1
        · rw [hx]; exact hm.2

theorem common_length_le_of_subset (c g : List String) (hn : c.Nodup)
    (hs : ∀ x ∈ c, x ∈ g) : c.length ≤ g.length :=
  (List.Nodup.subperm hn hs).length_le

/-! ## Claims on the filters -/

theorem foldl_append_if {α : Type} (p : α → Bool) (xs acc : List α) :
    xs.foldl (fun kept x => if p x = true then kept ++ [x] else kept) acc
      = acc ++ xs.filter p := by
  induction xs generalizing acc with
  | nil => simp
  | cons x xs ih =>
    rw [List.foldl_cons, ih, List.filter_cons]
    cases p x <;> simp

theorem countResult_flag (site : String) (names : List String) (k : Int) :
    (names.foldl
      (fun (st : Int × Bool) platform =>
        if st.2 then st
        else if site = platform then (st.1 + 1, true)
        else st)
      (k, true)) = (k, true) := by
  induction names with
  | nil => rfl
  | cons a as ih => simpa [List.foldl_cons] using ih

theorem countResult_scan (site : String) (names : List String) (k : Int) :
    (names.foldl
      (fun (st : Int × Bool) platform =>
        if st.2 then st
        else if site = platform then (st.1 + 1, true)
        else st)
      (k, false)).1 = if site ∈ names then k + 1 else k := by
  induction names with
  | nil => simp
  | cons a as ih =>
    rw [List.foldl_cons]
    by_cases h : site = a
    · simp only [h, if_true, Bool.false_eq_true, if_false, List.mem_cons, true_or]
      rw [countResult_flag]
    · simp only [h, if_false, Bool.false_eq_true, List.mem_cons, false_or]
      exact ih

theorem countResult_eq (k : Int) (r : Result) :
    countResult k r = if r.Site ∈ highValuePlatformNames then k + 1 else k :=
  countResult_scan r.Site highValuePlatformNames k

theorem foldl_countResult (rs : List Result) (k : Int) :
    rs.foldl countResult k
      = k + ((rs.filter (fun r => decide (r.Site ∈ highValuePlatformNames))).length : Int) := by
  induction rs generalizing k with
  | nil => simp
  | cons r rs ih =>
    rw [List.foldl_cons, ih, countResult_eq, List.filter_cons]
    by_cases h : r.Site ∈ highValuePlatformNames
    · simp only [h, if_true, decide_True, List.length_cons]
      push_cast
      ring
    · simp only [h, if_false, decide_False]
      simp

/-- The code counts the results on a high-value platform, each result once. -/
theorem platformCount_eq (m : ProfileMatch) :
    platformCount m
      = ((m.Results.filter (fun r => decide (r.Site ∈ highValuePlatformNames))).length : Int) := by
  unfold platformCount
  rw [foldl_countResult, zero_add]

theorem FindCommonProfiles_eq_filter (ms : List ProfileMatch) :
    FindCommonProfiles ms = ms.filter (fun m => decide (platformCount m ≥ 2)) := by
  unfold FindCommonProfiles
  have h := foldl_append_if (fun m => decide (platformCount m ≥ 2)) ms []
  simp only [decide_eq_true_eq, List.nil_append] at h
  exact h

theorem highValue_count_eq_distinct (m : ProfileMatch)
    (hd : ((m.Results.filter
      (fun r => decide (r.Site ∈ highValuePlatformNames))).map (fun r => r.Site)).Nodup) :
    (m.Results.filter (fun r => decide (r.Site ∈ highValuePlatformNames))).length
      = distinctHighValueCount m := by
  have hB : (highValuePlatformNames.filter
      (fun platform => decide (platform ∈ m.Results.map (fun r => r.Site)))).Nodup :=
    List.Nodup.filter _ (by decide)
  have hAB : ∀ x, x ∈ (m.Results.filter
        (fun r => decide (r.Site ∈ highValuePlatformNames))).map (fun r => r.Site)
      ↔ x ∈ highValuePlatformNames.filter
        (fun platform => decide (platform ∈ m.Results.map (fun r => r.Site))) := by
    intro x
    simp only [List.mem_map, List.mem_filter, decide_eq_true_eq]
    constructor
    · rintro ⟨r, ⟨hr, hv⟩, rfl⟩
      exact ⟨hv, r, hr, rfl⟩
    · rintro ⟨hv, r, hr, rfl⟩
      exact ⟨r, ⟨hr, hv⟩, rfl⟩
  have h1 := (List.Nodup.subperm hd (fun x hx => (hAB x).1 hx)).length_le
  have h2 := (List.Nodup.subperm hB (fun x hx => (hAB x).2 hx)).length_le
  rw [List.length_map] at h1 h2
  unfold distinctHighValueCount
  omega

/-- C13 fails on the code for a match with several results on one platform: the loop adds one
per result, not per platform, so a match with two GitHub results and no other high-value
platform is kept although it names one platform. `FindCommonProfiles` keeps exactly the
matches with at least two results on a high-value platform; when no high-value platform
occurs twice among the results of a match these are the matches with at least two distinct
high-value platforms, a match with only Reddit and Flickr is dropped and one with GitHub,
Twitter and Reddit is kept. -/
theorem common_profiles_count_results :
    ((FindCommonProfiles [twiceGitHub]).map (fun m => m.Username) = ["johndoe"]
        ∧ distinctHighValueCount twiceGitHub = 1)
      ∧ (∀ ms : List ProfileMatch,
          FindCommonProfiles ms
            = ms.filter (fun m => decide (2 ≤
                (m.Results.filter
                  (fun r => decide (r.Site ∈ highValuePlatformNames))).length)))
      ∧ (∀ ms : List ProfileMatch,
          (∀ m ∈ ms, ((m.Results.filter
              (fun r => decide (r.Site ∈ highValuePlatformNames))).map
                (fun r => r.Site)).Nodup) →
          FindCommonProfiles ms
            = ms.filter (fun m => decide (2 ≤ distinctHighValueCount m)))
      ∧ (FindCommonProfiles sampleMatches).map (fun m => m.Username) = ["johndoe"]
      ∧ FindCommonProfiles
          [{ Username := "jdoe", Results := [sampleHit "Reddit", sampleHit "Flickr"],
             MatchCount := 2, Confidence := 0.3 }] = [] := by
  have hfilter : ∀ ms : List ProfileMatch,
      FindCommonProfiles ms
        = ms.filter (fun m => decide (2 ≤
            (m.Results.filter
              (fun r => decide (r.Site ∈ highValuePlatformNames))).length)) := by
    intro ms
    rw [FindCommonProfiles_eq_filter]
    apply List.filter_congr
    intro m _
    rw [platformCount_eq]
    simp
  refine ⟨⟨by decide, by decide⟩, hfilter, ?_, by decide, by decide⟩
  intro ms hd
  rw [hfilter]
  apply List.filter_congr
  intro m hm
  rw [highValue_count_eq_distinct m (hd m hm)]

theorem mapGet_mapSet (pm : List (String × Bool)) (k k2 : String) (v : Bool) :
    mapGet (mapSet pm k v) k2 = if k2 = k then v else mapGet pm k2 := by
  unfold mapGet mapSet
  by_cases h : k2 = k
  · simp [List.lookup, h]
  · have hb : (k2 == k) = false := by simpa using h
    simp only [List.lookup, hb, h, if_false]
    congr 1
    induction pm with
    | nil => rfl
    | cons e es ih =>
      rw [List.filter_cons]
      by_cases he : e.1 = k
      · have hb2 : (k2 == e.1) = false := by
          rw [he]; exact hb
        simp only [he, ne_eq, not_true_eq_false, decide_False, Bool.false_eq_true, if_false]
        rw [ih]
        obtain ⟨e1, e2⟩ := e
        simp only at he hb2
        simp [List.lookup, hb2]
      · simp only [ne_eq, he, not_false_eq_true, decide_True, if_true]
        obtain ⟨e1, e2⟩ := e
        simp only [List.lookup]
        rw [ih]

theorem mapGet_platformMatches_foldl (tbl : Char → Char) (rs : List Result)
    (pm : List (String × Bool)) (k : String) :
    mapGet (rs.foldl (fun pm result => mapSet pm (ToLower tbl result.Site) true) pm) k = true
      ↔ mapGet pm k = true ∨ ∃ r ∈ rs, ToLower tbl r.Site = k := by
  induction rs generalizing pm with
  | nil => simp
  | cons r rs ih =>
    rw [List.foldl_cons, ih, mapGet_mapSet]
    by_cases h : k = ToLower tbl r.Site
    · simp [h]
    · have h2 : ¬ ToLower tbl r.Site = k := fun e => h e.symm
      simp [h, h2]

theorem mapGet_platformMatches (tbl : Char → Char) (m : ProfileMatch) (k : String) :
    mapGet (platformMatches tbl m) k = true ↔ ∃ r ∈ m.Results, ToLower tbl r.Site = k := by
  unfold platformMatches
  rw [mapGet_platformMatches_foldl]
  simp [mapGet]

theorem allFound_flag (pm : List (String × Bool)) (ps : List String) (b : Bool) :
    (ps.foldl
      (fun (st : Bool × Bool) platform =>
        if st.2 then st
        else if !mapGet pm platform then (false, true)
        else st)
      (b, true)) = (b, true) := by
  induction ps with
  | nil => rfl
  | cons a as ih => simpa [List.foldl_cons] using ih

theorem allFound_scan (pm : List (String × Bool)) (ps : List String) :
    (ps.foldl
      (fun (st : Bool × Bool) platform =>
        if st.2 then st
        else if !mapGet pm platform then (false, true)
        else st)
      (true, false)).1 = ps.all (fun p => mapGet pm p) := by
  induction ps with
  | nil => rfl
  | cons a as ih =>
    rw [List.foldl_cons, List.all_cons]
    cases h : mapGet pm a
    · simp only [Bool.false_eq_true, if_false, Bool.not_false, if_true, Bool.false_and]
      rw [allFound_flag]
    · simp only [Bool.false_eq_true, if_false, Bool.not_true, Bool.true_and]
      exact ih

theorem allFound_eq_hitsAll (tbl : Char → Char) (m : ProfileMatch) (platforms : List String) :
    allFound (platformMatches tbl m) (platforms.map (ToLower tbl))
      = hitsAllPlatforms tbl platforms m := by
  unfold allFound hitsAllPlatforms
  rw [allFound_scan, List.all_map]
  have hfun : ((fun p => mapGet (platformMatches tbl m) p) ∘ ToLower tbl)
      = (fun p => m.Results.any (fun r => decide (ToLower tbl r.Site = ToLower tbl p))) := by
    funext p
    rw [Bool.eq_iff_iff, Function.comp_apply, mapGet_platformMatches]
    simp
  rw [hfun]

theorem hitsAllPlatforms_iff (tbl : Char → Char) (platforms : List String) (m : ProfileMatch) :
    hitsAllPlatforms tbl platforms m = true
      ↔ ∀ p ∈ platforms, ∃ r ∈ m.Results, ToLower tbl r.Site = ToLower tbl p := by
  simp [hitsAllPlatforms]

/-- C14: with no platform `FindProfilesByPlatforms` returns the matches unchanged; otherwise it
keeps, in order, exactly the matches in which every requested platform is the site of some
result up to letter case; so a platform that no match hit gives the empty sequence. -/
theorem profiles_by_platforms_is_superset_filter (tbl : Char → Char)
    (ms : List ProfileMatch) (platforms : List String) :
    FindProfilesByPlatforms tbl ms [] = ms
      ∧ (platforms ≠ [] →
          FindProfilesByPlatforms tbl ms platforms
            = ms.filter (hitsAllPlatforms tbl platforms))
      ∧ (∀ m, hitsAllPlatforms tbl platforms m = true
          ↔ ∀ p ∈ platforms, ∃ r ∈ m.Results, ToLower tbl r.Site = ToLower tbl p)
      ∧ (∀ p ∈ platforms,
          (∀ m ∈ ms, ∀ r ∈ m.Results, ToLower tbl r.Site ≠ ToLower tbl p) →
          FindProfilesByPlatforms tbl ms platforms = []) := by
  have hne : platforms ≠ [] →
      FindProfilesByPlatforms tbl ms platforms
        = ms.filter (hitsAllPlatforms tbl platforms) := by
    intro h
    have hlen : ¬ platforms.length = 0 := fun h0 => h (List.length_eq_zero.1 h0)
    unfold FindProfilesByPlatforms
    rw [if_neg hlen]
    simp only [allFound_eq_hitsAll]
    have := foldl_append_if (hitsAllPlatforms tbl platforms) ms []
    simpa using this
  refine ⟨rfl, hne, hitsAllPlatforms_iff tbl platforms, ?_⟩
  intro p hp hnone
  rw [hne (List.ne_nil_of_mem hp), List.filter_eq_nil_iff]
  intro m hm hhit
  obtain ⟨r, hr, he⟩ := (hitsAllPlatforms_iff tbl platforms m).1 hhit p hp
  exact hnone m hm r hr he

/-- Witness of C13: in the matches of `TestFindCommonProfiles` no platform occurs twice. -/
theorem common_profiles_count_results_witness :
    FindCommonProfiles sampleMatches
      = sampleMatches.filter (fun m => decide (2 ≤ distinctHighValueCount m)) :=
  common_profiles_count_results.2.2.1 sampleMatches (by decide)

/-- The cases of `TestFindProfilesByPlatforms`, and a request in another letter case. -/
theorem FindProfilesByPlatforms_examples :
    (FindProfilesByPlatforms caselessTable (sampleMatches.take 2) []).map
        (fun m => m.Username) = ["johndoe", "john.doe"]
      ∧ (FindProfilesByPlatforms caselessTable (sampleMatches.take 2) ["GitHub"]).map
        (fun m => m.Username) = ["johndoe", "john.doe"]
      ∧ (FindProfilesByPlatforms caselessTable (sampleMatches.take 2)
          ["GitHub", "Twitter"]).map (fun m => m.Username) = ["johndoe"]
      ∧ (FindProfilesByPlatforms caselessTable (sampleMatches.take 2)
          ["github", "TWITTER"]).map (fun m => m.Username) = ["johndoe"]
      ∧ FindProfilesByPlatforms caselessTable (sampleMatches.take 2) ["LinkedIn"] = [] := by
  decide

/-- Witness of C14: the request for LinkedIn, which no match of the test hit. -/
theorem profiles_by_platforms_is_superset_filter_witness :
    FindProfilesByPlatforms caselessTable sampleMatches ["LinkedIn"] = [] :=
  (profiles_by_platforms_is_superset_filter caselessTable sampleMatches
    ["LinkedIn"]).2.2.2 "LinkedIn" (by decide) (by decide)

/-! ## Claims on the probe engine -/

theorem hasInfix_iff (sub s : List Char) : hasInfix sub s = true ↔ sub <:+: s := by
  induction s with
  | nil =>
    simp only [hasInfix, List.isEmpty_iff]
    constructor
    · rintro rfl; exact List.infix_refl _
    · intro h; exact List.eq_nil_of_infix_nil h
  | cons c cs ih =>
    simp only [hasInfix, Bool.or_eq_true, ih, List.isPrefixOf_iff_prefix, List.infix_cons_iff]

theorem CheckUsername_result (c : Checker) (username site url : String) (x : Exchange) :
    (c.CheckUsername username site url x).2 = (probeExists site x, x.error) := by
  cases x with
  | requestError err => rfl
  | transportError err => rfl
  | response statusCode finalURL =>
    simp only [Checker.CheckUsername, probeExists, Exchange.error]
    by_cases h1 : statusCode ≥ 200 <;> by_cases h2 : statusCode < 300 <;>
      by_cases h3 : site = "GitHub" <;> by_cases h4 : Contains finalURL "404" = true <;>
      simp [h1, h2, h3, h4]

theorem CheckUsername_stats (c : Checker) (username site url : String) (x : Exchange) :
    (c.CheckUsername username site url x).1
      = (match x.error with
         | some _ => c.incrementErrors
         | none => if probeExists site x = true then c.incrementFound else c.incrementNotFound) := by
  cases x with
  | requestError err => rfl
  | transportError err => rfl
  | response statusCode finalURL =>
    simp only [Checker.CheckUsername, probeExists, Exchange.error]
    by_cases h1 : statusCode ≥ 200 <;> by_cases h2 : statusCode < 300 <;>
      by_cases h3 : site = "GitHub" <;> by_cases h4 : Contains finalURL "404" = true <;>
      simp [h1, h2, h3, h4]

theorem retryLoop_step_ok (username site url : String) (outcomes : Nat → Exchange)
    (remaining retry : Nat) (c : Checker) (lastErr : Option GoError) (sleeps : List Int)
    (h : (outcomes retry).error = none) :
    retryLoop username site url outcomes (remaining + 1) retry c lastErr sleeps
      = { checker := (c.CheckUsername username site url (outcomes retry)).1,
          found := probeExists site (outcomes retry), err := none,
          attempts := retry + 1, sleeps := sleeps } := by
  have hr := CheckUsername_result c username site url (outcomes retry)
  rcases hc : c.CheckUsername username site url (outcomes retry) with ⟨c1, f, e⟩
  rw [hc] at hr
  simp only [Prod.mk.injEq] at hr
  obtain ⟨rfl, rfl⟩ := hr
  simp only [retryLoop, hc, h]

theorem retryLoop_step_err (username site url : String) (outcomes : Nat → Exchange)
    (remaining retry : Nat) (c : Checker) (lastErr : Option GoError) (sleeps : List Int)
    (e : GoError) (h : (outcomes retry).error = some e) :
    retryLoop username site url outcomes (remaining + 1) retry c lastErr sleeps
      = retryLoop username site url outcomes remaining (retry + 1)
          (c.CheckUsername username site url (outcomes retry)).1 (some e)
          (sleeps ++ [((retry : Int) + 1) * 500]) := by
  have hr := CheckUsername_result c username site url (outcomes retry)
  rcases hc : c.CheckUsername username site url (outcomes retry) with ⟨c1, f, e1⟩
  rw [hc] at hr
  simp only [Prod.mk.injEq] at hr
  obtain ⟨rfl, rfl⟩ := hr
  simp only [retryLoop, hc, h]

theorem retryLoop_first_success (username site url : String) (outcomes : Nat → Exchange)
    (remaining : Nat) :
    ∀ (retry : Nat) (c : Checker) (lastErr : Option GoError) (sleeps : List Int) (j : Nat),
      j < remaining → (∀ i, i < j → (outcomes (retry + i)).error ≠ none) →
      (outcomes (retry + j)).error = none →
      (retryLoop username site url outcomes remaining retry c lastErr sleeps).attempts
          = retry + j + 1
        ∧ (retryLoop username site url outcomes remaining retry c lastErr sleeps).err = none
        ∧ (retryLoop username site url outcomes remaining retry c lastErr sleeps).found
          = probeExists site (outcomes (retry + j)) := by
  induction remaining with
  | zero => intro retry c lastErr sleeps j hj; omega
  | succ remaining ih =>
    intro retry c lastErr sleeps j hj hfail hok
    cases j with
    | zero =>
      rw [retryLoop_step_ok username site url outcomes remaining retry c lastErr sleeps
        (by simpa using hok)]
      simp
    | succ j =>
      have h0 : (outcomes retry).error ≠ none := by simpa using hfail 0 (by omega)
      obtain ⟨e, he⟩ := Option.ne_none_iff_exists'.1 h0
      rw [retryLoop_step_err username site url outcomes remaining retry c lastErr sleeps e he]
      have hidx : retry + (j + 1) = retry + 1 + j := by omega
      have := ih (retry + 1) (c.CheckUsername username site url (outcomes retry)).1 (some e)
        (sleeps ++ [((retry : Int) + 1) * 500]) j (by omega)
        (fun i hi => by
          have := hfail (i + 1) (by omega)
          rwa [show retry + (i + 1) = retry + 1 + i by omega] at this)
        (by rwa [hidx] at hok)
      rw [hidx]
      have h2 : retry + 1 + j + 1 = retry + 1 + j + 1 := rfl
      exact this

theorem retryLoop_all_fail (username site url : String) (outcomes : Nat → Exchange)
    (remaining : Nat) :
    ∀ (retry : Nat) (c : Checker) (lastErr : Option GoError) (sleeps : List Int),
      (∀ i, i < remaining → (outcomes (retry + i)).error ≠ none) →
      (retryLoop username site url outcomes remaining retry c lastErr sleeps).attempts
          = retry + remaining
        ∧ (retryLoop username site url outcomes remaining retry c lastErr sleeps).found = false
        ∧ (retryLoop username site url outcomes remaining retry c lastErr sleeps).err
          = some (retriesExceeded
              (if remaining = 0 then lastErr
               else (outcomes (retry + remaining - 1)).error)) := by
  induction remaining with
  | zero => intro retry c lastErr sleeps _; simp [retryLoop]
  | succ remaining ih =>
    intro retry c lastErr sleeps hfail
    have h0 : (outcomes retry).error ≠ none := by simpa using hfail 0 (by omega)
    obtain ⟨e, he⟩ := Option.ne_none_iff_exists'.1 h0
    rw [retryLoop_step_err username site url outcomes remaining retry c lastErr sleeps e he]
    obtain ⟨h1, h2, h3⟩ := ih (retry + 1)
      (c.CheckUsername username site url (outcomes retry)).1 (some e)
      (sleeps ++ [((retry : Int) + 1) * 500])
      (fun i hi => by
        have := hfail (i + 1) (by omega)
        rwa [show retry + (i + 1) = retry + 1 + i by omega] at this)
    refine ⟨by rw [h1]; omega, h2, ?_⟩
    rw [h3]
    congr 2
    by_cases hr : remaining = 0
    · subst hr
      simp [he]
    · rw [if_neg hr, if_neg (by omega)]
      congr 2
      omega

/-- C15: for `maxRetries ≥ 1`, `CheckUsernameWithRetry` probes in order and stops at the first
attempt without an error: if that is attempt `k ≤ maxRetries` it has made exactly `k`
attempts and returns that attempt's `exists` value, found or not, with a nil error; if all
`maxRetries` attempts fail it has made exactly `maxRetries` attempts and returns `false`
with the retries-exceeded error that wraps the error of the last attempt. -/
theorem retry_stops_at_first_success (c : Checker) (username site url : String)
    (maxRetries : Int) (outcomes : Nat → Exchange) (h : 1 ≤ maxRetries) :
    (∀ k : Nat, 1 ≤ k → (k : Int) ≤ maxRetries →
        (∀ i, i + 1 < k → (outcomes i).error ≠ none) →
        (outcomes (k - 1)).error = none →
        (c.CheckUsernameWithRetry username site url maxRetries outcomes).attempts = k
          ∧ (c.CheckUsernameWithRetry username site url maxRetries outcomes).found
              = (c.CheckUsername username site url (outcomes (k - 1))).2.1
          ∧ (c.CheckUsernameWithRetry username site url maxRetries outcomes).err = none)
      ∧ ((∀ i : Nat, (i : Int) < maxRetries → (outcomes i).error ≠ none) →
          (c.CheckUsernameWithRetry username site url maxRetries outcomes).attempts
              = maxRetries.toNat
            ∧ (c.CheckUsernameWithRetry username site url maxRetries outcomes).found = false
            ∧ ∃ e, (outcomes (maxRetries.toNat - 1)).error = some e
                ∧ (c.CheckUsernameWithRetry username site url maxRetries outcomes).err
                    = some (GoError.wrap ("max retries exceeded: " ++ e.Error) e)
                ∧ (GoError.wrap ("max retries exceeded: " ++ e.Error) e).Unwrap = some e) := by
  constructor
  · intro k hk1 hkm hfail hok
    obtain ⟨j, rfl⟩ : ∃ j, k = j + 1 := ⟨k - 1, by omega⟩
    have hj : j < maxRetries.toNat := by omega
    have := retryLoop_first_success username site url outcomes maxRetries.toNat 0 c none [] j hj
      (fun i hi => by simpa using hfail i (by omega))
      (by simpa using hok)
    simp only [Nat.zero_add] at this
    simp only [Nat.add_sub_cancel]
    refine ⟨this.1, ?_, this.2.1⟩
    rw [CheckUsername_result]
    exact this.2.2
  · intro hfail
    have := retryLoop_all_fail username site url outcomes maxRetries.toNat 0 c none []
      (fun i hi => by
        have := hfail i (by omega)
        simpa using this)
    simp only [Nat.zero_add] at this
    obtain ⟨h1, h2, h3⟩ := this
    have hne : maxRetries.toNat ≠ 0 := by omega
    rw [if_neg hne] at h3
    have hlast : (outcomes (maxRetries.toNat - 1)).error ≠ none :=
      hfail (maxRetries.toNat - 1) (by omega)
    obtain ⟨e, he⟩ := Option.ne_none_iff_exists'.1 hlast
    refine ⟨h1, h2, e, he, ?_, rfl⟩
    show (retryLoop username site url outcomes maxRetries.toNat 0 c none []).err = _
    rw [h3, he]
    rfl

/-- Witness of C15: three retries, two transport failures and then a response. -/
theorem retry_stops_at_first_success_witness :
    (∀ k : Nat, 1 ≤ k → (k : Int) ≤ 3 →
        (∀ i, i + 1 < k → (failTwiceThenFound i).error ≠ none) →
        (failTwiceThenFound (k - 1)).error = none →
        ((NewChecker 10 false 0).CheckUsernameWithRetry "johndoe" "Reddit"
            "https://example.com/johndoe" 3 failTwiceThenFound).attempts = k
          ∧ ((NewChecker 10 false 0).CheckUsernameWithRetry "johndoe" "Reddit"
              "https://example.com/johndoe" 3 failTwiceThenFound).found
              = ((NewChecker 10 false 0).CheckUsername "johndoe" "Reddit"
                  "https://example.com/johndoe" (failTwiceThenFound (k - 1))).2.1
          ∧ ((NewChecker 10 false 0).CheckUsernameWithRetry "johndoe" "Reddit"
              "https://example.com/johndoe" 3 failTwiceThenFound).err = none)
      ∧ ((∀ i : Nat, (i : Int) < 3 → (failTwiceThenFound i).error ≠ none) →
          ((NewChecker 10 false 0).CheckUsernameWithRetry "johndoe" "Reddit"
              "https://example.com/johndoe" 3 failTwiceThenFound).attempts = (3 : Int).toNat
            ∧ ((NewChecker 10 false 0).CheckUsernameWithRetry "johndoe" "Reddit"
                "https://example.com/johndoe" 3 failTwiceThenFound).found = false
            ∧ ∃ e, (failTwiceThenFound ((3 : Int).toNat - 1)).error = some e
                ∧ ((NewChecker 10 false 0).CheckUsernameWithRetry "johndoe" "Reddit"
                    "https://example.com/johndoe" 3 failTwiceThenFound).err
                    = some (GoError.wrap ("max retries exceeded: " ++ e.Error) e)
                ∧ (GoError.wrap ("max retries exceeded: " ++ e.Error) e).Unwrap = some e) :=
  retry_stops_at_first_success (NewChecker 10 false 0) "johndoe" "Reddit"
    "https://example.com/johndoe" 3 failTwiceThenFound (by decide)

/-- The runs of the specification's retry example and of a probe that always fails. -/
theorem CheckUsernameWithRetry_examples :
    ((NewChecker 10 false 0).CheckUsernameWithRetry "johndoe" "Reddit"
        "https://example.com/johndoe" 3 failTwiceThenFound)
      = { checker := { Timeout := 10, Verbose := false, UserAgent := "Accio/1.0",
                       Stats := { Total := 3, Found := 1, NotFound := 0, Errors := 2,
                                  StartTime := 0, EndTime := 0 } },
          found := true, err := none, attempts := 3, sleeps := [500, 1000] }
      ∧ ((NewChecker 10 false 0).CheckUsernameWithRetry "johndoe" "Reddit"
          "https://example.com/johndoe" 2 alwaysFailing)
        = { checker := { Timeout := 10, Verbose := false, UserAgent := "Accio/1.0",
                         Stats := { Total := 2, Found := 0, NotFound := 0, Errors := 2,
                                    StartTime := 0, EndTime := 0 } },
            found := false,
            err := some (GoError.wrap "max retries exceeded: timeout 1"
              (GoError.new "timeout 1")),
            attempts := 2, sleeps := [500, 1000] } := by
  decide

/-- The counters add up in every reachable checker. -/
theorem reachable_total (c : Checker) (h : Reachable c) :
    c.Stats.Total = c.Stats.Found + c.Stats.NotFound + c.Stats.Errors := by
  induction h with
  | init timeout verbose now => simp [NewChecker]
  | probe c username site url x _ ih =>
    rw [CheckUsername_stats]
    cases x.error with
    | some e =>
      simp only [Checker.incrementErrors]
      omega
    | none =>
      simp only []
      split
      · simp only [Checker.incrementFound]
        omega
      · simp only [Checker.incrementNotFound]
        omega
  | stats c now _ ih => simpa [Checker.GetStats] using ih

/-- C16: a call of `CheckUsername` adds one to `Total` and one to exactly one of `Found`
(it returns true), `NotFound` (it returns false without an error) and `Errors` (it returns an
error), and leaves the other two counters as they were; hence
`Total = Found + NotFound + Errors` in every checker reachable from `NewChecker`. -/
theorem probe_updates_one_bucket (c : Checker) (username site url : String) (x : Exchange) :
    (c.CheckUsername username site url x).1.Stats.Total = c.Stats.Total + 1
      ∧ ((c.CheckUsername username site url x).2.2 = none
          ∧ (c.CheckUsername username site url x).2.1 = true →
          (c.CheckUsername username site url x).1.Stats.Found = c.Stats.Found + 1
            ∧ (c.CheckUsername username site url x).1.Stats.NotFound = c.Stats.NotFound
            ∧ (c.CheckUsername username site url x).1.Stats.Errors = c.Stats.Errors)
      ∧ ((c.CheckUsername username site url x).2.2 = none
          ∧ (c.CheckUsername username site url x).2.1 = false →
          (c.CheckUsername username site url x).1.Stats.Found = c.Stats.Found
            ∧ (c.CheckUsername username site url x).1.Stats.NotFound = c.Stats.NotFound + 1
            ∧ (c.CheckUsername username site url x).1.Stats.Errors = c.Stats.Errors)
      ∧ ((c.CheckUsername username site url x).2.2 ≠ none →
          (c.CheckUsername username site url x).1.Stats.Found = c.Stats.Found
            ∧ (c.CheckUsername username site url x).1.Stats.NotFound = c.Stats.NotFound
            ∧ (c.CheckUsername username site url x).1.Stats.Errors = c.Stats.Errors + 1)
      ∧ (∀ c0 : Checker, Reachable c0 →
          c0.Stats.Total = c0.Stats.Found + c0.Stats.NotFound + c0.Stats.Errors) := by
  rw [CheckUsername_result, CheckUsername_stats]
  refine ⟨?_, ?_, ?_, ?_, reachable_total⟩
  · cases x.error with
    | some e => rfl
    | none =>
      simp only []
      split <;> rfl
  · rintro ⟨he, hf⟩
    simp only at he hf
    rw [he]
    simp only [hf, if_true]
    exact ⟨rfl, rfl, rfl⟩
  · rintro ⟨he, hf⟩
    simp only at he hf
    rw [he]
    simp only [hf, Bool.false_eq_true, if_false]
    exact ⟨rfl, rfl, rfl⟩
  · intro he
    simp only at he
    obtain ⟨e, he⟩ := Option.ne_none_iff_exists'.1 he
    rw [he]
    exact ⟨rfl, rfl, rfl⟩

/-- C17: on a failed exchange `CheckUsername` returns `false` and the error; on a response
it returns a nil error and `true` exactly when the status is in 200..299 and it is not the
case that the site is GitHub and the final URL contains `404`; so neither `CheckUsername`
nor `CheckUsernameWithRetry` returns `true` together with an error. -/
theorem probe_result_by_exchange (c : Checker) (username site url : String) (x : Exchange)
    (maxRetries : Int) (outcomes : Nat → Exchange) :
    (∀ err, x = Exchange.requestError err ∨ x = Exchange.transportError err →
        (c.CheckUsername username site url x).2 = (false, some err))
      ∧ (∀ statusCode finalURL, x = Exchange.response statusCode finalURL →
          (c.CheckUsername username site url x).2.2 = none
            ∧ ((c.CheckUsername username site url x).2.1 = true
                ↔ (200 ≤ statusCode ∧ statusCode < 300
                    ∧ ¬ (site = "GitHub" ∧ "404".data <:+: finalURL.data))))
      ∧ ((c.CheckUsername username site url x).2.2 ≠ none →
          (c.CheckUsername username site url x).2.1 = false)
      ∧ ((c.CheckUsernameWithRetry username site url maxRetries outcomes).err ≠ none →
          (c.CheckUsernameWithRetry username site url maxRetries outcomes).found = false) := by
  refine ⟨?_, ?_, ?_, ?_⟩
  · rintro err (rfl | rfl) <;> rfl
  · rintro statusCode finalURL rfl
    rw [CheckUsername_result]
    refine ⟨rfl, ?_⟩
    simp only [probeExists, Contains, decide_eq_true_eq, hasInfix_iff]
  · rw [CheckUsername_result]
    intro he
    simp only at he
    cases x with
    | requestError err => rfl
    | transportError err => rfl
    | response statusCode finalURL => exact absurd rfl he
  · have key : ∀ (remaining retry : Nat) (c : Checker) (lastErr : Option GoError)
        (sleeps : List Int),
        (retryLoop username site url outcomes remaining retry c lastErr sleeps).err ≠ none →
        (retryLoop username site url outcomes remaining retry c lastErr sleeps).found
          = false := by
      intro remaining
      induction remaining with
      | zero => intro retry c lastErr sleeps _; rfl
      | succ remaining ih =>
        intro retry c lastErr sleeps
        cases he : (outcomes retry).error with
        | none =>
          rw [retryLoop_step_ok username site url outcomes remaining retry c lastErr sleeps he]
          intro h
          exact absurd rfl h
        | some e =>
          rw [retryLoop_step_err username site url outcomes remaining retry c lastErr sleeps e
            he]
          exact ih _ _ _ _
    exact key _ _ _ _ _

/-- Witness of C16: a fresh checker after one probe that found the profile. -/
theorem probe_updates_one_bucket_witness :
    ((NewChecker 10 false 0).CheckUsername "johndoe" "Reddit" "https://example.com/johndoe"
        (Exchange.response 200 "https://example.com/johndoe")).1.Stats.Total
      = ((NewChecker 10 false 0).CheckUsername "johndoe" "Reddit" "https://example.com/johndoe"
          (Exchange.response 200 "https://example.com/johndoe")).1.Stats.Found
        + ((NewChecker 10 false 0).CheckUsername "johndoe" "Reddit"
            "https://example.com/johndoe"
            (Exchange.response 200 "https://example.com/johndoe")).1.Stats.NotFound
        + ((NewChecker 10 false 0).CheckUsername "johndoe" "Reddit"
            "https://example.com/johndoe"
            (Exchange.response 200 "https://example.com/johndoe")).1.Stats.Errors :=
  (probe_updates_one_bucket (NewChecker 10 false 0) "johndoe" "Reddit"
    "https://example.com/johndoe" (Exchange.response 200 "https://example.com/johndoe")).2.2.2.2
    _ (Reachable.probe _ _ _ _ _ (Reachable.init 10 false 0))

/-- Probes of GitHub: a plain 200, a 200 after a redirect to a page with `404` in its URL, a
404, and a 200 with `404` in the URL on another site. -/
theorem CheckUsername_examples :
    ((NewChecker 10 false 0).CheckUsername "johndoe" "GitHub" "https://github.com/johndoe"
        (Exchange.response 200 "https://github.com/johndoe")).2 = (true, none)
      ∧ ((NewChecker 10 false 0).CheckUsername "johndoe" "GitHub" "https://github.com/johndoe"
          (Exchange.response 200 "https://github.com/404")).2 = (false, none)
      ∧ ((NewChecker 10 false 0).CheckUsername "johndoe" "GitHub" "https://github.com/johndoe"
          (Exchange.response 404 "https://github.com/johndoe")).2 = (false, none)
      ∧ ((NewChecker 10 false 0).CheckUsername "user404" "Reddit"
          "https://www.reddit.com/user/user404"
          (Exchange.response 200 "https://www.reddit.com/user/user404")).2 = (true, none) := by
  decide

/-! ## Claims on `FormatURL` -/

theorem replaceAux_placeholder (new rest : List Char) :
    replaceAux ['{', '}'] new ('{' :: '}' :: rest) 0
      = new ++ replaceAux ['{', '}'] new rest 0 := by
  simp [replaceAux, List.isPrefixOf]

theorem replaceAux_no_placeholder (new s : List Char)
    (h : hasInfix ['{', '}'] s = false) : replaceAux ['{', '}'] new s 0 = s := by
  induction s with
  | nil => rfl
  | cons c cs ih =>
    simp only [hasInfix, Bool.or_eq_false_iff] at h
    simp only [replaceAux, h.1, Bool.false_eq_true, if_false, ih h.2]

theorem replaceAux_first_placeholder (new p s : List Char)
    (h : hasInfix ['{', '}'] p = false) :
    replaceAux ['{', '}'] new (p ++ '{' :: '}' :: s) 0
      = p ++ new ++ replaceAux ['{', '}'] new s 0 := by
  induction p with
  | nil => simpa using replaceAux_placeholder new s
  | cons c p ih =>
    simp only [hasInfix, Bool.or_eq_false_iff] at h
    have hpre : List.isPrefixOf ['{', '}'] (c :: (p ++ '{' :: '}' :: s)) = false := by
      cases p with
      | nil =>
        simp only [List.nil_append, List.isPrefixOf, Bool.and_eq_false_iff]
        right
        left
        decide
      | cons d p2 =>
        have := h.1
        simpa [List.isPrefixOf] using this
    have e : replaceAux ['{', '}'] new (c :: (p ++ '{' :: '}' :: s)) 0
        = c :: replaceAux ['{', '}'] new (p ++ '{' :: '}' :: s) 0 := by
      rw [replaceAux, if_neg (by rw [hpre]; decide)]
    rw [List.cons_append, e, ih h.2]
    simp

theorem FormatURL_data (t u : String) :
    (FormatURL t u).data = replaceAux ['{', '}'] u.data t.data 0 := by
  unfold FormatURL ReplaceAll
  rfl

/-- C18: `FormatURL` replaces every placeholder `{}` of the template by the username: a
template without a placeholder is returned unchanged, the part before the first placeholder
is kept, the placeholder becomes the username and the rest is treated the same way; so
`p{}s` with no placeholder in `p` or `s` gives `p`, the username and `s`, and `p` and `s` alone
for the empty username. -/
theorem FormatURL_replaces_every_placeholder (t u p s : String) :
    (Contains t "{}" = false → FormatURL t u = t)
      ∧ (Contains p "{}" = false →
          FormatURL (p ++ "{}" ++ s) u = p ++ u ++ FormatURL s u)
      ∧ (Contains p "{}" = false → Contains s "{}" = false →
          FormatURL (p ++ "{}" ++ s) u = p ++ u ++ s)
      ∧ (Contains p "{}" = false → Contains s "{}" = false →
          FormatURL (p ++ "{}" ++ s) "" = p ++ s)
      ∧ FormatURL "https://example.com/{}" "testuser" = "https://example.com/testuser"
      ∧ FormatURL "https://{}.example.com/users/{}" "testuser"
          = "https://testuser.example.com/users/testuser"
      ∧ FormatURL "https://example.com/users" "testuser" = "https://example.com/users"
      ∧ FormatURL "https://example.com/{}" "" = "https://example.com/" := by
  have h1 : ∀ t u : String, Contains t "{}" = false → FormatURL t u = t := by
    intro t u h
    apply String.ext
    rw [FormatURL_data]
    exact replaceAux_no_placeholder _ _ h
  have h2 : ∀ p s u : String, Contains p "{}" = false →
      FormatURL (p ++ "{}" ++ s) u = p ++ u ++ FormatURL s u := by
    intro p s u h
    apply String.ext
    rw [FormatURL_data]
    simp only [String.data_append, List.append_assoc]
    rw [← FormatURL_data]
    have := replaceAux_first_placeholder u.data p.data s.data h
    rw [← FormatURL_data] at this
    simpa using this
  refine ⟨h1 t u, h2 p s u, ?_, ?_, by decide, by decide, by decide, by decide⟩
  · intro hp hs
    rw [h2 p s u hp, h1 s u hs]
  · intro hp hs
    rw [h2 p s "" hp, h1 s "" hs]
    apply String.ext
    simp

/-- Witness of C18: the template of the Deviantart entry of the catalog. -/
theorem FormatURL_replaces_every_placeholder_witness :
    FormatURL ("https://" ++ "{}" ++ ".deviantart.com") "johndoe"
      = "https://" ++ "johndoe" ++ ".deviantart.com" :=
  (FormatURL_replaces_every_placeholder "" "johndoe" "https://" ".deviantart.com").2.2.1
    (by decide) (by decide)

/-! ## Claims on the catalog -/

theorem findSite_of_mem (name : String) (l : List Site)
    (hn : (l.map (fun s => s.Name)).Nodup) (s : Site) (hs : s ∈ l) (hname : s.Name = name) :
    findSite name l = (s, true) := by
  induction l with
  | nil => cases hs
  | cons a l ih =>
    rw [List.map_cons, List.nodup_cons] at hn
    unfold findSite
    rcases List.mem_cons.1 hs with rfl | hl
    · rw [if_pos hname]
    · have hne : a.Name ≠ name := by
        intro ha
        apply hn.1
        rw [ha, ← hname]
        exact List.mem_map.2 ⟨s, hl, rfl⟩
      rw [if_neg hne]
      exact ih hn.2 hl

theorem findSite_of_not_mem (name : String) (l : List Site)
    (h : ∀ s ∈ l, s.Name ≠ name) : findSite name l = ({}, false) := by
  induction l with
  | nil => rfl
  | cons a l ih =>
    unfold findSite
    rw [if_neg (h a (List.mem_cons_self _ _))]
    exact ih (fun s hs => h s (List.mem_cons_of_mem _ hs))

set_option maxRecDepth 100000 in
theorem GetSites_names_nodup : (GetSites.map (fun s => s.Name)).Nodup := by
  decide

/-- C19: `GetSiteByName` returns the catalog entry whose name equals the argument exactly,
with `true`, when there is one, and the zero `Site` with `false` otherwise; the names of the
catalog are pairwise distinct, so every entry is found under its own name. -/
theorem GetSiteByName_finds_entry (name : String) :
    (∀ s ∈ GetSites, s.Name = name → GetSiteByName name = (s, true))
      ∧ ((∀ s ∈ GetSites, s.Name ≠ name) → GetSiteByName name = ({}, false))
      ∧ (GetSites.map (fun s => s.Name)).Nodup
      ∧ (∀ s ∈ GetSites, GetSiteByName s.Name = (s, true))
      ∧ (GetSiteByName "GitHub").2 = true ∧ (GetSiteByName "GitHub").1.Name = "GitHub"
      ∧ (GetSiteByName "NonExistentSite").2 = false
      ∧ (GetSiteByName "github").2 = false := by
  refine ⟨?_, ?_, GetSites_names_nodup, ?_, by decide, by decide, by decide, by decide⟩
  · intro s hs hname
    exact findSite_of_mem name GetSites GetSites_names_nodup s hs hname
  · intro h
    exact findSite_of_not_mem name GetSites h
  · intro s hs
    exact findSite_of_mem s.Name GetSites GetSites_names_nodup s hs rfl

set_option maxRecDepth 100000 in
/-- C20: the catalog of `GetSites` is not empty, and every entry has a non-empty `Name`,
`URL`, `URLFormat` and `CheckMethod` and exactly one placeholder `{}` in its `URLFormat`. -/
theorem GetSites_entries_well_formed :
    GetSites ≠ []
      ∧ GetSites.length = 30
      ∧ ∀ s ∈ GetSites,
          s.Name ≠ "" ∧ s.URL ≠ "" ∧ s.URLFormat ≠ "" ∧ s.CheckMethod ≠ ""
            ∧ placeholderCount s.URLFormat = 1 := by
  refine ⟨by decide, by decide, by decide⟩

set_option maxRecDepth 100000 in
/-- Witness of C19: the Reddit entry is found under its name. -/
theorem GetSiteByName_finds_entry_witness :
    GetSiteByName "Reddit"
      = (statusCodeSite "Reddit" "https://www.reddit.com/user/{}", true) :=
  (GetSiteByName_finds_entry "Reddit").1
    (statusCodeSite "Reddit" "https://www.reddit.com/user/{}") (by decide) rfl

/-! ## The common tier is never longer than the full tier -/

theorem digitChar_ne_underscore (d : Nat) (h : d < 10) : Nat.digitChar d ≠ '_' := by
  interval_cases d <;> decide

theorem toDigits_no_underscore (n : Nat) : '_' ∉ Nat.toDigits 10 n := by
  induction n using Nat.strong_induction_on with
  | _ n ih =>
    by_cases h : n < 10
    · rw [toDigits_small n h]
      simp only [List.mem_singleton]
      exact fun e => digitChar_ne_underscore n h e.symm
    · rw [toDigits_step n (by omega), List.mem_append]
      rintro (h1 | h1)
      · exact ih (n / 10) (Nat.div_lt_self (by omega) (by decide)) h1
      · simp only [List.mem_singleton] at h1
        exact digitChar_ne_underscore (n % 10) (Nat.mod_lt _ (by decide)) h1.symm

theorem formatInt_no_underscore (y : Int) (h : 0 < y) : '_' ∉ (formatInt y).data := by
  rw [formatInt_pos y h]
  exact toDigits_no_underscore _

theorem sliceFrom2_no_underscore (y : Int) (h : 0 < y) (short : String)
    (hs : sliceFrom2 (formatInt y) = some short) : '_' ∉ short.data := by
  unfold sliceFrom2 at hs
  split at hs
  · cases Option.some.inj hs
    intro hm
    exact formatInt_no_underscore y h (List.mem_of_mem_drop hm)
  · cases hs

/-- Every string of the common tier other than its initial form is in the full tier. -/
theorem common_subset_full_but_initial (tbl : Char → Char) (n : NameInfo)
    (c g : List String)
    (hc : GenerateCommonUsernames tbl n = some c) (hg : GenerateUsernames tbl n = some g) :
    ∀ x ∈ c,
      (n.LastName ≠ "" → ∀ b2, byteAt0 (ToLower tbl n.FirstName) = some b2 →
        x ≠ byteToString b2 ++ ToLower tbl n.LastName) →
      x ∈ g := by
  by_cases hF : n.FirstName = ""
  · have : GenerateCommonUsernames tbl n = some [] := by simp [GenerateCommonUsernames, hF]
    rw [this] at hc
    cases Option.some.inj hc
    intro x hx
    cases hx
  obtain ⟨w1, w2, hw1, hw2, rfl⟩ := GenerateCommonUsernames_parts tbl n c hF hc
  obtain ⟨v1, v2, v3, hv1, hv2, hv3, rfl⟩ := GenerateUsernames_parts tbl n g hF hg
  have h12 := addMiddleInitialForms_subset tbl n v1 v2 hv2
  have hf1 : ToLower tbl n.FirstName ∈ v1 := by
    rcases addLastNameForms_some tbl n _ v1 hv1 with ⟨-, rfl⟩ | ⟨-, b, -, rfl⟩ <;> simp
  have hw1v1 : ∀ x ∈ w1,
      (n.LastName ≠ "" → ∀ b2, byteAt0 (ToLower tbl n.FirstName) = some b2 →
        x ≠ byteToString b2 ++ ToLower tbl n.LastName) →
      x ∈ v1 := by
    rcases addCommonLastNameForms_some tbl n _ _ w1 hw1 with ⟨hL, rfl⟩ | ⟨hL, b2, hb2, rfl⟩
    · intro x hx _
      have : x = ToLower tbl n.FirstName := by simpa using hx
      rw [this]; exact hf1
    · rcases addLastNameForms_some tbl n _ v1 hv1 with ⟨hL0, -⟩ | ⟨-, b, hb, rfl⟩
      · exact absurd hL0 hL
      · intro x hx hnot
        have hnx := hnot hL b2 hb2
        simp only [List.mem_append, List.mem_cons, List.mem_singleton, List.not_mem_nil,
          or_false] at hx ⊢
        rcases hx with hx | hx | hx | hx | hx
        · exact Or.inl hx
        · exact Or.inr (Or.inl hx)
        · right; right; left
          rw [hx, ToLower_append]
        · right; right; right; left
          rw [hx, ToLower_append, ToLower_append, ToLower_dot]
        · exact absurd hx hnx
  intro x hx hnot
  rw [mem_removeDuplicates] at hx ⊢
  rcases addCommonYearForms_some n _ w1 w2 hw2 with ⟨hny, rfl⟩ | ⟨hy, short, hs, rfl⟩
  · have hx2 := h12 x (hw1v1 x hx hnot)
    rcases addYearForms_some n v2 v3 hv3 with ⟨-, rfl⟩ | ⟨-, s2, -, rfl⟩
    · exact hx2
    · exact List.mem_append_left _ hx2
  · rcases addYearForms_some n v2 v3 hv3 with ⟨hny, -⟩ | ⟨-, s2, hs2, rfl⟩
    · exact absurd hy hny
    · rw [hs] at hs2
      cases Option.some.inj hs2
      rcases List.mem_append.1 hx with hx | hx
      · exact List.mem_append_left _ (h12 x (hw1v1 x hx hnot))
      · have hf2 := h12 _ hf1
        have hm := mem_specYearForms v2 (formatInt n.BirthYear) short _ hf2
        apply List.mem_append_right
        simp only [List.mem_cons, List.mem_singleton, List.not_mem_nil, or_false] at hx
        rcases hx with hx | hx
        · rw [hx]; exact hm.1
        · rw [hx]; exact hm.2

theorem string_length_pos (a : String) (h : a ≠ "") : 0 < a.data.length :=
  List.length_pos.2 (string_data_ne_nil a h)

theorem underscore_form_ne_first (a l : String) : a ++ "_" ++ l ≠ a := by
  intro h
  have := congrArg (fun s => s.data.length) h
  simp at this

theorem underscore_form_ne_suffix (a l : String) (ha : a ≠ "") : a ++ "_" ++ l ≠ l := by
  intro h
  have := congrArg (fun s => s.data.length) h
  have hp := string_length_pos a ha
  simp at this
  omega

theorem underscore_form_ne_concat (a l : String) : a ++ "_" ++ l ≠ a ++ l := by
  intro h
  have := congrArg (fun s => s.data.length) h
  simp at this

theorem underscore_form_ne_dotted (a l : String) : a ++ "_" ++ l ≠ a ++ "." ++ l := by
  intro h
  have := congrArg String.data h
  simp only [String.data_append, List.append_assoc, List.append_cancel_left_eq] at this
  simp at this

theorem underscore_form_ne_initial (a l : String) (ha : a ≠ "") (b : Nat) :
    a ++ "_" ++ l ≠ byteToString b ++ l := by
  intro h
  have := congrArg (fun s => s.data.length) h
  have hp := string_length_pos a ha
  have hb : (byteToString b).data.length = 1 := rfl
  simp only [String.data_append, List.length_append, hb] at this
  have hu : ("_" : String).data.length = 1 := rfl
  rw [hu] at this
  omega

theorem underscore_form_ne_suffixed (a l y : String) (hy : '_' ∉ y.data) :
    a ++ "_" ++ l ≠ a ++ y := by
  intro h
  have := congrArg String.data h
  simp only [String.data_append, List.append_assoc, List.append_cancel_left_eq] at this
  apply hy
  rw [← this]
  simp

/-- With a last name, the full tier holds the underscore form and the common tier does not. -/
theorem underscore_form_only_in_full (tbl : Char → Char) (n : NameInfo)
    (hF : n.FirstName ≠ "") (hL : n.LastName ≠ "") (c g : List String)
    (hc : GenerateCommonUsernames tbl n = some c) (hg : GenerateUsernames tbl n = some g) :
    ToLower tbl (n.FirstName ++ "_" ++ n.LastName) ∈ g
      ∧ ToLower tbl (n.FirstName ++ "_" ++ n.LastName) ∉ c := by
  obtain ⟨w1, w2, hw1, hw2, rfl⟩ := GenerateCommonUsernames_parts tbl n c hF hc
  obtain ⟨v1, v2, v3, hv1, hv2, hv3, rfl⟩ := GenerateUsernames_parts tbl n g hF hg
  have hf : ToLower tbl n.FirstName ≠ "" := ToLower_ne_empty tbl _ hF
  have he : ToLower tbl (n.FirstName ++ "_" ++ n.LastName)
      = ToLower tbl n.FirstName ++ "_" ++ ToLower tbl n.LastName := by
    rw [ToLower_append, ToLower_append, ToLower_underscore]
  constructor
  · rw [mem_removeDuplicates]
    have h1 : ToLower tbl (n.FirstName ++ "_" ++ n.LastName) ∈ v1 := by
      rcases addLastNameForms_some tbl n _ v1 hv1 with ⟨hL0, -⟩ | ⟨-, b, -, rfl⟩
      · exact absurd hL0 hL
      · simp
    have h2 := addMiddleInitialForms_subset tbl n v1 v2 hv2 _ h1
    rcases addYearForms_some n v2 v3 hv3 with ⟨-, rfl⟩ | ⟨-, s2, -, rfl⟩
    · exact h2
    · exact List.mem_append_left _ h2
  · rw [mem_removeDuplicates, he]
    have hw1n : ToLower tbl n.FirstName ++ "_" ++ ToLower tbl n.LastName ∉ w1 := by
      rcases addCommonLastNameForms_some tbl n _ _ w1 hw1 with ⟨hL0, -⟩ | ⟨-, b2, -, rfl⟩
      · exact absurd hL0 hL
      · simp only [List.mem_append, List.mem_cons, List.mem_singleton, List.not_mem_nil,
          or_false, not_or]
        exact ⟨underscore_form_ne_first _ _, underscore_form_ne_suffix _ _ hf,
          underscore_form_ne_concat _ _, underscore_form_ne_dotted _ _,
          underscore_form_ne_initial _ _ hf b2⟩
    rcases addCommonYearForms_some n _ w1 w2 hw2 with ⟨-, rfl⟩ | ⟨hy, short, hs, rfl⟩
    · exact hw1n
    · simp only [List.mem_append, List.mem_cons, List.mem_singleton, List.not_mem_nil,
        or_false, not_or]
      exact ⟨hw1n,
        underscore_form_ne_suffixed _ _ _ (formatInt_no_underscore n.BirthYear hy),
        underscore_form_ne_suffixed _ _ _ (sliceFrom2_no_underscore n.BirthYear hy short hs)⟩

/-- The common tier is never longer than the full tier, whatever the initial. -/
theorem common_length_le_full (tbl : Char → Char) (n : NameInfo) (c g : List String)
    (hc : GenerateCommonUsernames tbl n = some c) (hg : GenerateUsernames tbl n = some g) :
    c.length ≤ g.length := by
  have hcn : c.Nodup := by
    rcases GenerateCommonUsernames_some tbl n c hc with rfl | ⟨vs, rfl⟩
    · exact List.nodup_nil
    · exact removeDuplicates_nodup vs
  have hbut := common_subset_full_but_initial tbl n c g hc hg
  by_cases hF : n.FirstName = ""
  · have : GenerateCommonUsernames tbl n = some [] := by simp [GenerateCommonUsernames, hF]
    rw [this] at hc
    cases Option.some.inj hc
    simp
  by_cases hL : n.LastName = ""
  · exact common_length_le_of_subset c g hcn
      (fun x hx => hbut x hx (fun h => absurd hL h))
  obtain ⟨b2, hb2⟩ := byteAt0_isSome (ToLower tbl n.FirstName) (ToLower_ne_empty tbl _ hF)
  obtain ⟨heg, hec⟩ := underscore_form_only_in_full tbl n hF hL c g hc hg
  -- drop the initial form on the left and the underscore form on the right
  have hsub : ∀ x ∈ c.erase (byteToString b2 ++ ToLower tbl n.LastName),
      x ∈ g.erase (ToLower tbl (n.FirstName ++ "_" ++ n.LastName)) := by
    intro x hx
    have hx2 := (List.Nodup.mem_erase_iff hcn).1 hx
    have hxg : x ∈ g := hbut x hx2.2 (fun _ b hb => by
      rw [hb2] at hb
      cases Option.some.inj hb
      exact hx2.1)
    have hxe : x ≠ ToLower tbl (n.FirstName ++ "_" ++ n.LastName) := by
      intro e
      exact hec (e ▸ hx2.2)
    exact (List.mem_erase_of_ne hxe).2 hxg
  have hle := common_length_le_of_subset _ _ (hcn.erase _) hsub
  rw [List.length_erase_of_mem heg] at hle
  have hge : 0 < g.length := List.length_pos_of_mem heg
  have hcl := List.length_erase_le (byteToString b2 ++ ToLower tbl n.LastName) c
  have hcl2 : c.length - 1 ≤ (c.erase (byteToString b2 ++ ToLower tbl n.LastName)).length := by
    by_cases hm : byteToString b2 ++ ToLower tbl n.LastName ∈ c
    · rw [List.length_erase_of_mem hm]
    · rw [List.erase_of_not_mem hm]
      omega
  omega

/-! ## Claim on the common tier -/

set_option maxRecDepth 100000 in
/-- C12 fails on the code for a first name whose initial is not ASCII: the common tier takes
the first byte of the lower-cased first name and does not lower-case it again, the full
tier lower-cases the first byte of the first name, so for `émile Zola` the common tier
returns `Ãzola`, which the full tier (with `ãzola`) does not contain. For a first name
with an ASCII initial every string of the common tier occurs in the full tier; and for
every name on which both return the common tier is not longer than the full tier. -/
theorem common_initial_not_lowercased :
    (GenerateCommonUsernames latin1Table { FirstName := "émile", LastName := "Zola" }
        = some ["émile", "zola", "émilezola", "émile.zola", "Ãzola"]
      ∧ GenerateUsernames latin1Table { FirstName := "émile", LastName := "Zola" }
        = some ["émile", "zola", "émilezola", "émile.zola", "émile_zola", "ãzola"]
      ∧ "Ãzola" ∉ ["émile", "zola", "émilezola", "émile.zola", "émile_zola", "ãzola"])
      ∧ (∀ (tbl : Char → Char) (n : NameInfo) (c g : List String),
          asciiInitial n.FirstName = true →
          GenerateCommonUsernames tbl n = some c → GenerateUsernames tbl n = some g →
          (∀ x ∈ c, x ∈ g) ∧ c.length ≤ g.length)
      ∧ (∀ (tbl : Char → Char) (n : NameInfo) (c g : List String),
          GenerateCommonUsernames tbl n = some c → GenerateUsernames tbl n = some g →
          c.length ≤ g.length) := by
  refine ⟨by decide, ?_, ?_⟩
  · intro tbl n c g ha hc hg
    exact ⟨common_subset_full tbl n ha c g hc hg, common_length_le_full tbl n c g hc hg⟩
  · intro tbl n c g hc hg
    exact common_length_le_full tbl n c g hc hg

set_option maxRecDepth 100000 in
/-- Witness of C12: John Doe, born 1990, has an ASCII initial. -/
theorem common_initial_not_lowercased_witness :
    (∀ x ∈ ["john", "doe", "johndoe", "john.doe", "jdoe", "john1990", "john90"],
        x ∈ ["john", "doe", "johndoe", "john.doe", "john_doe", "jdoe",
          "john1990", "john90", "john_1990", "john_90",
          "doe1990", "doe90", "doe_1990", "doe_90",
          "johndoe1990", "johndoe90", "johndoe_1990", "johndoe_90",
          "john.doe1990", "john.doe90", "john.doe_1990", "john.doe_90",
          "john_doe1990", "john_doe90", "john_doe_1990", "john_doe_90",
          "jdoe1990", "jdoe90", "jdoe_1990", "jdoe_90"])
      ∧ ["john", "doe", "johndoe", "john.doe", "jdoe", "john1990", "john90"].length
        ≤ ["john", "doe", "johndoe", "john.doe", "john_doe", "jdoe",
          "john1990", "john90", "john_1990", "john_90",
          "doe1990", "doe90", "doe_1990", "doe_90",
          "johndoe1990", "johndoe90", "johndoe_1990", "johndoe_90",
          "john.doe1990", "john.doe90", "john.doe_1990", "john.doe_90",
          "john_doe1990", "john_doe90", "john_doe_1990", "john_doe_90",
          "jdoe1990", "jdoe90", "jdoe_1990", "jdoe_90"].length :=
  common_initial_not_lowercased.2.1 caselessTable
    { FirstName := "John", LastName := "Doe", BirthYear := 1990 } _ _
    (by decide) (by decide) GenerateUsernames_john_doe_1990

/-! ## Claims on `Profile.UniqueKey` -/

theorem split_at_first_colon (a b u v : List Char) (ha : ':' ∉ a) (hb : ':' ∉ b)
    (h : a ++ ':' :: u = b ++ ':' :: v) : a = b ∧ u = v := by
  induction a generalizing b with
  | nil =>
    cases b with
    | nil => simpa using h
    | cons d b =>
      simp only [List.nil_append, List.cons_append, List.cons.injEq] at h
      exact absurd (h.1 ▸ List.mem_cons_self _ _) hb
  | cons c a ih =>
    cases b with
    | nil =>
      simp only [List.nil_append, List.cons_append, List.cons.injEq] at h
      exact absurd (h.1 ▸ List.mem_cons_self _ _) ha
    | cons d b =>
      simp only [List.cons_append, List.cons.injEq] at h
      obtain ⟨h1, h2⟩ := ih b (fun hm => ha (List.mem_cons_of_mem _ hm))
        (fun hm => hb (List.mem_cons_of_mem _ hm)) h.2
      exact ⟨by rw [h.1, h1], h2⟩

/-- C21 fails on the code when a platform name contains a colon: the profiles with platform
`a:b`, username `c` and with platform `a`, username `b:c` have the same key `a:b:c`.
`UniqueKey` returns the platform, a colon and the username; for profiles whose platform
names contain no colon equal keys give equal platforms and equal usernames. -/
theorem UniqueKey_collides_on_colon :
    (({ Platform := "a:b", Username := "c" } : Profile).UniqueKey
        = ({ Platform := "a", Username := "b:c" } : Profile).UniqueKey
      ∧ ({ Platform := "a:b", Username := "c" } : Profile).Platform
        ≠ ({ Platform := "a", Username := "b:c" } : Profile).Platform)
      ∧ (∀ p : Profile, p.UniqueKey = p.Platform ++ ":" ++ p.Username)
      ∧ (NewProfile "John Doe" "johndoe" "Twitter" "https://twitter.com/johndoe"
          "https://pbs.twimg.com/profile_images/123456789/johndoe.jpg" "Software Engineer"
          true 1000 0).UniqueKey = "Twitter:johndoe"
      ∧ (∀ p q : Profile, ':' ∉ p.Platform.data → ':' ∉ q.Platform.data →
          p.UniqueKey = q.UniqueKey → p.Platform = q.Platform ∧ p.Username = q.Username) := by
  refine ⟨by decide, fun _ => rfl, by decide, ?_⟩
  intro p q hp hq h
  have hd := congrArg String.data h
  simp only [Profile.UniqueKey, String.data_append, List.append_assoc] at hd
  have hc : (":" : String).data = [':'] := rfl

  obtain ⟨h1, h2⟩ := split_at_first_colon _ _ _ _ hp hq hd
  exact ⟨String.ext h1, String.ext h2⟩

/-- Witness of C21: two profiles on catalog platforms with the same key. -/
theorem UniqueKey_collides_on_colon_witness :
    ({ Platform := "Twitter", Username := "johndoe", RealName := "John Doe" } : Profile).Platform
        = ({ Platform := "Twitter", Username := "johndoe", Bio := "x" } : Profile).Platform
      ∧ ({ Platform := "Twitter", Username := "johndoe", RealName := "John Doe" }
          : Profile).Username
        = ({ Platform := "Twitter", Username := "johndoe", Bio := "x" } : Profile).Username :=
  UniqueKey_collides_on_colon.2.2.2
    { Platform := "Twitter", Username := "johndoe", RealName := "John Doe" }
    { Platform := "Twitter", Username := "johndoe", Bio := "x" }
    (by decide) (by decide) (by decide)

/-! ## Claims on the retry loop: counters and sleeps -/

theorem CheckUsername_stats_err (c : Checker) (username site url : String) (x : Exchange)
    (e : GoError) (h : x.error = some e) :
    (c.CheckUsername username site url x).1 = c.incrementErrors := by
  rw [CheckUsername_stats, h]

theorem CheckUsername_stats_ok (c : Checker) (username site url : String) (x : Exchange)
    (h : x.error = none) :
    (c.CheckUsername username site url x).1
      = if probeExists site x = true then c.incrementFound else c.incrementNotFound := by
  rw [CheckUsername_stats, h]

/-- What a run of the loop did: `n` failed attempts, then either one attempt without an
error (`ok`) or the end of the loop. -/
theorem retryLoop_trace (username site url : String) (outcomes : Nat → Exchange)
    (remaining : Nat) :
    ∀ (retry : Nat) (c : Checker) (lastErr : Option GoError) (sleeps : List Int),
      ∃ n : Nat, ∃ ok : Bool,
        (retryLoop username site url outcomes remaining retry c lastErr sleeps).attempts
            = retry + n + (if ok = true then 1 else 0)
          ∧ ((retryLoop username site url outcomes remaining retry c lastErr sleeps).err = none
              ↔ ok = true)
          ∧ (ok = false → n = remaining)
          ∧ n + (if ok = true then 1 else 0) ≤ remaining
          ∧ (retryLoop username site url outcomes remaining retry c lastErr sleeps).checker.Stats.Total
              = c.Stats.Total + n + (if ok = true then 1 else 0)
          ∧ (retryLoop username site url outcomes remaining retry c lastErr sleeps).checker.Stats.Errors
              = c.Stats.Errors + n
          ∧ (retryLoop username site url outcomes remaining retry c lastErr sleeps).checker.Stats.Found
              = c.Stats.Found
                + (if ok = true ∧ (retryLoop username site url outcomes remaining retry c lastErr
                    sleeps).found = true then 1 else 0)
          ∧ (retryLoop username site url outcomes remaining retry c lastErr sleeps).checker.Stats.NotFound
              = c.Stats.NotFound
                + (if ok = true ∧ (retryLoop username site url outcomes remaining retry c lastErr
                    sleeps).found = false then 1 else 0)
          ∧ (retryLoop username site url outcomes remaining retry c lastErr sleeps).sleeps
              = sleeps ++ (List.range' retry n).map (fun i : Nat => ((i : Int) + 1) * 500) := by
  induction remaining with
  | zero =>
    intro retry c lastErr sleeps
    refine ⟨0, false, ?_⟩
    simp [retryLoop]
  | succ remaining ih =>
    intro retry c lastErr sleeps
    cases he : (outcomes retry).error with
    | none =>
      refine ⟨0, true, ?_⟩
      rw [retryLoop_step_ok username site url outcomes remaining retry c lastErr sleeps he,
        CheckUsername_stats_ok c username site url _ he]
      by_cases hp : probeExists site (outcomes retry) = true
      · simp [hp, Checker.incrementFound]
      · simp [hp, Checker.incrementNotFound]
    | some e =>
      rw [retryLoop_step_err username site url outcomes remaining retry c lastErr sleeps e he,
        CheckUsername_stats_err c username site url _ e he]
      obtain ⟨n, ok, h1, h2, h3, h4, h5, h6, h7, h8, h9⟩ :=
        ih (retry + 1) c.incrementErrors (some e) (sleeps ++ [((retry : Int) + 1) * 500])
      refine ⟨n + 1, ok, ?_, h2, ?_, ?_, ?_, ?_, ?_, ?_, ?_⟩
      · rw [h1]; omega
      · intro h; rw [h3 h]
      · omega
      · rw [h5]; simp only [Checker.incrementErrors]; push_cast; ring
      · rw [h6]; simp only [Checker.incrementErrors]; push_cast; ring
      · rw [h7]; simp only [Checker.incrementErrors]
      · rw [h8]; simp only [Checker.incrementErrors]
      · rw [h9, List.range'_succ, List.map_cons, List.append_assoc]
        rfl

/-- The trace of a whole call of `CheckUsernameWithRetry`. -/
theorem CheckUsernameWithRetry_trace (c : Checker) (username site url : String)
    (maxRetries : Int) (outcomes : Nat → Exchange) :
    ∃ n : Nat, ∃ ok : Bool,
      (c.CheckUsernameWithRetry username site url maxRetries outcomes).attempts
          = n + (if ok = true then 1 else 0)
        ∧ ((c.CheckUsernameWithRetry username site url maxRetries outcomes).err = none
            ↔ ok = true)
        ∧ (ok = false → n = maxRetries.toNat)
        ∧ n + (if ok = true then 1 else 0) ≤ maxRetries.toNat
        ∧ (c.CheckUsernameWithRetry username site url maxRetries outcomes).checker.Stats.Total
            = c.Stats.Total + n + (if ok = true then 1 else 0)
        ∧ (c.CheckUsernameWithRetry username site url maxRetries outcomes).checker.Stats.Errors
            = c.Stats.Errors + n
        ∧ (c.CheckUsernameWithRetry username site url maxRetries outcomes).checker.Stats.Found
            = c.Stats.Found
              + (if ok = true ∧ (c.CheckUsernameWithRetry username site url maxRetries
                  outcomes).found = true then 1 else 0)
        ∧ (c.CheckUsernameWithRetry username site url maxRetries outcomes).checker.Stats.NotFound
            = c.Stats.NotFound
              + (if ok = true ∧ (c.CheckUsernameWithRetry username site url maxRetries
                  outcomes).found = false then 1 else 0)
        ∧ (c.CheckUsernameWithRetry username site url maxRetries outcomes).sleeps
            = (List.range n).map (fun i : Nat => ((i : Int) + 1) * 500) := by
  obtain ⟨n, ok, h1, h2, h3, h4, h5, h6, h7, h8, h9⟩ :=
    retryLoop_trace username site url outcomes maxRetries.toNat 0 c none []
  refine ⟨n, ok, ?_, h2, h3, h4, h5, h6, h7, h8, ?_⟩
  · simpa using h1
  · rw [List.range_eq_range']
    simpa using h9

theorem sum_linear_sleeps (n : Nat) :
    ((List.range n).map (fun i : Nat => ((i : Int) + 1) * 500)).sum
      = 250 * (n : Int) * ((n : Int) + 1) := by
  induction n with
  | zero => simp
  | succ n ih =>
    rw [List.range_succ, List.map_append, List.sum_append, ih]
    simp only [List.map_cons, List.map_nil, List.sum_cons, List.sum_nil]
    push_cast
    ring

/-- C22 fails on the code: the call that fails twice and then finds the username adds 3 to
`Total`, 2 to `Errors` and 1 to `Found`, not 1 to `Total` and 1 to one counter. -/
theorem retry_counts_three_probes :
    ((NewChecker 10 false 0).CheckUsernameWithRetry "johndoe" "Reddit"
        "https://example.com/johndoe" 3 failTwiceThenFound).checker.Stats.Total
        = (NewChecker 10 false 0).Stats.Total + 3
      ∧ ((NewChecker 10 false 0).CheckUsernameWithRetry "johndoe" "Reddit"
          "https://example.com/johndoe" 3 failTwiceThenFound).checker.Stats.Total
        ≠ (NewChecker 10 false 0).Stats.Total + 1
      ∧ ((NewChecker 10 false 0).CheckUsernameWithRetry "johndoe" "Reddit"
          "https://example.com/johndoe" 3 failTwiceThenFound).checker.Stats.Errors
        = (NewChecker 10 false 0).Stats.Errors + 2
      ∧ ((NewChecker 10 false 0).CheckUsernameWithRetry "johndoe" "Reddit"
          "https://example.com/johndoe" 3 failTwiceThenFound).checker.Stats.Found
        = (NewChecker 10 false 0).Stats.Found + 1
      ∧ ((NewChecker 10 false 0).CheckUsernameWithRetry "johndoe" "Reddit"
          "https://example.com/johndoe" 3 failTwiceThenFound).attempts = 3 := by
  decide

/-- C22, amended: a call of `CheckUsernameWithRetry` adds to `Total` the number of attempts
it made. When it returns without an error it adds 1 to `Found` (it returns true) or to
`NotFound` (it returns false), nothing to the other one, and the number of attempts less one
to `Errors`; when it returns an error it adds the number of attempts to `Errors` and nothing
to `Found` and `NotFound`. So `Total` grows by exactly 1 exactly when the call made one
attempt. -/
theorem retry_counts_every_attempt (c : Checker) (username site url : String)
    (maxRetries : Int) (outcomes : Nat → Exchange) :
    (c.CheckUsernameWithRetry username site url maxRetries outcomes).checker.Stats.Total
        = c.Stats.Total
          + (c.CheckUsernameWithRetry username site url maxRetries outcomes).attempts
      ∧ ((c.CheckUsernameWithRetry username site url maxRetries outcomes).err = none →
          1 ≤ (c.CheckUsernameWithRetry username site url maxRetries outcomes).attempts
          ∧ (c.CheckUsernameWithRetry username site url maxRetries outcomes).checker.Stats.Errors
            = c.Stats.Errors
              + (c.CheckUsernameWithRetry username site url maxRetries outcomes).attempts - 1
          ∧ (c.CheckUsernameWithRetry username site url maxRetries outcomes).checker.Stats.Found
            = c.Stats.Found
              + (if (c.CheckUsernameWithRetry username site url maxRetries outcomes).found
                  = true then 1 else 0)
          ∧ (c.CheckUsernameWithRetry username site url maxRetries
              outcomes).checker.Stats.NotFound
            = c.Stats.NotFound
              + (if (c.CheckUsernameWithRetry username site url maxRetries outcomes).found
                  = true then 0 else 1))
      ∧ ((c.CheckUsernameWithRetry username site url maxRetries outcomes).err ≠ none →
          (c.CheckUsernameWithRetry username site url maxRetries outcomes).attempts
            = maxRetries.toNat
          ∧ (c.CheckUsernameWithRetry username site url maxRetries outcomes).checker.Stats.Errors
            = c.Stats.Errors
              + (c.CheckUsernameWithRetry username site url maxRetries outcomes).attempts
          ∧ (c.CheckUsernameWithRetry username site url maxRetries outcomes).checker.Stats.Found
            = c.Stats.Found
          ∧ (c.CheckUsernameWithRetry username site url maxRetries
              outcomes).checker.Stats.NotFound
            = c.Stats.NotFound)
      ∧ ((c.CheckUsernameWithRetry username site url maxRetries outcomes).checker.Stats.Total
            = c.Stats.Total + 1
          ↔ (c.CheckUsernameWithRetry username site url maxRetries outcomes).attempts = 1) := by
  obtain ⟨n, ok, h1, h2, h3, h4, h5, h6, h7, h8, _⟩ :=
    CheckUsernameWithRetry_trace c username site url maxRetries outcomes
  have htotal :
      (c.CheckUsernameWithRetry username site url maxRetries outcomes).checker.Stats.Total
        = c.Stats.Total
          + (c.CheckUsernameWithRetry username site url maxRetries outcomes).attempts := by
    rw [h5, h1]
    cases ok
    · simp
    · simp [add_assoc]
  refine ⟨htotal, ?_, ?_, ?_⟩
  · intro he
    have hok : ok = true := h2.1 he
    subst hok
    simp only [if_true, true_and] at h1 h5 h7 h8
    refine ⟨by omega, ?_, ?_, ?_⟩
    · rw [h6, h1]; push_cast; ring
    · exact h7
    · rw [h8]
      cases (c.CheckUsernameWithRetry username site url maxRetries outcomes).found <;> simp
  · intro he
    have hok : ok = false := by
      cases ok with
      | false => rfl
      | true => exact absurd (h2.2 rfl) he
    subst hok
    simp only [Bool.false_eq_true, if_false, false_and, add_zero] at h1 h5 h7 h8
    refine ⟨by rw [h1]; exact h3 rfl, by rw [h6, h1], h7, h8⟩
  · rw [htotal]
    constructor
    · intro h; omega
    · intro h; rw [h]; rfl

/-- C23 fails on the code when every attempt fails: with `maxRetries = 1` the call makes one
attempt and then sleeps 500ms, and with `maxRetries = 2` it sleeps 500ms and 1000ms, a wait
after the final attempt. In general the call sleeps once after every failed attempt,
500ms times the number of that attempt counted from 1: when it returns without an error
after `k` attempts it has slept 500ms, ..., `(k - 1)` times 500ms, in total
`250 (k - 1) k` ms, as C23 says; when all `k = maxRetries` attempts fail it has slept
500ms, ..., `k` times 500ms, in total `250 k (k + 1)` ms. -/
theorem sleeps_after_every_failed_attempt :
    (((NewChecker 10 false 0).CheckUsernameWithRetry "johndoe" "Reddit"
        "https://example.com/johndoe" 1 alwaysFailing).attempts = 1
      ∧ ((NewChecker 10 false 0).CheckUsernameWithRetry "johndoe" "Reddit"
        "https://example.com/johndoe" 1 alwaysFailing).sleeps = [500]
      ∧ ((NewChecker 10 false 0).CheckUsernameWithRetry "johndoe" "Reddit"
        "https://example.com/johndoe" 2 alwaysFailing).attempts = 2
      ∧ ((NewChecker 10 false 0).CheckUsernameWithRetry "johndoe" "Reddit"
        "https://example.com/johndoe" 2 alwaysFailing).sleeps = [500, 1000])
      ∧ ∀ (c : Checker) (username site url : String) (maxRetries : Int)
          (outcomes : Nat → Exchange),
          ((c.CheckUsernameWithRetry username site url maxRetries outcomes).err = none →
            (c.CheckUsernameWithRetry username site url maxRetries outcomes).sleeps
              = (List.range
                  ((c.CheckUsernameWithRetry username site url maxRetries outcomes).attempts
                    - 1)).map (fun i : Nat => ((i : Int) + 1) * 500)
            ∧ (c.CheckUsernameWithRetry username site url maxRetries outcomes).sleeps.sum
              = 250 * (((c.CheckUsernameWithRetry username site url maxRetries
                    outcomes).attempts : Int) - 1)
                * (c.CheckUsernameWithRetry username site url maxRetries outcomes).attempts)
          ∧ ((c.CheckUsernameWithRetry username site url maxRetries outcomes).err ≠ none →
            (c.CheckUsernameWithRetry username site url maxRetries outcomes).attempts
              = maxRetries.toNat
            ∧ (c.CheckUsernameWithRetry username site url maxRetries outcomes).sleeps
              = (List.range
                  (c.CheckUsernameWithRetry username site url maxRetries outcomes).attempts).map
                  (fun i : Nat => ((i : Int) + 1) * 500)
            ∧ (c.CheckUsernameWithRetry username site url maxRetries outcomes).sleeps.sum
              = 250 * ((c.CheckUsernameWithRetry username site url maxRetries
                    outcomes).attempts : Int)
                * (((c.CheckUsernameWithRetry username site url maxRetries
                    outcomes).attempts : Int) + 1)) := by
  refine ⟨by decide, ?_⟩
  intro c username site url maxRetries outcomes
  obtain ⟨n, ok, h1, h2, h3, _, _, _, _, _, h9⟩ :=
    CheckUsernameWithRetry_trace c username site url maxRetries outcomes
  constructor
  · intro he
    have hok : ok = true := h2.1 he
    subst hok
    simp only [if_true] at h1
    rw [h9, h1, Nat.add_sub_cancel, sum_linear_sleeps]
    refine ⟨rfl, ?_⟩
    push_cast
    ring
  · intro he
    have hok : ok = false := by
      cases ok with
      | false => rfl
      | true => exact absurd (h2.2 rfl) he
    subst hok
    simp only [Bool.false_eq_true, if_false, add_zero] at h1
    rw [h9, h1, sum_linear_sleeps]
    exact ⟨h3 rfl, rfl, rfl⟩

/-- C29: for `maxRetries ≤ 0` the call of `CheckUsernameWithRetry` makes no attempt and no
sleep, leaves the checker with all its counters as it was, and returns false with the
retries-exceeded error, which wraps nothing because there is no last error. -/
theorem no_retries_no_probe (c : Checker) (username site url : String) (maxRetries : Int)
    (outcomes : Nat → Exchange) (h : maxRetries ≤ 0) :
    c.CheckUsernameWithRetry username site url maxRetries outcomes
        = { checker := c, found := false,
            err := some (GoError.new "max retries exceeded: %!w(<nil>)"),
            attempts := 0, sleeps := [] }
      ∧ (c.CheckUsernameWithRetry username site url maxRetries outcomes).checker.Stats = c.Stats
      ∧ (c.CheckUsernameWithRetry username site url maxRetries outcomes).err
          = some (retriesExceeded none)
      ∧ (retriesExceeded none).Unwrap = none := by
  have h0 : maxRetries.toNat = 0 := by omega
  have hrun : c.CheckUsernameWithRetry username site url maxRetries outcomes
      = { checker := c, found := false,
          err := some (GoError.new "max retries exceeded: %!w(<nil>)"),
          attempts := 0, sleeps := [] } := by
    simp only [Checker.CheckUsernameWithRetry, h0, retryLoop, retriesExceeded]
  rw [hrun]
  exact ⟨rfl, rfl, rfl, rfl⟩

/-- Witness of C29: a negative retry budget on a probe that would have found the name. -/
theorem no_retries_no_probe_witness :
    (-3 : Int) ≤ 0
      ∧ (NewChecker 10 false 0).CheckUsernameWithRetry "johndoe" "Reddit"
          "https://example.com/johndoe" (-3) failTwiceThenFound
        = { checker := NewChecker 10 false 0, found := false,
            err := some (GoError.new "max retries exceeded: %!w(<nil>)"),
            attempts := 0, sleeps := [] } :=
  ⟨by decide, (no_retries_no_probe (NewChecker 10 false 0) "johndoe" "Reddit"
    "https://example.com/johndoe" (-3) failTwiceThenFound (by decide)).1⟩

/-! ## Claims on the filters: order and frame -/

theorem FindProfilesByPlatforms_sublist (tbl : Char → Char) (ms : List ProfileMatch)
    (platforms : List String) :
    (FindProfilesByPlatforms tbl ms platforms).Sublist ms := by
  unfold FindProfilesByPlatforms
  split
  · exact List.Sublist.refl ms
  · have h := foldl_append_if
      (fun m => allFound (platformMatches tbl m) (platforms.map (ToLower tbl))) ms []
    simp only [List.nil_append] at h
    rw [h]
    exact List.filter_sublist ms

/-- C30: `FindCommonProfiles` and `FindProfilesByPlatforms` return a subsequence of their
input: the kept matches are elements of the input, with all their fields as they were, in
the order of the input. Hence an input sorted by non-increasing confidence gives an output
sorted by non-increasing confidence. -/
theorem filters_return_subsequence (tbl : Char → Char) (ms : List ProfileMatch)
    (platforms : List String) :
    (FindCommonProfiles ms).Sublist ms
      ∧ (FindProfilesByPlatforms tbl ms platforms).Sublist ms
      ∧ (∀ m ∈ FindCommonProfiles ms, m ∈ ms)
      ∧ (∀ m ∈ FindProfilesByPlatforms tbl ms platforms, m ∈ ms)
      ∧ (ms.Pairwise (fun a b => a.Confidence ≥ b.Confidence) →
          (FindCommonProfiles ms).Pairwise (fun a b => a.Confidence ≥ b.Confidence)
          ∧ (FindProfilesByPlatforms tbl ms platforms).Pairwise
              (fun a b => a.Confidence ≥ b.Confidence)) := by
  have h1 : (FindCommonProfiles ms).Sublist ms := by
    rw [FindCommonProfiles_eq_filter]
    exact List.filter_sublist ms
  have h2 := FindProfilesByPlatforms_sublist tbl ms platforms
  exact ⟨h1, h2, fun m hm => h1.subset hm, fun m hm => h2.subset hm,
    fun hs => ⟨hs.sublist h1, hs.sublist h2⟩⟩

/-! ## Claims on `toLeetspeak` -/

theorem leetMap_lookup (k : Char) :
    leetMap.lookup k
      = if k = 'a' then some "4"
        else if k = 'e' then some "3"
        else if k = 'i' then some "1"
        else if k = 'o' then some "0"
        else if k = 's' then some "5"
        else if k = 't' then some "7"
        else none := by
  by_cases ha : k = 'a'
  · subst ha; rfl
  by_cases he : k = 'e'
  · subst he; rfl
  by_cases hi : k = 'i'
  · subst hi; rfl
  by_cases ho : k = 'o'
  · subst ho; rfl
  by_cases hs : k = 's'
  · subst hs; rfl
  by_cases ht : k = 't'
  · subst ht; rfl
  rw [if_neg ha, if_neg he, if_neg hi, if_neg ho, if_neg hs, if_neg ht]
  have ha1 : (k == 'a') = false := beq_false_of_ne ha
  have he1 : (k == 'e') = false := beq_false_of_ne he
  have hi1 : (k == 'i') = false := beq_false_of_ne hi
  have ho1 : (k == 'o') = false := beq_false_of_ne ho
  have hs1 : (k == 's') = false := beq_false_of_ne hs
  have ht1 : (k == 't') = false := beq_false_of_ne ht
  simp only [leetMap, List.lookup, ha1, he1, hi1, ho1, hs1, ht1]

theorem toLeetspeak_step (tbl : Char → Char) (result : String) (c : Char) :
    (match leetMap.lookup (unicodeToLower tbl c) with
      | some leet => result ++ leet
      | none => result.push c)
      = String.mk (result.data ++ [specLeetChar tbl c]) := by
  rw [leetMap_lookup]
  unfold specLeetChar
  split_ifs <;> rfl

theorem toLeetspeak_foldl (tbl : Char → Char) (l : List Char) (acc : String) :
    l.foldl
        (fun result char =>
          match leetMap.lookup (unicodeToLower tbl char) with
          | some leet => result ++ leet
          | none => result.push char)
        acc
      = String.mk (acc.data ++ l.map (specLeetChar tbl)) := by
  induction l generalizing acc with
  | nil => simp
  | cons c l ih =>
    rw [List.foldl_cons, toLeetspeak_step, ih]
    simp

theorem toLeetspeak_eq (tbl : Char → Char) (s : String) :
    toLeetspeak tbl s = String.mk (s.data.map (specLeetChar tbl)) := by
  unfold toLeetspeak
  rw [toLeetspeak_foldl]
  rfl

theorem specLeetChar_idem (tbl : Char → Char) (c : Char) :
    specLeetChar tbl (specLeetChar tbl c) = specLeetChar tbl c := by
  by_cases ha : unicodeToLower tbl c = 'a'
  · have h : specLeetChar tbl c = '4' := by simp [specLeetChar, ha]
    rw [h]; rfl
  by_cases he : unicodeToLower tbl c = 'e'
  · have h : specLeetChar tbl c = '3' := by simp [specLeetChar, he]
    rw [h]; rfl
  by_cases hi : unicodeToLower tbl c = 'i'
  · have h : specLeetChar tbl c = '1' := by simp [specLeetChar, hi]
    rw [h]; rfl
  by_cases ho : unicodeToLower tbl c = 'o'
  · have h : specLeetChar tbl c = '0' := by simp [specLeetChar, ho]
    rw [h]; rfl
  by_cases hs : unicodeToLower tbl c = 's'
  · have h : specLeetChar tbl c = '5' := by simp [specLeetChar, hs]
    rw [h]; rfl
  by_cases ht : unicodeToLower tbl c = 't'
  · have h : specLeetChar tbl c = '7' := by simp [specLeetChar, ht]
    rw [h]; rfl
  have h : specLeetChar tbl c = c := by simp [specLeetChar, ha, he, hi, ho, hs, ht]
  rw [h, h]

/-- C26: `toLeetspeak` maps its argument character by character: a character whose
lower-case form is `a`, `e`, `i`, `o`, `s`, `t` becomes `4`, `3`, `1`, `0`, `5`, `7`, every
other character stays as it is, with its case. The result has as many characters as the
argument, and `toLeetspeak` of the result is the result. -/
theorem toLeetspeak_char_by_char (tbl : Char → Char) (s : String) :
    toLeetspeak tbl s = String.mk (s.data.map (specLeetChar tbl))
      ∧ (∀ c : Char,
          specLeetChar tbl c
            = (if unicodeToLower tbl c = 'a' then '4'
               else if unicodeToLower tbl c = 'e' then '3'
               else if unicodeToLower tbl c = 'i' then '1'
               else if unicodeToLower tbl c = 'o' then '0'
               else if unicodeToLower tbl c = 's' then '5'
               else if unicodeToLower tbl c = 't' then '7'
               else c))
      ∧ (toLeetspeak tbl s).length = s.length
      ∧ toLeetspeak tbl (toLeetspeak tbl s) = toLeetspeak tbl s
      ∧ toLeetspeak caselessTable "Test Boat" = "7357 B047" := by
  refine ⟨toLeetspeak_eq tbl s, fun _ => rfl, ?_, ?_, by decide⟩
  · rw [toLeetspeak_eq]
    exact List.length_map _ _
  · rw [toLeetspeak_eq tbl s, toLeetspeak_eq]
    simp only [List.map_map]
    congr 1
    apply List.map_congr_left
    intro c _
    exact specLeetChar_idem tbl c

/-! ## Claims on the year suffix and on the common tier -/

theorem sliceFrom2_four_digits (y : Int) (h1 : 1000 ≤ y) (h2 : y ≤ 9999) :
    sliceFrom2 (formatInt y) = some (lastTwoDigits y) := by
  rw [sliceFrom2_two_digits y (by omega), toDigits_four _ (by omega) (by omega)]
  rfl

theorem addCommonLastNameForms_eq (tbl : Char → Char) (n : NameInfo) (f : String)
    (vs : List String) (b : Nat) (hb : byteAt0 f = some b) :
    addCommonLastNameForms tbl n f vs
      = some (vs ++
          (if n.LastName ≠ "" then
            [ToLower tbl n.LastName, f ++ ToLower tbl n.LastName,
             f ++ "." ++ ToLower tbl n.LastName, byteToString b ++ ToLower tbl n.LastName]
           else [])) := by
  unfold addCommonLastNameForms
  by_cases h : n.LastName = ""
  · simp [h]
  · rw [if_pos h, if_pos h, hb]
    rfl

theorem addCommonYearForms_four_digits (n : NameInfo) (f : String) (vs : List String)
    (hy : n.BirthYear = 0 ∨ (1000 ≤ n.BirthYear ∧ n.BirthYear ≤ 9999)) :
    addCommonYearForms n f vs
      = some (vs ++
          (if n.BirthYear > 0 then [f ++ formatInt n.BirthYear, f ++ lastTwoDigits n.BirthYear]
           else [])) := by
  unfold addCommonYearForms
  rcases hy with h0 | ⟨h1, h2⟩
  · simp [h0]
  · have hpos : n.BirthYear > 0 := by omega
    rw [if_pos hpos, if_pos hpos]
    simp only []
    rw [sliceFrom2_four_digits n.BirthYear h1 h2]
    rfl

theorem GenerateCommonUsernames_ascii_initial (tbl : Char → Char) (n : NameInfo)
    (hF : n.FirstName ≠ "") (ha : asciiInitial (ToLower tbl n.FirstName) = true)
    (hy : n.BirthYear = 0 ∨ (1000 ≤ n.BirthYear ∧ n.BirthYear ≤ 9999)) :
    GenerateCommonUsernames tbl n = some (specCommonUsernames tbl n) := by
  obtain ⟨b, hb, hbs⟩ :=
    byteAt0_ascii (ToLower tbl n.FirstName) (ToLower_ne_empty tbl n.FirstName hF) ha
  unfold GenerateCommonUsernames specCommonUsernames
  rw [if_neg hF]
  simp only []
  rw [addCommonLastNameForms_eq tbl n _ _ b hb, Option.some_bind,
    addCommonYearForms_four_digits n _ _ hy, Option.some_bind, removeDuplicates_eq, hbs]

theorem GenerateCommonUsernames_length_le (tbl : Char → Char) (n : NameInfo)
    (c : List String) (h : GenerateCommonUsernames tbl n = some c) : c.length ≤ 7 := by
  by_cases hF : n.FirstName = ""
  · unfold GenerateCommonUsernames at h
    rw [if_pos hF] at h
    cases h
    simp
  · obtain ⟨v1, v2, h1, h2, rfl⟩ := GenerateCommonUsernames_parts tbl n c hF h
    have hl1 : v1.length ≤ 5 := by
      rcases addCommonLastNameForms_some tbl n _ _ _ h1 with ⟨_, rfl⟩ | ⟨_, b, _, rfl⟩ <;> simp
    have hl2 : v2.length ≤ 7 := by
      rcases addCommonYearForms_some n _ _ _ h2 with ⟨_, rfl⟩ | ⟨_, s, _, rfl⟩
      · omega
      · simp only [List.length_append, List.length_cons, List.length_nil]
        omega
    rw [removeDuplicates_eq]
    exact le_trans (firstOccurrences_sublist v2).length_le hl2

theorem first_name_mem_common_seeds (tbl : Char → Char) (n : NameInfo) (v1 : List String)
    (h : addCommonLastNameForms tbl n (ToLower tbl n.FirstName) [ToLower tbl n.FirstName]
      = some v1) : ToLower tbl n.FirstName ∈ v1 := by
  rcases addCommonLastNameForms_some tbl n _ _ _ h with ⟨_, rfl⟩ | ⟨_, b, _, rfl⟩ <;> simp

theorem first_name_mem_seeds (tbl : Char → Char) (n : NameInfo) (v1 v2 : List String)
    (h1 : addLastNameForms tbl n [ToLower tbl n.FirstName] = some v1)
    (h2 : addMiddleInitialForms tbl n v1 = some v2) : ToLower tbl n.FirstName ∈ v2 := by
  apply addMiddleInitialForms_subset tbl n v1 v2 h2
  rcases addLastNameForms_some tbl n _ _ h1 with ⟨_, rfl⟩ | ⟨_, b, _, rfl⟩ <;> simp

/-- The year forms of the first name in both tiers, for a year of two or more digits: the
short suffix is the year numeral without its first two digits. -/
theorem short_year_forms (tbl : Char → Char) (n : NameInfo) (hF : n.FirstName ≠ "")
    (hy : 10 ≤ n.BirthYear) :
    ∃ c g, GenerateCommonUsernames tbl n = some c ∧ GenerateUsernames tbl n = some g
      ∧ ToLower tbl n.FirstName ++ formatInt n.BirthYear ∈ c
      ∧ ToLower tbl n.FirstName
          ++ String.mk ((Nat.toDigits 10 n.BirthYear.toNat).drop 2) ∈ c
      ∧ ToLower tbl n.FirstName ++ formatInt n.BirthYear ∈ g
      ∧ ToLower tbl n.FirstName
          ++ String.mk ((Nat.toDigits 10 n.BirthYear.toNat).drop 2) ∈ g := by
  have hpos : n.BirthYear > 0 := by omega
  have hs := sliceFrom2_two_digits n.BirthYear hy
  obtain ⟨b, hb⟩ := byteAt0_isSome (ToLower tbl n.FirstName) (ToLower_ne_empty tbl n.FirstName hF)
  have hc1 := addCommonLastNameForms_eq tbl n (ToLower tbl n.FirstName)
    [ToLower tbl n.FirstName] b hb
  have hc : ∃ c, GenerateCommonUsernames tbl n = some c := by
    unfold GenerateCommonUsernames
    rw [if_neg hF]
    simp only []
    rw [hc1, Option.some_bind]
    unfold addCommonYearForms
    rw [if_pos hpos]
    simp only []
    rw [hs]
    exact ⟨_, rfl⟩
  obtain ⟨c, hc⟩ := hc
  obtain ⟨g, hg⟩ := GenerateUsernames_isSome tbl n hF (Or.inr hy)
  refine ⟨c, g, hc, hg, ?_⟩
  obtain ⟨v1, v2, h1, h2, rfl⟩ := GenerateCommonUsernames_parts tbl n c hF hc
  obtain ⟨w1, w2, w3, k1, k2, k3, rfl⟩ := GenerateUsernames_parts tbl n g hF hg
  have hfw := first_name_mem_seeds tbl n w1 w2 k1 k2
  simp only [mem_removeDuplicates]
  rcases addCommonYearForms_some n _ _ _ h2 with ⟨hn, _⟩ | ⟨_, s, hs1, rfl⟩
  · exact absurd hpos hn
  rcases addYearForms_some n _ _ k3 with ⟨hn, _⟩ | ⟨_, s2, hs2, rfl⟩
  · exact absurd hpos hn
  rw [hs] at hs1 hs2
  cases hs1
  cases hs2
  have hm := mem_specYearForms w2 (formatInt n.BirthYear)
    (String.mk ((Nat.toDigits 10 n.BirthYear.toNat).drop 2)) _ hfw
  refine ⟨by simp, by simp, ?_, ?_⟩
  · exact List.mem_append_right _ hm.1
  · exact List.mem_append_right _ hm.2

set_option maxRecDepth 100000 in
/-- C24 fails on the code for a birth year that has not four digits: the short suffix is the
year numeral without its first two digits, so for John and the year 850 both tiers have
`john0` and not `john50`, and for the year 12345 they have `john345` and not `john45`. For
every year of two or more digits both tiers return a list with the first name followed by
the year numeral without its first two digits; for a year of four digits that is the first
name followed by the last two digits of the year, as C24 says. -/
theorem short_year_drops_first_two_digits :
    (GenerateCommonUsernames caselessTable { FirstName := "John", BirthYear := 850 }
        = some ["john", "john850", "john0"]
      ∧ GenerateUsernames caselessTable { FirstName := "John", BirthYear := 850 }
        = some ["john", "john850", "john0", "john_850", "john_0"]
      ∧ ToLower caselessTable "John" ++ lastTwoDigits 850 = "john50"
      ∧ "john50" ∉ ["john", "john850", "john0", "john_850", "john_0"]
      ∧ GenerateCommonUsernames caselessTable { FirstName := "John", BirthYear := 12345 }
        = some ["john", "john12345", "john345"]
      ∧ ToLower caselessTable "John" ++ lastTwoDigits 12345 = "john45")
      ∧ (∀ (tbl : Char → Char) (n : NameInfo), n.FirstName ≠ "" → 10 ≤ n.BirthYear →
          ∃ c g, GenerateCommonUsernames tbl n = some c ∧ GenerateUsernames tbl n = some g
            ∧ ToLower tbl n.FirstName
                ++ String.mk ((formatInt n.BirthYear).data.drop 2) ∈ c
            ∧ ToLower tbl n.FirstName
                ++ String.mk ((formatInt n.BirthYear).data.drop 2) ∈ g)
      ∧ (∀ (tbl : Char → Char) (n : NameInfo), n.FirstName ≠ "" →
          1000 ≤ n.BirthYear → n.BirthYear ≤ 9999 →
          ∃ c g, GenerateCommonUsernames tbl n = some c ∧ GenerateUsernames tbl n = some g
            ∧ ToLower tbl n.FirstName ++ lastTwoDigits n.BirthYear ∈ c
            ∧ ToLower tbl n.FirstName ++ lastTwoDigits n.BirthYear ∈ g) := by
  refine ⟨by decide, ?_, ?_⟩
  · intro tbl n hF hy
    obtain ⟨c, g, hc, hg, _, h2, _, h4⟩ := short_year_forms tbl n hF hy
    rw [formatInt_pos n.BirthYear (by omega)]
    exact ⟨c, g, hc, hg, h2, h4⟩
  · intro tbl n hF h1 h2
    obtain ⟨c, g, hc, hg, _, h3, _, h4⟩ := short_year_forms tbl n hF (by omega)
    have hd : String.mk ((Nat.toDigits 10 n.BirthYear.toNat).drop 2)
        = lastTwoDigits n.BirthYear := by
      rw [toDigits_four _ (by omega) (by omega)]
      rfl
    rw [hd] at h3 h4
    exact ⟨c, g, hc, hg, h3, h4⟩

/-- C25 fails on the code for a first name whose initial is not an ASCII character: the
initial is the first byte of the lower-cased first name, so for the first name `明华` and the
last name `Li` the common tier has `æli` where C25 has `明li`. When the lower-cased first
name begins with an ASCII character and the birth year is 0 or has four digits,
`GenerateCommonUsernames` returns the list of C25; and whatever the name, a list it returns
has at most 7 entries. -/
theorem common_tier_initial_is_first_byte :
    (GenerateCommonUsernames caselessTable { FirstName := "明华", LastName := "Li" }
        = some ["明华", "li", "明华li", "明华.li", "æli"]
      ∧ specCommonUsernames caselessTable { FirstName := "明华", LastName := "Li" }
        = ["明华", "li", "明华li", "明华.li", "明li"])
      ∧ (∀ (tbl : Char → Char) (n : NameInfo), n.FirstName ≠ "" →
          asciiInitial (ToLower tbl n.FirstName) = true →
          (n.BirthYear = 0 ∨ (1000 ≤ n.BirthYear ∧ n.BirthYear ≤ 9999)) →
          GenerateCommonUsernames tbl n = some (specCommonUsernames tbl n))
      ∧ (∀ (tbl : Char → Char) (n : NameInfo) (c : List String),
          GenerateCommonUsernames tbl n = some c → c.length ≤ 7)
      ∧ GenerateCommonUsernames caselessTable
          { FirstName := "John", LastName := "Doe", BirthYear := 1990 }
        = some ["john", "doe", "johndoe", "john.doe", "jdoe", "john1990", "john90"] := by
  refine ⟨by decide, ?_, ?_, by decide⟩
  · intro tbl n hF ha hy
    exact GenerateCommonUsernames_ascii_initial tbl n hF ha hy
  · intro tbl n c h
    exact GenerateCommonUsernames_length_le tbl n c h

/-! ## Claims on the order of equal-confidence matches -/

theorem moreConfident_tie (a b : ProfileMatch) (h : a.Confidence = b.Confidence) :
    moreConfident b a = false := by
  simp [moreConfident, h]

theorem insertionSort_pair_tie (less : ProfileMatch → ProfileMatch → Bool)
    (x y : ProfileMatch) (h : less y x = false) : insertionSort less [x, y] = [x, y] := by
  simp [insertionSort, insertRev, h]

theorem tied_pair_matches (sortSlice : SortSlice) (u v : String) (r : Result)
    (hr : r.Exists = true) (hsort : ∀ less x y, less y x = false → sortSlice less [x, y] = [x, y]) :
    (AnalyzeResults sortSlice [(u, [r]), (v, [r])]).Matches.map (fun m => m.Username)
      = [u, v] := by
  have hg : groupResultsByUsername [(u, [r]), (v, [r])]
      = [{ Username := u, Results := [r], MatchCount := 1, Confidence := 0.0,
           NameMatches := [] },
         { Username := v, Results := [r], MatchCount := 1, Confidence := 0.0,
           NameMatches := [] }] := by
    simp [groupResultsByUsername, foundResults, hr]
  unfold AnalyzeResults
  simp only [hg, calculateConfidenceScores, List.map_cons, List.map_nil]
  rw [hsort]
  · rfl
  · apply moreConfident_tie
    rfl

/-- C27 fails on the code: the map with the candidates `jdoe` and `johnd`, both found on
GitHub only and so of equal confidence, gives the matches in the order `jdoe`, `johnd` when
the map is iterated in that order and in the order `johnd`, `jdoe` when it is iterated in
the other order. -/
theorem tie_order_follows_iteration_order :
    (AnalyzeResults insertionSort tiedResults).Matches.map (fun m => m.Username)
        = ["jdoe", "johnd"]
      ∧ (AnalyzeResults insertionSort tiedResults.reverse).Matches.map (fun m => m.Username)
        = ["johnd", "jdoe"]
      ∧ tiedResults.reverse.Perm tiedResults
      ∧ keysDistinct tiedResults
      ∧ (AnalyzeResults insertionSort tiedResults).Matches
        ≠ (AnalyzeResults insertionSort tiedResults.reverse).Matches := by
  have h1 : (AnalyzeResults insertionSort tiedResults).Matches.map (fun m => m.Username)
      = ["jdoe", "johnd"] :=
    tied_pair_matches insertionSort "jdoe" "johnd" (sampleHit "GitHub") rfl
      insertionSort_pair_tie
  have h2 : (AnalyzeResults insertionSort tiedResults.reverse).Matches.map
      (fun m => m.Username) = ["johnd", "jdoe"] :=
    tied_pair_matches insertionSort "johnd" "jdoe" (sampleHit "GitHub") rfl
      insertionSort_pair_tie
  refine ⟨h1, h2, List.reverse_perm _, by unfold keysDistinct; decide, ?_⟩
  intro h
  rw [h, h2] at h1
  exact absurd h1 (by decide)

theorem matches_perm_of_perm (s1 s2 : SortSlice) (h1 : SortSliceContract s1)
    (h2 : SortSliceContract s2) (r1 r2 : List (String × List Result)) (hp : r1.Perm r2) :
    (AnalyzeResults s1 r1).Matches.Perm (AnalyzeResults s2 r2).Matches :=
  ((matches_perm s1 h1 r1).trans ((hp.filterMap groupEntry).map scoreMatch)).trans
    (matches_perm s2 h2 r2).symm

theorem confidences_eq_of_perm (xs ys : List ProfileMatch) (hp : xs.Perm ys)
    (hx : xs.Pairwise (fun a b => a.Confidence ≥ b.Confidence))
    (hy : ys.Pairwise (fun a b => a.Confidence ≥ b.Confidence)) :
    xs.map (fun m => m.Confidence) = ys.map (fun m => m.Confidence) := by
  have hx1 : (xs.map (fun m => m.Confidence)).Sorted (fun a b : ℚ => a ≥ b) :=
    List.pairwise_map.2 hx
  have hy1 : (ys.map (fun m => m.Confidence)).Sorted (fun a b : ℚ => a ≥ b) :=
    List.pairwise_map.2 hy
  exact List.eq_of_perm_of_sorted (hp.map _) hx1 hy1

theorem lookup_none_of_not_mem (site : String)
    (h : site ∉ ["GitHub", "Twitter", "LinkedIn", "Facebook", "Instagram"]) :
    highValuePlatforms.lookup site = none := by
  simp only [List.mem_cons, List.mem_singleton, List.mem_nil_iff, or_false, not_or] at h
  rw [lookup_highValue, if_neg h.1, if_neg h.2.1, if_neg h.2.2.1, if_neg h.2.2.2.1,
    if_neg h.2.2.2.2]

theorem foldl_addBonus_no_bonus (rs : List Result) (c : ℚ)
    (h : ∀ r ∈ rs, r.Site ∉ ["GitHub", "Twitter", "LinkedIn", "Facebook", "Instagram"]) :
    rs.foldl addBonus c = c := by
  induction rs generalizing c with
  | nil => rfl
  | cons r rs ih =>
    rw [List.foldl_cons, addBonus_of_none c r (lookup_none_of_not_mem _ (h r (by simp)))]
    exact ih c (fun x hx => h x (List.mem_cons_of_mem _ hx))

/-- Two matches of different confidence come out of every sort in one order. -/
theorem two_matches_order (sortSlice : SortSlice) (hs : SortSliceContract sortSlice)
    (r : List (String × List Result)) (a b : ProfileMatch)
    (hperm : ((r.filterMap groupEntry).map scoreMatch).Perm [a, b])
    (hlt : a.Confidence < b.Confidence) :
    (AnalyzeResults sortSlice r).Matches = [b, a] := by
  have hp := (matches_perm sortSlice hs r).trans hperm
  have hsorted := matches_pairwise sortSlice hs r
  have hne : a ≠ b := fun h => by rw [h] at hlt; exact lt_irrefl _ hlt
  match hM : (AnalyzeResults sortSlice r).Matches, hp.length_eq with
  | [x, y], _ =>
    rw [hM] at hp hsorted
    have hxy : x.Confidence ≥ y.Confidence := by
      rw [List.pairwise_cons] at hsorted
      exact hsorted.1 y (by simp)
    have hx : x = a ∨ x = b := by simpa using hp.subset (List.mem_cons_self x [y])
    have hy : y = a ∨ y = b := by
      simpa using hp.subset (List.mem_cons_of_mem x (List.mem_singleton_self y))
    have ha : a = x ∨ a = y := by simpa using hp.symm.subset (List.mem_cons_self a [b])
    have hb : b = x ∨ b = y := by
      simpa using hp.symm.subset (List.mem_cons_of_mem a (List.mem_singleton_self b))
    rcases hx with rfl | rfl
    · rcases hy with rfl | rfl
      · rcases hb with h | h <;> exact absurd h.symm hne
      · exact absurd hxy (not_le.2 hlt)
    · rcases hy with rfl | rfl
      · rfl
      · rcases ha with h | h <;> exact absurd h hne

/-- The candidates with eight and with nine hits are not tied: the stored base for eight hits
is just below the constant 0.9, so every sort puts the candidate with nine hits first, in
both iteration orders of the map. -/
theorem eight_and_nine_hits_order (sortSlice : SortSlice) (hs : SortSliceContract sortSlice) :
    (AnalyzeResults sortSlice eightAndNineHits).Matches.map (fun m => m.Username)
        = ["nine", "eight"]
      ∧ (AnalyzeResults sortSlice eightAndNineHits.reverse).Matches.map (fun m => m.Username)
        = ["nine", "eight"] := by
  obtain ⟨-, -, -, -, -, -, -, b8, b9⟩ := baseConfidence_values
  have h8 : ∀ r ∈ (List.range 8).map (fun i => sampleHit ("site" ++ Nat.repr i)),
      r.Site ∉ ["GitHub", "Twitter", "LinkedIn", "Facebook", "Instagram"] := by decide
  have h9 : ∀ r ∈ (List.range 9).map (fun i => sampleHit ("site" ++ Nat.repr i)),
      r.Site ∉ ["GitHub", "Twitter", "LinkedIn", "Facebook", "Instagram"] := by decide
  have g8 : groupEntry ("eight", (List.range 8).map (fun i => sampleHit ("site" ++ Nat.repr i)))
      = some { Username := "eight",
               Results := (List.range 8).map (fun i => sampleHit ("site" ++ Nat.repr i)),
               MatchCount := 8, Confidence := 0.0, NameMatches := [] } := by
    have hf : foundResults ((List.range 8).map (fun i => sampleHit ("site" ++ Nat.repr i)))
        = (List.range 8).map (fun i => sampleHit ("site" ++ Nat.repr i)) := by
      rw [foundResults_eq_filter]; decide
    unfold groupEntry
    simp only [hf]
    rfl
  have g9 : groupEntry ("nine", (List.range 9).map (fun i => sampleHit ("site" ++ Nat.repr i)))
      = some { Username := "nine",
               Results := (List.range 9).map (fun i => sampleHit ("site" ++ Nat.repr i)),
               MatchCount := 9, Confidence := 0.0, NameMatches := [] } := by
    have hf : foundResults ((List.range 9).map (fun i => sampleHit ("site" ++ Nat.repr i)))
        = (List.range 9).map (fun i => sampleHit ("site" ++ Nat.repr i)) := by
      rw [foundResults_eq_filter]; decide
    unfold groupEntry
    simp only [hf]
    rfl
  have hlt :
      (scoreMatch
        { Username := "eight",
          Results := (List.range 8).map (fun i => sampleHit ("site" ++ Nat.repr i)),
          MatchCount := 8, Confidence := 0.0, NameMatches := [] }).Confidence
      < (scoreMatch
        { Username := "nine",
          Results := (List.range 9).map (fun i => sampleHit ("site" ++ Nat.repr i)),
          MatchCount := 9, Confidence := 0.0, NameMatches := [] }).Confidence := by
    rw [scoreMatch_confidence, scoreMatch_confidence, foldl_addBonus_no_bonus _ _ h8,
      foldl_addBonus_no_bonus _ _ h9, b8, b9 9 (le_refl _)]
    norm_num
  constructor
  · rw [two_matches_order sortSlice hs eightAndNineHits _ _ ?_ hlt]
    · rfl
    · simp only [eightAndNineHits, List.filterMap_cons, g8, g9, List.filterMap_nil,
        List.map_cons, List.map_nil]
      exact List.Perm.refl _
  · rw [two_matches_order sortSlice hs eightAndNineHits.reverse _ _ ?_ hlt]
    · rfl
    · simp only [eightAndNineHits, List.reverse_cons, List.reverse_nil, List.nil_append,
        List.singleton_append, List.filterMap_cons, g8, g9, List.filterMap_nil,
        List.map_cons, List.map_nil]
      exact List.Perm.swap _ _ _

/-- C27, amended: `AnalyzeResults` is deterministic up to the order of equal-confidence
matches. For two iteration orders of the same map and two sorts that keep the contract of
`sort.Slice`, the two `Matches` sequences hold the same matches, both are sorted by
non-increasing confidence, their confidences agree position by position, and a match whose
stored confidence no other match of the result has stands at the same position in both. The
confidences are the stored `float64` values: the candidates with eight and with nine hits,
whose exact decimal scores are both 0.90, are not tied, and nine hits come first. -/
theorem matches_determined_up_to_ties (s1 s2 : SortSlice) (h1 : SortSliceContract s1)
    (h2 : SortSliceContract s2) (r1 r2 : List (String × List Result)) (hp : r1.Perm r2) :
    (AnalyzeResults s1 r1).Matches.Perm (AnalyzeResults s2 r2).Matches
      ∧ (AnalyzeResults s1 r1).Matches.Pairwise (fun a b => a.Confidence ≥ b.Confidence)
      ∧ (AnalyzeResults s2 r2).Matches.Pairwise (fun a b => a.Confidence ≥ b.Confidence)
      ∧ (AnalyzeResults s1 r1).Matches.map (fun m => m.Confidence)
          = (AnalyzeResults s2 r2).Matches.map (fun m => m.Confidence)
      ∧ (∀ (i : Nat) (m : ProfileMatch), (AnalyzeResults s1 r1).Matches.get? i = some m →
          (∀ m2 ∈ (AnalyzeResults s1 r1).Matches, m2.Confidence = m.Confidence → m2 = m) →
          (AnalyzeResults s2 r2).Matches.get? i = some m)
      ∧ (AnalyzeResults s1 eightAndNineHits).Matches.map (fun m => m.Username)
          = ["nine", "eight"]
      ∧ (AnalyzeResults s2 eightAndNineHits.reverse).Matches.map (fun m => m.Username)
          = ["nine", "eight"]
      ∧ baseConfidence 8 < baseConfidence 9
      ∧ specBase 8 = specBase 9 := by
  have hperm := matches_perm_of_perm s1 s2 h1 h2 r1 r2 hp
  have hs1 := matches_pairwise s1 h1 r1
  have hs2 := matches_pairwise s2 h2 r2
  have hconf := confidences_eq_of_perm _ _ hperm hs1 hs2
  have hbase : baseConfidence 8 < baseConfidence 9 := by
    obtain ⟨-, -, -, -, -, -, -, b8, b9⟩ := baseConfidence_values
    rw [b8, b9 9 (le_refl _)]
    norm_num
  refine ⟨hperm, hs1, hs2, hconf, ?_, (eight_and_nine_hits_order s1 h1).1,
    (eight_and_nine_hits_order s2 h2).2, hbase, by norm_num [specBase]⟩
  intro i m hi huniq
  have hc1 : ((AnalyzeResults s1 r1).Matches.map (fun m => m.Confidence)).get? i
      = some m.Confidence := by
    rw [List.get?_map, hi]; rfl
  rw [hconf, List.get?_map] at hc1
  cases hm2 : (AnalyzeResults s2 r2).Matches.get? i with
  | none => rw [hm2] at hc1; cases hc1
  | some m2 =>
    rw [hm2] at hc1
    have hce : m2.Confidence = m.Confidence := by
      simpa using hc1
    have hmem : m2 ∈ (AnalyzeResults s1 r1).Matches :=
      hperm.symm.subset (List.get?_mem hm2)
    rw [huniq m2 hmem hce]

/-- Witness of C27: the two iteration orders of the map with two tied candidates. -/
theorem matches_determined_up_to_ties_witness :
    (AnalyzeResults insertionSort tiedResults).Matches.Perm
        (AnalyzeResults insertionSort tiedResults.reverse).Matches
      ∧ (AnalyzeResults insertionSort tiedResults).Matches.map (fun m => m.Confidence)
          = (AnalyzeResults insertionSort tiedResults.reverse).Matches.map
              (fun m => m.Confidence) :=
  ⟨(matches_determined_up_to_ties insertionSort insertionSort insertionSort_contract
      insertionSort_contract tiedResults tiedResults.reverse (List.reverse_perm _).symm).1,
   (matches_determined_up_to_ties insertionSort insertionSort insertionSort_contract
      insertionSort_contract tiedResults tiedResults.reverse
      (List.reverse_perm _).symm).2.2.2.1⟩

/-! ## Claims on goroutines that share a `Checker` -/

theorem get?_split {α : Type} (l : List α) (i : Nat) (g : α) (h : l.get? i = some g) :
    ∃ pre post, l = pre ++ g :: post ∧ ∀ g', l.set i g' = pre ++ g' :: post := by
  induction l generalizing i with
  | nil => cases h
  | cons x xs ih =>
    cases i with
    | zero =>
      simp only [List.get?_cons_zero, Option.some.injEq] at h
      subst h
      exact ⟨[], xs, rfl, fun _ => rfl⟩
    | succ i =>
      simp only [List.get?_cons_succ] at h
      obtain ⟨pre, post, h1, h2⟩ := ih i h
      refine ⟨x :: pre, post, by rw [h1]; rfl, fun g' => ?_⟩
      rw [List.set_cons_succ, h2 g']
      rfl

theorem countP_split {α : Type} (p : α → Bool) (pre post : List α) (g : α) :
    (pre ++ g :: post).countP p
      = pre.countP p + (if p g = true then 1 else 0) + post.countP p := by
  rw [List.countP_append, List.countP_cons]
  omega

/-- The goroutine that holds the mutex is the only one that does. -/
theorem holder_alone (pre post : List Goroutine) (g : Goroutine) (locked : Bool)
    (hm : (pre ++ g :: post).countP (fun g => g.pc.holdsLock) = if locked = true then 1 else 0)
    (hg : g.pc.holdsLock = true) :
    locked = true ∧ (∀ x ∈ pre, x.pc.holdsLock = false)
      ∧ (∀ x ∈ post, x.pc.holdsLock = false) := by
  rw [countP_split, if_pos hg] at hm
  cases locked with
  | false => simp at hm
  | true =>
    simp only [if_true] at hm
    have h1 : pre.countP (fun g => g.pc.holdsLock) = 0 := by omega
    have h2 : post.countP (fun g => g.pc.holdsLock) = 0 := by omega
    rw [List.countP_eq_zero] at h1 h2
    exact ⟨rfl, fun x hx => by simpa using h1 x hx, fun x hx => by simpa using h2 x hx⟩

theorem CheckStats.read_write (s : CheckStats) (k k' : Counter) (v : Int) :
    (s.write k v).read k' = if k' = k then v else s.read k' := by
  cases k <;> cases k' <;> simp [CheckStats.read, CheckStats.write]

theorem CheckStats.write_frame (s : CheckStats) (k : Counter) (v : Int) :
    (s.write k v).Total = s.Total ∧ (s.write k v).StartTime = s.StartTime
      ∧ (s.write k v).EndTime = s.EndTime := by
  cases k <;> simp [CheckStats.write]

theorem CheckStats.read_total (s : CheckStats) (k : Counter) (v : Int) :
    ({ s with Total := v } : CheckStats).read k = s.read k := by
  cases k <;> rfl

theorem invariant_spawn (c : Checker) (calls : List Call) :
    Invariant c.Stats (spawn c calls) where
  counter := by
    intro k
    have : (spawn c calls).goroutines.countP
        (fun g => decide (g.counter = k) && g.pc.wroteCounter) = 0 := by
      rw [List.countP_eq_zero]
      intro g hg
      obtain ⟨call, -, rfl⟩ := List.mem_map.1 hg
      simp [Pc.wroteCounter]
    rw [this]
    simp [spawn]
  total := by
    have : (spawn c calls).goroutines.countP (fun g => g.pc.wroteTotal) = 0 := by
      rw [List.countP_eq_zero]
      intro g hg
      obtain ⟨call, -, rfl⟩ := List.mem_map.1 hg
      simp [Pc.wroteTotal]
    rw [this]
    simp [spawn]
  times := ⟨rfl, rfl⟩
  mutex := by
    have : (spawn c calls).goroutines.countP (fun g => g.pc.holdsLock) = 0 := by
      rw [List.countP_eq_zero]
      intro g hg
      obtain ⟨call, -, rfl⟩ := List.mem_map.1 hg
      simp [Pc.holdsLock]
    rw [this]
    simp [spawn]
  regCounter := by
    intro g hg hpc
    obtain ⟨call, -, rfl⟩ := List.mem_map.1 hg
    cases hpc
  regTotal := by
    intro g hg hpc
    obtain ⟨call, -, rfl⟩ := List.mem_map.1 hg
    cases hpc

/-- The invariant after goroutine `g` has become `g'`, given what the step did to the
counters and to the mutex. -/
theorem invariant_update (s0 : CheckStats) (s : Shared) (pre post : List Goroutine)
    (g g' : Goroutine) (stats' : CheckStats) (locked' : Bool)
    (hl : s.goroutines = pre ++ g :: post) (h : Invariant s0 s)
    (hcounter : ∀ k, stats'.read k
        + (if (decide (g.counter = k) && g.pc.wroteCounter) = true then 1 else 0)
      = s.stats.read k
        + (if (decide (g'.counter = k) && g'.pc.wroteCounter) = true then 1 else 0))
    (htotal : stats'.Total + (if g.pc.wroteTotal = true then 1 else 0)
      = s.stats.Total + (if g'.pc.wroteTotal = true then 1 else 0))
    (htimes : stats'.StartTime = s.stats.StartTime ∧ stats'.EndTime = s.stats.EndTime)
    (hmutex : (if locked' = true then 1 else 0) + (if g.pc.holdsLock = true then 1 else 0)
      = (if s.locked = true then 1 else 0) + (if g'.pc.holdsLock = true then 1 else 0))
    (hreg1 : g'.pc = Pc.storeCounter → g'.reg = stats'.read g'.counter)
    (hreg2 : g'.pc = Pc.storeTotal → g'.reg = stats'.Total)
    (hothers : stats' = s.stats ∨ ∀ x, x ∈ pre ∨ x ∈ post → x.pc.holdsLock = false) :
    Invariant s0 { stats := stats', locked := locked', goroutines := pre ++ g' :: post } where
  counter := by
    intro k
    have h1 := h.counter k
    have h2 := hcounter k
    rw [hl, countP_split] at h1
    show stats'.read k = s0.read k + ((pre ++ g' :: post).countP _ : Int)
    rw [countP_split]
    push_cast at h1 ⊢
    split_ifs at h1 h2 ⊢ <;> omega
  total := by
    have h1 := h.total
    rw [hl, countP_split] at h1
    show stats'.Total = s0.Total + ((pre ++ g' :: post).countP _ : Int)
    rw [countP_split]
    push_cast at h1 ⊢
    split_ifs at h1 htotal ⊢ <;> omega
  times := ⟨htimes.1.trans h.times.1, htimes.2.trans h.times.2⟩
  mutex := by
    have h1 := h.mutex
    rw [hl, countP_split] at h1
    show (pre ++ g' :: post).countP _ = if locked' = true then 1 else 0
    rw [countP_split]
    split_ifs at h1 hmutex ⊢ <;> omega
  regCounter := by
    intro x hx hpc
    show x.reg = stats'.read x.counter
    rcases List.mem_append.1 hx with hp | hp
    · rcases hothers with he | hn
      · rw [he]; exact h.regCounter x (by rw [hl]; simp [hp]) hpc
      · have := hn x (Or.inl hp); rw [hpc] at this; cases this
    · rcases List.mem_cons.1 hp with rfl | hp
      · exact hreg1 hpc
      · rcases hothers with he | hn
        · rw [he]; exact h.regCounter x (by rw [hl]; simp [hp]) hpc
        · have := hn x (Or.inr hp); rw [hpc] at this; cases this
  regTotal := by
    intro x hx hpc
    show x.reg = stats'.Total
    rcases List.mem_append.1 hx with hp | hp
    · rcases hothers with he | hn
      · rw [he]; exact h.regTotal x (by rw [hl]; simp [hp]) hpc
      · have := hn x (Or.inl hp); rw [hpc] at this; cases this
    · rcases List.mem_cons.1 hp with rfl | hp
      · exact hreg2 hpc
      · rcases hothers with he | hn
        · rw [he]; exact h.regTotal x (by rw [hl]; simp [hp]) hpc
        · have := hn x (Or.inr hp); rw [hpc] at this; cases this

/-- Every step of every goroutine keeps the invariant. -/
theorem invariant_step (s0 : CheckStats) (s : Shared) (i : Nat) (h : Invariant s0 s) :
    Invariant s0 (s.step i) := by
  unfold Shared.step
  cases hg : s.goroutines.get? i with
  | none => exact h
  | some g =>
    obtain ⟨pre, post, hl, hset⟩ := get?_split s.goroutines i g hg
    have halone : g.pc.holdsLock = true →
        s.locked = true ∧ ∀ x, x ∈ pre ∨ x ∈ post → x.pc.holdsLock = false := by
      intro hh
      have hm := h.mutex
      rw [hl] at hm
      obtain ⟨a, b, c⟩ := holder_alone pre post g s.locked hm hh
      exact ⟨a, fun x hx => hx.elim (b x) (c x)⟩
    simp only []
    cases hpc : g.pc with
    | lock =>
      simp only []
      cases hlk : s.locked with
      | true => simp only [if_true]; exact h
      | false =>
        simp only [Bool.false_eq_true, if_false]
        rw [hset]
        apply invariant_update s0 s pre post g _ s.stats true hl h
        · intro k; simp [hpc, Pc.wroteCounter]
        · simp [hpc, Pc.wroteTotal]
        · exact ⟨rfl, rfl⟩
        · simp [hpc, hlk, Pc.holdsLock]
        · intro hc; cases hc
        · intro hc; cases hc
        · exact Or.inl rfl
    | loadCounter =>
      simp only []
      rw [hset]
      obtain ⟨hlk, _⟩ := halone (by rw [hpc]; rfl)
      apply invariant_update s0 s pre post g _ s.stats s.locked hl h
      · intro k; simp [hpc, Pc.wroteCounter]
      · simp [hpc, Pc.wroteTotal]
      · exact ⟨rfl, rfl⟩
      · simp [hpc, Pc.holdsLock]
      · intro _; rfl
      · intro hc; cases hc
      · exact Or.inl rfl
    | storeCounter =>
      simp only []
      rw [hset]
      obtain ⟨hlk, hoth⟩ := halone (by rw [hpc]; rfl)
      have hreg := h.regCounter g (by rw [hl]; simp) hpc
      apply invariant_update s0 s pre post g _ (s.stats.write g.counter (g.reg + 1)) s.locked
        hl h
      · intro k
        rw [CheckStats.read_write]
        by_cases hk : k = g.counter
        · subst hk
          simp [hpc, Pc.wroteCounter, hreg]
        · have hk' : ¬ g.counter = k := fun e => hk e.symm
          simp [hpc, Pc.wroteCounter, hk, hk']
      · rw [(CheckStats.write_frame _ _ _).1]
        simp [hpc, Pc.wroteTotal]
      · exact ⟨(CheckStats.write_frame _ _ _).2.1, (CheckStats.write_frame _ _ _).2.2⟩
      · simp [hpc, Pc.holdsLock]
      · intro hc; cases hc
      · intro hc; cases hc
      · exact Or.inr hoth
    | loadTotal =>
      simp only []
      rw [hset]
      apply invariant_update s0 s pre post g _ s.stats s.locked hl h
      · intro k; simp [hpc, Pc.wroteCounter]
      · simp [hpc, Pc.wroteTotal]
      · exact ⟨rfl, rfl⟩
      · simp [hpc, Pc.holdsLock]
      · intro hc; cases hc
      · intro _; rfl
      · exact Or.inl rfl
    | storeTotal =>
      simp only []
      rw [hset]
      obtain ⟨hlk, hoth⟩ := halone (by rw [hpc]; rfl)
      have hreg := h.regTotal g (by rw [hl]; simp) hpc
      apply invariant_update s0 s pre post g _ { s.stats with Total := g.reg + 1 } s.locked
        hl h
      · intro k
        rw [CheckStats.read_total]
        simp [hpc, Pc.wroteCounter]
      · simp [hpc, Pc.wroteTotal, hreg]
      · exact ⟨rfl, rfl⟩
      · simp [hpc, Pc.holdsLock]
      · intro hc; cases hc
      · intro hc; cases hc
      · exact Or.inr hoth
    | unlock =>
      simp only []
      rw [hset]
      obtain ⟨hlk, hoth⟩ := halone (by rw [hpc]; rfl)
      apply invariant_update s0 s pre post g _ s.stats false hl h
      · intro k; simp [hpc, Pc.wroteCounter]
      · simp [hpc, Pc.wroteTotal]
      · exact ⟨rfl, rfl⟩
      · simp [hpc, hlk, Pc.holdsLock]
      · intro hc; cases hc
      · intro hc; cases hc
      · exact Or.inl rfl
    | done => exact h

theorem invariant_run (s0 : CheckStats) (schedule : List Nat) (s : Shared)
    (h : Invariant s0 s) : Invariant s0 (s.run schedule) := by
  induction schedule generalizing s with
  | nil => exact h
  | cons i rest ih => exact ih (s.step i) (invariant_step s0 s i h)

theorem step_counters (s : Shared) (i : Nat) :
    (s.step i).goroutines.map (fun g => g.counter) = s.goroutines.map (fun g => g.counter) := by
  unfold Shared.step
  cases hg : s.goroutines.get? i with
  | none => rfl
  | some g =>
    obtain ⟨pre, post, hl, hset⟩ := get?_split s.goroutines i g hg
    simp only []
    cases hpc : g.pc with
    | lock =>
      simp only []
      cases hlk : s.locked with
      | true => rfl
      | false => simp only [hset, Bool.false_eq_true, if_false]; simp [hl]
    | loadCounter => simp only [hset]; simp [hl]
    | storeCounter => simp only [hset]; simp [hl]
    | loadTotal => simp only [hset]; simp [hl]
    | storeTotal => simp only [hset]; simp [hl]
    | unlock => simp only [hset]; simp [hl]
    | done => rfl

theorem run_counters (schedule : List Nat) (s : Shared) :
    (s.run schedule).goroutines.map (fun g => g.counter)
      = s.goroutines.map (fun g => g.counter) := by
  induction schedule generalizing s with
  | nil => rfl
  | cons i rest ih =>
    show ((s.step i).run rest).goroutines.map _ = _
    rw [ih, step_counters]

/-- What one call of `CheckUsername` does to the counters, by its increment method. -/
theorem CheckUsername_increment (c : Checker) (call : Call) :
    (c.CheckUsername call.username call.site call.url call.answer).1.Stats
      = { c.Stats.write call.increment (c.Stats.read call.increment + 1) with
          Total := c.Stats.Total + 1 } := by
  unfold Call.increment Checker.CheckUsername
  cases call.answer with
  | requestError err =>
    simp [Checker.incrementErrors, CheckStats.write, CheckStats.read]
  | transportError err =>
    simp [Checker.incrementErrors, CheckStats.write, CheckStats.read]
  | response statusCode finalURL =>
    by_cases h1 : statusCode ≥ 200 <;> by_cases h2 : statusCode < 300 <;>
      by_cases h3 : call.site = "GitHub" <;> by_cases h4 : Contains finalURL "404" = true <;>
      simp [h1, h2, h3, h4, Checker.incrementFound, Checker.incrementNotFound,
        CheckStats.write, CheckStats.read]

/-- The counters after the calls made one after the other. -/
theorem sequential_stats (calls : List Call) (c : Checker) :
    (∀ k, (sequential c calls).Stats.read k
        = c.Stats.read k + (calls.countP (fun call => decide (call.increment = k)) : Int))
      ∧ (sequential c calls).Stats.Total = c.Stats.Total + (calls.length : Int)
      ∧ (sequential c calls).Stats.StartTime = c.Stats.StartTime
      ∧ (sequential c calls).Stats.EndTime = c.Stats.EndTime := by
  induction calls generalizing c with
  | nil => simp [sequential]
  | cons call rest ih =>
    obtain ⟨h1, h2, h3, h4⟩ :=
      ih (c.CheckUsername call.username call.site call.url call.answer).1
    have hs : sequential c (call :: rest)
        = sequential (c.CheckUsername call.username call.site call.url call.answer).1 rest :=
      rfl
    rw [hs]
    have hk := CheckUsername_increment c call
    refine ⟨?_, ?_, ?_, ?_⟩
    · intro k
      rw [h1 k, hk, CheckStats.read_total, CheckStats.read_write, List.countP_cons]
      by_cases hkk : k = call.increment
      · subst hkk
        simp
        ring
      · have hkk' : ¬ call.increment = k := fun e => hkk e.symm
        simp [hkk, hkk']
    · rw [h2, hk, List.length_cons]
      push_cast
      ring
    · rw [h3, hk]
      exact (CheckStats.write_frame _ _ _).2.1
    · rw [h4, hk]
      exact (CheckStats.write_frame _ _ _).2.2

theorem CheckStats.ext_read (a b : CheckStats) (h : ∀ k, a.read k = b.read k)
    (ht : a.Total = b.Total) (hs : a.StartTime = b.StartTime) (he : a.EndTime = b.EndTime) :
    a = b := by
  have h1 := h Counter.found
  have h2 := h Counter.notFound
  have h3 := h Counter.errors
  cases a
  cases b
  simp only [CheckStats.read] at h1 h2 h3
  simp only [CheckStats.mk.injEq]
  exact ⟨ht, h1, h2, h3, hs, he⟩

theorem countP_of_all {α : Type} (p q : α → Bool) (l : List α) (h : ∀ x ∈ l, q x = true) :
    l.countP (fun x => p x && q x) = l.countP p := by
  apply List.countP_congr
  intro x hx
  simp [h x hx]

theorem counters_partition (l : List Counter) :
    l.countP (fun k => decide (k = Counter.found))
      + l.countP (fun k => decide (k = Counter.notFound))
      + l.countP (fun k => decide (k = Counter.errors)) = l.length := by
  induction l with
  | nil => rfl
  | cons k l ih =>
    simp only [List.countP_cons, List.length_cons]
    cases k <;> simp <;> omega

/-- The state at the end of a run in which every call has completed. -/
theorem complete_run (c : Checker) (calls : List Call) (schedule : List Nat)
    (hdone : ((spawn c calls).run schedule).allDone = true) :
    (∀ k, ((spawn c calls).run schedule).stats.read k
        = c.Stats.read k + (calls.countP (fun call => decide (call.increment = k)) : Int))
      ∧ ((spawn c calls).run schedule).stats.Total = c.Stats.Total + (calls.length : Int)
      ∧ ((spawn c calls).run schedule).stats.StartTime = c.Stats.StartTime
      ∧ ((spawn c calls).run schedule).stats.EndTime = c.Stats.EndTime
      ∧ ((spawn c calls).run schedule).locked = false := by
  have hinv := invariant_run c.Stats schedule (spawn c calls) (invariant_spawn c calls)
  have hmap := run_counters schedule (spawn c calls)
  have hall : ∀ g ∈ ((spawn c calls).run schedule).goroutines, g.pc = Pc.done := by
    intro g hg
    have := List.all_eq_true.1 hdone g hg
    simpa using this
  have hspawn : (spawn c calls).goroutines.map (fun g => g.counter)
      = calls.map (fun call => call.increment) := by
    simp [spawn, List.map_map, Function.comp]
  rw [hspawn] at hmap
  have hlen : ((spawn c calls).run schedule).goroutines.length = calls.length := by
    have := congrArg List.length hmap
    simpa using this
  refine ⟨?_, ?_, hinv.times.1, hinv.times.2, ?_⟩
  · intro k
    rw [hinv.counter k]
    congr 2
    rw [countP_of_all (fun g : Goroutine => decide (g.counter = k))
      (fun g : Goroutine => g.pc.wroteCounter) _
      (fun g hg => by show g.pc.wroteCounter = true; rw [hall g hg]; rfl)]
    have h1 : ((spawn c calls).run schedule).goroutines.countP (fun g => decide (g.counter = k))
        = (((spawn c calls).run schedule).goroutines.map (fun g => g.counter)).countP
            (fun x => decide (x = k)) := by
      rw [List.countP_map]; rfl
    rw [h1, hmap, List.countP_map]
    rfl
  · rw [hinv.total]
    congr 2
    have : ((spawn c calls).run schedule).goroutines.countP (fun g => g.pc.wroteTotal)
        = ((spawn c calls).run schedule).goroutines.length := by
      rw [List.countP_eq_length]
      intro g hg
      rw [hall g hg]; rfl
    rw [this, hlen]
  · have hm := hinv.mutex
    have : ((spawn c calls).run schedule).goroutines.countP (fun g => g.pc.holdsLock) = 0 := by
      rw [List.countP_eq_zero]
      intro g hg
      rw [hall g hg]; simp [Pc.holdsLock]
    rw [this] at hm
    cases hlk : ((spawn c calls).run schedule).locked with
    | false => rfl
    | true => rw [hlk] at hm; simp at hm

theorem get?_middle {α : Type} (pre post : List α) (g : α) :
    (pre ++ g :: post).get? pre.length = some g := by
  induction pre with
  | nil => rfl
  | cons x pre ih => simpa using ih

theorem set_middle {α : Type} (pre post : List α) (g g' : α) :
    (pre ++ g :: post).set pre.length g' = pre ++ g' :: post := by
  induction pre with
  | nil => rfl
  | cons x pre ih => simp [ih]

/-- The six steps of a goroutine that finds the mutex free, without a step of another
goroutine in between. -/
theorem six_steps (stats : CheckStats) (pre post : List Goroutine) (g : Goroutine)
    (hpc : g.pc = Pc.lock) :
    ({ stats := stats, locked := false, goroutines := pre ++ g :: post } : Shared).run
        (List.replicate 6 pre.length)
      = { stats := { stats.write g.counter (stats.read g.counter + 1) with
                     Total := (stats.write g.counter (stats.read g.counter + 1)).Total + 1 },
          locked := false,
          goroutines := pre ++ { counter := g.counter, pc := Pc.done,
                                 reg := (stats.write g.counter (stats.read g.counter + 1)).Total }
                        :: post } := by
  simp only [List.replicate, Shared.run, List.foldl_cons, List.foldl_nil]
  simp only [Shared.step, get?_middle, set_middle, hpc, Bool.false_eq_true, if_false]

theorem run_append (s : Shared) (a b : List Nat) : s.run (a ++ b) = (s.run a).run b := by
  simp [Shared.run, List.foldl_append]

theorem sequential_completes (fresh : List Goroutine) :
    ∀ (stats : CheckStats) (dones : List Goroutine),
      (∀ g ∈ dones, g.pc = Pc.done) → (∀ g ∈ fresh, g.pc = Pc.lock) →
      (({ stats := stats, locked := false, goroutines := dones ++ fresh } : Shared).run
        ((List.range' dones.length fresh.length).flatMap
          (fun i => List.replicate 6 i))).allDone = true := by
  induction fresh with
  | nil =>
    intro stats dones hd _
    simp only [List.length_nil, List.range'_zero, List.flatMap_nil, Shared.run, List.foldl_nil,
      Shared.allDone, List.append_nil, List.all_eq_true, decide_eq_true_eq]
    exact hd
  | cons g rest ih =>
    intro stats dones hd hf
    rw [List.length_cons, List.range'_succ, List.flatMap_cons, run_append,
      six_steps stats dones rest g (hf g (List.mem_cons_self _ _))]
    have h := ih
      { stats.write g.counter (stats.read g.counter + 1) with
        Total := (stats.write g.counter (stats.read g.counter + 1)).Total + 1 }
      (dones ++ [{ counter := g.counter, pc := Pc.done,
                   reg := (stats.write g.counter (stats.read g.counter + 1)).Total }])
      (by
        intro x hx
        rcases List.mem_append.1 hx with h1 | h1
        · exact hd x h1
        · rw [List.mem_singleton.1 h1])
      (fun x hx => hf x (List.mem_cons_of_mem _ hx))
    simpa [List.append_assoc] using h

/-- Every set of calls has a run in which all calls complete: the goroutines one after the
other. -/
theorem sequentialSchedule_completes (c : Checker) (calls : List Call) :
    ((spawn c calls).run (sequentialSchedule calls.length)).allDone = true := by
  have h := sequential_completes
    (calls.map (fun call => ({ counter := call.increment, pc := Pc.lock, reg := 0 } : Goroutine)))
    c.Stats [] (by simp) (by
      intro g hg
      obtain ⟨call, -, rfl⟩ := List.mem_map.1 hg
      rfl)
  simp only [List.nil_append, List.length_nil, List.length_map] at h
  unfold sequentialSchedule
  rw [List.range_eq_range']
  exact h

/-- C28: for any number of calls of `CheckUsername` that run as goroutines on one checker,
in every interleaving of their steps (for each call: `Lock`, the read and the write of its
counter, the read and the write of `Total`, `Unlock`), once all calls have completed `Total`
has grown by the number of calls, `Found + NotFound + Errors` has grown by the number of
calls, every counter has grown by the number of calls that bump it, and the counters are
those of the same calls made one after the other; the mutex is free again. Such complete
runs exist for every list of calls. -/
theorem no_update_is_lost (c : Checker) (calls : List Call) (schedule : List Nat)
    (hdone : ((spawn c calls).run schedule).allDone = true) :
    ((spawn c calls).run schedule).stats.Total = c.Stats.Total + (calls.length : Int)
      ∧ ((spawn c calls).run schedule).stats.Found
          + ((spawn c calls).run schedule).stats.NotFound
          + ((spawn c calls).run schedule).stats.Errors
        = c.Stats.Found + c.Stats.NotFound + c.Stats.Errors + (calls.length : Int)
      ∧ (∀ k, ((spawn c calls).run schedule).stats.read k
          = c.Stats.read k + (calls.countP (fun call => decide (call.increment = k)) : Int))
      ∧ ((spawn c calls).run schedule).stats = (sequential c calls).Stats
      ∧ ((spawn c calls).run schedule).locked = false
      ∧ ((spawn c calls).run (sequentialSchedule calls.length)).allDone = true := by
  obtain ⟨h1, h2, h3, h4, h5⟩ := complete_run c calls schedule hdone
  obtain ⟨q1, q2, q3, q4⟩ := sequential_stats calls c
  refine ⟨h2, ?_, h1, ?_, h5, sequentialSchedule_completes c calls⟩
  · have hf := h1 Counter.found
    have hn := h1 Counter.notFound
    have he := h1 Counter.errors
    simp only [CheckStats.read] at hf hn he
    have hp := counters_partition (calls.map (fun call => call.increment))
    simp only [List.countP_map, List.length_map] at hp
    have hp' : ((calls.countP (fun call => decide (call.increment = Counter.found)) : Int))
        + (calls.countP (fun call => decide (call.increment = Counter.notFound)) : Int)
        + (calls.countP (fun call => decide (call.increment = Counter.errors)) : Int)
        = (calls.length : Int) := by
      exact_mod_cast hp
    rw [hf, hn, he]
    linarith
  · apply CheckStats.ext_read
    · intro k; rw [h1 k, q1 k]
    · rw [h2, q2]
    · rw [h3, q3]
    · rw [h4, q4]

/-- Witness of C28: three calls in an interleaving in which two goroutines find the mutex
locked. -/
theorem no_update_is_lost_witness :
    ((spawn (NewChecker 10 false 0) threeCalls).run interleavedSchedule).allDone = true
      ∧ ((spawn (NewChecker 10 false 0) threeCalls).run interleavedSchedule).stats
        = { Total := 3, Found := 2, NotFound := 0, Errors := 1, StartTime := 0, EndTime := 0 }
      ∧ ((spawn (NewChecker 10 false 0) threeCalls).run interleavedSchedule).stats
        = (sequential (NewChecker 10 false 0) threeCalls).Stats :=
  ⟨by decide, by decide,
    (no_update_is_lost (NewChecker 10 false 0) threeCalls interleavedSchedule (by decide)).2.2.2.1⟩

/-- Without mutual exclusion an update is lost: when `Lock` never blocks and two goroutines
that both bump `Found` read it before either writes it, both complete and `Found` has grown
by one. -/
theorem unguarded_run_loses_update :
    ((spawn (NewChecker 10 false 0) (threeCalls.take 2)).runUnguarded racingSchedule).allDone
        = true
      ∧ ((spawn (NewChecker 10 false 0) (threeCalls.take 2)).runUnguarded racingSchedule).stats
        = { Total := 2, Found := 1, NotFound := 0, Errors := 0, StartTime := 0, EndTime := 0 }
      ∧ (sequential (NewChecker 10 false 0) (threeCalls.take 2)).Stats
        = { Total := 2, Found := 2, NotFound := 0, Errors := 0, StartTime := 0,
            EndTime := 0 } := by
  decide

end Accio
